import Mathlib

/-!
Shallow embedding of the moov-io TR-31 key-block codec
(src/encryption/psecTr31.go and the CBC-MAC engine of the tr31 package),
together with proofs about its header codec, padding, key derivation and
wrap/unwrap pipelines.

Modelling conventions:
* Go `[]byte` and Go `string` are both modelled as `List Nat`, every entry a
  byte value below 256 (Go's nil slice and empty slice are both `[]`).
* The sub-cryptographic primitives (TDES-ECB, TDES-CBC, AES-ECB, AES-CBC) are
  external collaborators of the repository (spec §1, §6); they are modelled as
  a `CipherSuite` parameter whose §6 contract is the predicate
  `CipherSuite.Good`.
* `rand.Read` filling a pad buffer is modelled by passing the pad bytes as an
  explicit argument.
* Go functions that can fail return `GRes`; a Go runtime panic (out-of-range
  slice, nil map function call, division by zero) is `GRes.panic`.
-/

namespace Tr31

/-- Every entry of the list is a byte value. -/
def Bytes (l : List Nat) : Prop := ∀ b ∈ l, b < 256

instance (l : List Nat) : Decidable (Bytes l) :=
  inferInstanceAs (Decidable (∀ b ∈ l, b < 256))

/-- Byte values of an ASCII string literal (Go string → `List Nat`). -/
def bts (s : String) : List Nat := s.data.map Char.toNat

/-- Go slice expression `s[i : i+n]`, bounds already checked by the caller. -/
def sub (s : List Nat) (i n : Nat) : List Nat := (s.drop i).take n

/-- A Go error value surfaced by the core: a `HeaderError`, a
`KeyBlockError`, or a plain `fmt.Errorf` error (spec §7). -/
inductive GErr where
  | header : String → GErr
  | keyBlock : String → GErr
  | plain : String → GErr
deriving DecidableEq, Repr

/-- Result of running a piece of Go code: a value, a returned error, or a
runtime panic. -/
inductive GRes (α : Type) where
  | panic : GRes α
  | err : GErr → GRes α
  | ok : α → GRes α
deriving DecidableEq, Repr

namespace GRes

def bind {α β : Type} : GRes α → (α → GRes β) → GRes β
  | .panic, _ => .panic
  | .err e, _ => .err e
  | .ok a, f => f a

instance : Monad GRes where
  pure := .ok
  bind := bind

def isOk {α : Type} : GRes α → Bool
  | .ok _ => true
  | _ => false

/-- Go pattern `v, _ := f(...)` for a byte-slice result: the returned error is
discarded and `v` is the nil slice when `f` failed; a panic still propagates. -/
def orNil : GRes (List Nat) → GRes (List Nat)
  | .panic => .panic
  | .err _ => .ok []
  | .ok v => .ok v

end GRes

/-! ## Character class helpers

These helpers (`asciiAlphanumeric`, `asciiNumeric`, `asciiPrintable`,
`isAsciiHex`, `hexToInt`, `stringToInt`, `xor`) live in a file of the
repository that is not part of the provided sources; they are modelled from
the spec. -/

/-- Modelled from the spec: a character is alphanumeric (`0-9`, `A-Z`, `a-z`);
spec §3 header alphabet and §4.4 "read ID (alphanumeric)". -/
def isAlnumByte (c : Nat) : Bool :=
  (48 ≤ c && c ≤ 57) || (65 ≤ c && c ≤ 90) || (97 ≤ c && c ≤ 122)

/-- Modelled from the spec: repository helper `asciiAlphanumeric`, true when
all characters are alphanumeric. -/
def asciiAlphanumeric (s : List Nat) : Bool := s.all isAlnumByte

/-- Modelled from the spec: repository helper `asciiNumeric`, true when all
characters are decimal digits (spec §6 "four decimal digits"). -/
def asciiNumeric (s : List Nat) : Bool := s.all (fun c => 48 ≤ c && c ≤ 57)

/-- Modelled from the spec: repository helper `asciiPrintable`, true when all
characters are printable ASCII (spec §3 "printable-ASCII values"). -/
def asciiPrintable (s : List Nat) : Bool := s.all (fun c => 32 ≤ c && c ≤ 126)

/-- Value of one hex digit character, if it is one. -/
def hexDigitVal (c : Nat) : Option Nat :=
  if 48 ≤ c && c ≤ 57 then some (c - 48)
  else if 65 ≤ c && c ≤ 70 then some (c - 55)
  else if 97 ≤ c && c ≤ 102 then some (c - 87)
  else none

def isHexByte (c : Nat) : Bool := (hexDigitVal c).isSome

/-- Modelled from the spec: repository helper `isAsciiHex`, true when all
characters are hex digits. -/
def isAsciiHex (s : List Nat) : Bool := s.all isHexByte

/-- Modelled from the spec: repository helper `hexToInt`: the value of a hex
string, or 0 when the string is not valid hex (parse error ignored). -/
def hexToInt (s : List Nat) : Nat :=
  if isAsciiHex s then s.foldl (fun a c => a * 16 + (hexDigitVal c).getD 0) 0 else 0

/-- Modelled from the spec: repository helper `stringToInt`: the value of a
decimal string (callers validate with `asciiNumeric` first). -/
def stringToInt (s : List Nat) : Nat := s.foldl (fun a c => a * 10 + (c - 48)) 0

/-- Modelled from the spec: repository helper `xor`, byte-wise XOR of two
equally long byte strings (§4.3, §4.5). -/
def xorB (a b : List Nat) : List Nat := List.zipWith (fun x y => x ^^^ y) a b

/-! ## Hex and decimal codecs (Go stdlib `encoding/hex`, `fmt` verbs) -/

/-- Lowercase hex digit character of a value below 16. -/
def hexCharLower (n : Nat) : Nat := if n < 10 then 48 + n else 87 + n

/-- Uppercase hex digit character of a value below 16. -/
def hexCharUpper (n : Nat) : Nat := if n < 10 then 48 + n else 55 + n

/-- Go `hex.EncodeToString`: two lowercase hex characters per byte. -/
def hexEncode (l : List Nat) : List Nat :=
  l.flatMap (fun b => [hexCharLower (b / 16), hexCharLower (b % 16)])

/-- Go `strings.ToUpper(hex.EncodeToString(·))`. -/
def hexEncodeUpper (l : List Nat) : List Nat :=
  l.flatMap (fun b => [hexCharUpper (b / 16), hexCharUpper (b % 16)])

/-- Go `hex.DecodeString`: `none` models the decode error (odd length or a
non-hex character). -/
def hexDecode : List Nat → Option (List Nat)
  | [] => some []
  | [_] => none
  | c1 :: c2 :: rest => do
      let h ← hexDigitVal c1
      let l ← hexDigitVal c2
      let r ← hexDecode rest
      some ((16 * h + l) :: r)

/-- Little-endian decimal digit characters of `n`, with enough fuel (the
fuel makes the recursion structural, so terms reduce definitionally). -/
def decDigitsAux : Nat → Nat → List Nat
  | 0, _ => []
  | _ + 1, 0 => []
  | fuel + 1, n + 1 => (48 + (n + 1) % 10) :: decDigitsAux fuel ((n + 1) / 10)

/-- Big-endian decimal digit characters of `n` (empty for 0). -/
def decDigits (n : Nat) : List Nat := (decDigitsAux n n).reverse

/-- Go `fmt.Sprintf("%0*d", w, n)`: decimal, zero padded to width `w`
(wider when `n` needs more digits). -/
def decPad (w n : Nat) : List Nat :=
  List.replicate (w - (decDigits n).length) 48 ++ decDigits n

/-- Little-endian uppercase hex digit characters of `n`, with fuel. -/
def hexDigitsAux : Nat → Nat → List Nat
  | 0, _ => []
  | _ + 1, 0 => []
  | fuel + 1, n + 1 => hexCharUpper ((n + 1) % 16) :: hexDigitsAux fuel ((n + 1) / 16)

/-- Big-endian uppercase hex digit characters of `n` (empty for 0). -/
def hexDigits (n : Nat) : List Nat := (hexDigitsAux n n).reverse

/-- Go `fmt.Sprintf("%0*X", w, n)`: uppercase hex, zero padded to width `w`
(wider when `n` needs more digits). -/
def hexPadUpper (w n : Nat) : List Nat :=
  List.replicate (w - (hexDigits n).length) 48 ++ hexDigits n

/-- Go `strconv.ParseInt(s, 16, 0)`: `none` models the parse error (empty
string, non-hex character, or 64-bit overflow). Sign and base prefixes never
occur at the call sites. -/
def parseIntHex (s : List Nat) : Option Nat :=
  if s ≠ [] && isAsciiHex s && s.foldl (fun a c => a * 16 + (hexDigitVal c).getD 0) 0 < 2 ^ 63
  then some (s.foldl (fun a c => a * 16 + (hexDigitVal c).getD 0) 0)
  else none

/-- Big-endian byte string of length `n` holding `v` (truncated modulo
`2^(8n)`); Go `binary.BigEndian.PutUintNN` and the `intToBytes` helper. -/
def beBytes (n v : Nat) : List Nat :=
  (List.range n).map (fun i => v / 2 ^ (8 * (n - 1 - i)) % 256)

/-- Modelled from the spec: repository helper `bytesToInt`, the big-endian
integer value of a byte string (§4.3 "treats the block as a big-endian
integer"). -/
def beInt (l : List Nat) : Nat := l.foldl (fun a b => a * 256 + b) 0

/-! ## ISO/IEC 9797-1 padding (src/unnamed/part_000) -/

/-- `padISO1` (part_000 lines 100-114). -/
def padISO1 (data : List Nat) (blockSize : Nat) : List Nat :=
  let blockSize := if blockSize ≤ 0 then 8 else blockSize
  let remainder := data.length % blockSize
  let data := if remainder > 0 then data ++ List.replicate (blockSize - remainder) 0 else data
  if data.length = 0 then List.replicate blockSize 0 else data

/-- `padISO2` (part_000 lines 116-122). -/
def padISO2 (data : List Nat) (blockSize : Nat) : List Nat :=
  let blockSize := if blockSize ≤ 0 then 8 else blockSize
  padISO1 (data ++ [128]) blockSize

/-- `padISO3` (part_000 lines 124-144): prepend a length block then
Mode-1-pad. The length block is built by three branches: hand-rolled
big-endian for `blockSize < 4`, `PutUint32` into the block's first four bytes
for `blockSize < 8`, and `PutUint64` into the first eight bytes otherwise. -/
def padISO3 (data : List Nat) (blockSize : Nat) : List Nat :=
  let blockSize := if blockSize ≤ 0 then 8 else blockSize
  let lengthBytes :=
    if blockSize < 4 then
      (List.range blockSize).map
        (fun i => (data.length * 8) % 2 ^ 64 / 2 ^ (8 * (blockSize - 1 - i)) % 256)
    else if blockSize < 8 then
      beBytes 4 (data.length * 8 % 2 ^ 32) ++ List.replicate (blockSize - 4) 0
    else
      beBytes 8 (data.length * 8 % 2 ^ 64) ++ List.replicate (blockSize - 8) 0
  lengthBytes ++ padISO1 data blockSize

/-! ## Cipher collaborators (spec §1, §6)

The sub-cryptographic primitives (TDES-ECB/CBC, AES-ECB/CBC) are external
collaborators of the repository, out of scope of its sources (spec §1); they
are modelled as an abstract `CipherSuite` whose §6 contract is `Good`. -/

/-- The `Algorithm` enumeration of part_000 (lines 8-13). -/
inductive Alg where
  | DES
  | AES
deriving DecidableEq, Repr

/-- Modelled from the spec (§6): the block-cipher collaborators
`EncryptTDSECB`, `EncryptTDESCBC`, `DecryptTDESCBC`, `EncryptAESECB`,
`EncryptAESCBC`, `DecryptAESCBC` as abstract functions
(key → iv → data → data, or key → block → block for ECB). -/
structure CipherSuite where
  tdesEcb : List Nat → List Nat → List Nat
  tdesCbcEnc : List Nat → List Nat → List Nat → List Nat
  tdesCbcDec : List Nat → List Nat → List Nat → List Nat
  aesEcb : List Nat → List Nat → List Nat
  aesCbcEnc : List Nat → List Nat → List Nat → List Nat
  aesCbcDec : List Nat → List Nat → List Nat → List Nat

/-- The §6 collaborator contract: encryption preserves length, outputs are
bytes, and CBC decryption inverts CBC encryption on block-aligned byte
plaintexts. -/
structure CipherSuite.Good (cs : CipherSuite) : Prop where
  tdesEcbLen : ∀ k b, (cs.tdesEcb k b).length = b.length
  tdesEcbBytes : ∀ k b, Bytes (cs.tdesEcb k b)
  tdesEncLen : ∀ k iv p, (cs.tdesCbcEnc k iv p).length = p.length
  tdesEncBytes : ∀ k iv p, Bytes (cs.tdesCbcEnc k iv p)
  tdesInv : ∀ k iv p, Bytes iv → Bytes p → p.length % 8 = 0 →
    cs.tdesCbcDec k iv (cs.tdesCbcEnc k iv p) = p
  aesEcbLen : ∀ k b, (cs.aesEcb k b).length = b.length
  aesEcbBytes : ∀ k b, Bytes (cs.aesEcb k b)
  aesEncLen : ∀ k iv p, (cs.aesCbcEnc k iv p).length = p.length
  aesEncBytes : ∀ k iv p, Bytes (cs.aesCbcEnc k iv p)
  aesInv : ∀ k iv p, Bytes iv → Bytes p → p.length % 16 = 0 →
    cs.aesCbcDec k iv (cs.aesCbcEnc k iv p) = p

/-- A concrete suite satisfying the §6 contract, used to instantiate
witnesses: every primitive is the identity on byte strings. -/
def idSuite : CipherSuite where
  tdesEcb := fun _ b => b.map (· % 256)
  tdesCbcEnc := fun _ _ p => p.map (· % 256)
  tdesCbcDec := fun _ _ c => c.map (· % 256)
  aesEcb := fun _ b => b.map (· % 256)
  aesCbcEnc := fun _ _ p => p.map (· % 256)
  aesCbcDec := fun _ _ c => c.map (· % 256)

/-! ## CBC-MAC engine (part_000) -/

/-- The `_padDispatch` map of part_000 (lines 15-19): Go map access yields the
nil function for a key outside {1,2,3} (in particular for a negative one). -/
def padDispatch (padding : Int) : Option (List Nat → Nat → List Nat) :=
  if padding = 1 then some padISO1
  else if padding = 2 then some padISO2
  else if padding = 3 then some padISO3
  else none

/-- `GenerateCBCMAC` (part_000 lines 21-65). `padding` is a Go `int`. Calling
the nil function produced by a `_padDispatch` lookup at a negative key is a
runtime panic, as is slicing `mac[len(mac)-blockSize:]` when the cipher
returned fewer than `blockSize` bytes. At every call site `length` is at most
`blockSize`, so the final `mac[:length]` is in range and is modelled by
`take`. -/
def GenerateCBCMAC (cs : CipherSuite) (key data : List Nat) (padding : Int)
    (length : Nat) (algorithm : Alg) : GRes (List Nat) :=
  if padding = 0 then .err (GErr.plain "Specify valid padding method: 1, 2 or 3.")
  else if key = [] then .err (GErr.plain "Invalid key.")
  else if data = [] then .err (GErr.plain "Invalid data.")
  else
    let length := if length = 0 then (if algorithm = .AES then 16 else 8) else length
    let blockSize : Nat := if algorithm = .AES then 16 else 8
    let implementation := if algorithm = .AES then cs.aesCbcEnc else cs.tdesCbcEnc
    if padding > 3 then .err (GErr.plain "Specify valid padding method: 1, 2 or 3.")
    else
      match padDispatch padding with
      | none => .panic
      | some padFn =>
        let paddedData := padFn data blockSize
        let mac := implementation key (List.replicate blockSize 0) paddedData
        if mac.length < blockSize then .panic
        else .ok ((mac.drop (mac.length - blockSize)).take length)

/-- The unexported `generateCBCMAC` engine of the `encryption` package is the
same engine as part_000's `GenerateCBCMAC`; it is modelled by the same
definition. -/
def generateCBCMAC (cs : CipherSuite) (key data : List Nat) (padding : Int)
    (length : Nat) (algorithm : Alg) : GRes (List Nat) :=
  GenerateCBCMAC cs key data padding length algorithm

/-! ## The optional-block set (psecTr31.go lines 25-274) -/

/-- ASCII string view of a byte list, used to build error messages. -/
def strOf (l : List Nat) : String := String.mk (l.map Char.ofNat)

/-- Go's `map[string]string` holding the optional blocks, determinised as an
insertion-ordered association list with unique keys (the spec leaves the
iteration order arbitrary, §9 "Block mapping ordering"). -/
structure Blocks where
  blocks : List (List Nat × List Nat)
deriving DecidableEq, Repr

/-- Go map assignment `m[k] = v`: overwrite in place or append. -/
def assocSet : List (List Nat × List Nat) → List Nat → List Nat →
    List (List Nat × List Nat)
  | [], k, v => [(k, v)]
  | (k', v') :: rest, k, v =>
      if k' = k then (k, v) :: rest else (k', v') :: assocSet rest k v

/-- `Blocks.Set` (lines 84-97): validate the ID and data, then store. On
error the mapping is unchanged and the message is returned. -/
def Blocks.set (b : Blocks) (key item : List Nat) : Blocks × Option GErr :=
  if key.length ≠ 2 || !asciiAlphanumeric key then
    (b, some (GErr.header ("Block ID (" ++ strOf key ++ ") is invalid. Expecting 2 alphanumeric characters.")))
  else if !asciiPrintable item then
    (b, some (GErr.header ("Block " ++ strOf key ++ " data is invalid. Expecting ASCII printable characters. Data: '" ++ strOf item ++ "'")))
  else (⟨assocSet b.blocks key item⟩, none)

/-- `Blocks.Delete` (lines 99-101). -/
def Blocks.delete (b : Blocks) (key : List Nat) : Blocks :=
  ⟨b.blocks.filter (fun p => p.1 ≠ key)⟩

/-- `Blocks.Contains` (lines 114-117). -/
def Blocks.contains (b : Blocks) (key : List Nat) : Bool :=
  b.blocks.any (fun p => p.1 = key)

/-- `Blocks.Get` (lines 77-82). -/
def Blocks.get (b : Blocks) (key : List Nat) : Option (List Nat) :=
  (b.blocks.find? (fun p => p.1 = key)).map Prod.snd

/-- The per-entry serialisation of `Blocks.Dump` (lines 125-142): short
framing `ID ‖ <2 lowercase hex chars of len+4> ‖ data` when `len+4 ≤ 255`,
extended framing `ID ‖ "0002" ‖ <%04X of len+10> ‖ data` otherwise, failing
when `len+10` exceeds `0xFFFF`. -/
def dumpEntries : List (List Nat × List Nat) → GRes (List Nat)
  | [] => .ok []
  | (blockID, blockData) :: rest =>
      if blockData.length + 4 ≤ 255 then
        (dumpEntries rest).bind fun r =>
          .ok (blockID ++ hexEncode [blockData.length + 4] ++ blockData ++ r)
      else if blockData.length + 10 > 65535 then
        .err (GErr.header ("Block " ++ strOf blockID ++ " length is too long."))
      else
        (dumpEntries rest).bind fun r =>
          .ok (blockID ++ bts "0002" ++ hexPadUpper 4 (blockData.length + 10) ++ blockData ++ r)

/-- `Blocks.Dump` (lines 123-153): serialise all entries, then append the
synthetic `PB` pad block when the area is not aligned to `algoBlockSize`.
Returns the emitted block count and the block area. -/
def Blocks.dump (b : Blocks) (algoBlockSize : Nat) : GRes (Nat × List Nat) :=
  (dumpEntries b.blocks).bind fun blocks =>
  if blocks.length > 0 && algoBlockSize > 0 && blocks.length % algoBlockSize ≠ 0 then
    let padNum := algoBlockSize - ((blocks.length + 4) % algoBlockSize)
    let pbBlock := bts "PB" ++ hexPadUpper 2 (4 + padNum) ++ List.replicate padNum 48
    .ok (b.blocks.length + 1, blocks ++ pbBlock)
  else
    .ok (b.blocks.length, blocks)

/-- `Blocks.parseExtendedLen` (lines 156-215). Returns the block data length
(a Go `int`, possibly negative) and the updated index. -/
def Blocks.parseExtendedLen (blockID blocks : List Nat) (i : Nat) : GRes (Int × Nat) :=
  if blocks.length < i + 2 then
    .err (GErr.header ("Block " ++ strOf blockID ++ " length of length (" ++ strOf (blocks.drop i) ++ ") is malformed. Expecting 2 hexchars."))
  else
    let blockLenLenS := sub blocks i 2
    if blockLenLenS.length ≠ 2 || !isAsciiHex blockLenLenS then
      .err (GErr.header ("Block " ++ strOf blockID ++ " length of length (" ++ strOf blockLenLenS ++ ") is malformed. Expecting 2 hexchars."))
    else
      match parseIntHex blockLenLenS with
      | none =>
          .err (GErr.header ("Failed to parse block length length (" ++ strOf blockLenLenS ++ ") for block " ++ strOf blockID ++ "."))
      | some blockLenLen2 =>
          let i := i + 2
          let blockLenLen := blockLenLen2 * 2
          if blockLenLen = 0 then
            .err (GErr.header ("Block " ++ strOf blockID ++ " length of length must not be 0."))
          else if blocks.length < i + blockLenLen then
            .err (GErr.header ("Block " ++ strOf blockID ++ " length (" ++ strOf (blocks.drop i) ++ ") is malformed. Expecting 2 hexchars."))
          else
            let blockLenS := sub blocks i blockLenLen
            if blockLenS.length ≠ blockLenLen || !isAsciiHex blockLenS then
              .err (GErr.header ("Block " ++ strOf blockID ++ " length (" ++ strOf blockLenS ++ ") is malformed. Expecting " ++ toString blockLenLen ++ " hexchars."))
            else
              match parseIntHex blockLenS with
              | none =>
                  .err (GErr.header ("Failed to parse block length (" ++ strOf blockLenS ++ ") for block " ++ strOf blockID ++ "."))
              | some blockLen =>
                  .ok ((blockLen : Int) - 6 - (blockLenLen : Int), i + blockLenLen)

/-- The continuation step after `Blocks.Load` has determined the block
length: a `parseExtendedLen` error becomes Go's `(0, err)` return with the
current mapping, and a panic propagates. -/
def onParsedLen (r : GRes (Int × Nat)) (acc : List (List Nat × List Nat))
    (k : Int → Nat → GRes (Nat × List (List Nat × List Nat) × Option GErr)) :
    GRes (Nat × List (List Nat × List Nat) × Option GErr) :=
  match r with
  | .panic => .panic
  | .err e => .ok (0, acc, some e)
  | .ok (bl, i) => k bl i

/-- The loop body of `Blocks.Load` (lines 221-271), iterating `blocksNum`
times over the block area with cursor `i` and accumulated mapping `acc`. A Go
return of `(0, err)` is `.ok (0, acc, some msg)`, keeping the partially
filled mapping; the out-of-range message slice `blocks[i:i+1]` is a panic. -/
def Blocks.loadAux (blocks : List Nat) :
    Nat → Nat → List (List Nat × List Nat) →
    GRes (Nat × List (List Nat × List Nat) × Option GErr)
  | 0, i, acc => .ok (i, acc, none)
  | j + 1, i, acc =>
    if blocks.length < 1 then .ok (0, acc, some (GErr.header "Block ID () is malformed."))
    else if blocks.length < 2 then
      if blocks.length < i + 1 then .panic
      else .ok (0, acc, some (GErr.header ("Block ID (" ++ strOf (sub blocks i 1) ++ ") is malformed.")))
    else if blocks.length < i + 2 then
      if blocks.length < i + 1 then .panic
      else .ok (0, acc, some (GErr.header ("Block ID (" ++ strOf (sub blocks i 1) ++ ") is malformed.")))
    else
      let blockID := sub blocks i 2
      let i := i + 2
      if !asciiAlphanumeric blockID then
        .ok (0, acc, some (GErr.header ("Block ID (" ++ strOf blockID ++ ") is invalid. Expecting 2 alphanumeric characters.")))
      else if blocks.length < i + 4 then
        .ok (0, acc, some (GErr.header ("Block " ++ strOf blockID ++ " length (" ++ strOf (blocks.drop i) ++ ") is malformed. Expecting 2 hexchars.")))
      else
        let blockLenS := sub blocks i 2
        let i := i + 2
        let afterLen : GRes (Int × Nat) :=
          if (hexToInt blockLenS : Int) = 0 then
            Blocks.parseExtendedLen blockID blocks i
          else
            .ok ((hexToInt blockLenS : Int) - 4, i)
        onParsedLen afterLen acc fun blockLen i =>
          if blockLen < 0 then
            .ok (0, acc, some (GErr.header ("Block " ++ strOf blockID ++ " length does not include block ID and length.")))
          else
            let bl := blockLen.toNat
            if blocks.length < i + bl then
              .ok (0, acc, some (GErr.header ("Block " ++ strOf blockID ++ " data is malformed. Received " ++ toString (blocks.length - i) ++ "/" ++ toString bl ++ ". Block data: '" ++ strOf (blocks.drop i) ++ "'")))
            else
              let blockData := sub blocks i bl
              if blockData.length ≠ bl then
                .ok (0, acc, some (GErr.header ("Block " ++ strOf blockID ++ " data is malformed. Received " ++ toString blockData.length ++ "/" ++ toString bl ++ ". Block data: '" ++ strOf blockData ++ "'")))
              else
                let i := i + bl
                if blockID ≠ bts "PB" then
                  Blocks.loadAux blocks j i (assocSet acc blockID blockData)
                else
                  Blocks.loadAux blocks j i acc

/-- `Blocks.Load` (lines 217-274): re-initialise the mapping and parse
`blocksNum` blocks. Returns the Go `(int, error)` pair together with the
final mapping state. -/
def Blocks.load (blocksNum : Nat) (blocks : List Nat) :
    GRes (Nat × Blocks × Option GErr) :=
  (Blocks.loadAux blocks blocksNum 0 []).bind fun (i, acc, e) =>
    .ok (i, ⟨acc⟩, e)

/-! ## The header (psecTr31.go lines 29-455) -/

/-- `_versionIDAlgoBlockSize` (lines 285, 444-449); a missing version yields
Go's zero value. -/
def versionAlgoBlockSize (v : List Nat) : Nat :=
  if v = bts "A" then 8 else if v = bts "B" then 8
  else if v = bts "C" then 8 else if v = bts "D" then 16 else 0

/-- `_versionIDKeyBlockMacLen` (lines 286, 437-442); a missing version yields
Go's zero value. -/
def versionKeyBlockMacLen (v : List Nat) : Nat :=
  if v = bts "A" then 4 else if v = bts "B" then 8
  else if v = bts "C" then 4 else if v = bts "D" then 16 else 0

/-- `_algoIDMaxKeyLen` (lines 451-455); `none` models a missing key. -/
def algoMaxKeyLen (a : List Nat) : Option Nat :=
  if a = bts "T" then some 24 else if a = bts "D" then some 24
  else if a = bts "A" then some 32 else none

/-- The TR-31 header: six fixed textual fields plus the block set (lines
29-40). The two per-instance constant maps are the functions above. -/
structure Header where
  versionID : List Nat
  keyUsage : List Nat
  algorithm : List Nat
  modeOfUse : List Nat
  versionNum : List Nat
  exportability : List Nat
  reserved : List Nat
  blocks : Blocks
deriving DecidableEq, Repr

/-- `DefaultHeader` (lines 275-289). -/
def defaultHeader : Header :=
  ⟨bts "B", bts "00", bts "0", bts "0", bts "00", bts "N", bts "00", ⟨[]⟩⟩

/-- `SetVersionID` (lines 333-339); on error the field is unchanged. -/
def Header.setVersionID (h : Header) (v : List Nat) : Header × Option GErr :=
  if v ≠ bts "A" && v ≠ bts "B" && v ≠ bts "C" && v ≠ bts "D" then
    (h, some (GErr.header ("Version ID (" ++ strOf v ++ ") is not supported.")))
  else ({ h with versionID := v }, none)

/-- `SetKeyUsage` (lines 340-346). -/
def Header.setKeyUsage (h : Header) (v : List Nat) : Header × Option GErr :=
  if v.length ≠ 2 || !asciiAlphanumeric v then
    (h, some (GErr.header ("Key usage (" ++ strOf v ++ ") is invalid.")))
  else ({ h with keyUsage := v }, none)

/-- `SetAlgorithm` (lines 347-353). -/
def Header.setAlgorithm (h : Header) (v : List Nat) : Header × Option GErr :=
  if v.length ≠ 1 || !asciiAlphanumeric v then
    (h, some (GErr.header ("Algorithm (" ++ strOf v ++ ") is invalid.")))
  else ({ h with algorithm := v }, none)

/-- `SetModeOfUse` (lines 354-360). -/
def Header.setModeOfUse (h : Header) (v : List Nat) : Header × Option GErr :=
  if v.length ≠ 1 || !asciiAlphanumeric v then
    (h, some (GErr.header ("Mode of use (" ++ strOf v ++ ") is invalid.")))
  else ({ h with modeOfUse := v }, none)

/-- `SetVersionNum` (lines 361-367). -/
def Header.setVersionNum (h : Header) (v : List Nat) : Header × Option GErr :=
  if v.length ≠ 2 || !asciiAlphanumeric v then
    (h, some (GErr.header ("Version number (" ++ strOf v ++ ") is invalid.")))
  else ({ h with versionNum := v }, none)

/-- `SetExportability` (lines 369-375). -/
def Header.setExportability (h : Header) (v : List Nat) : Header × Option GErr :=
  if v.length ≠ 1 || !asciiAlphanumeric v then
    (h, some (GErr.header ("Exportability (" ++ strOf v ++ ") is invalid.")))
  else ({ h with exportability := v }, none)

/-- `NewHeader` (lines 290-328): start from empty fields (Reserved "00") and
run every setter, propagating the first error. -/
def newHeader (versionID keyUsage algorithm modeOfUse versionNum exportability : List Nat) :
    Except GErr Header :=
  let h : Header := ⟨[], [], [], [], [], [], bts "00", ⟨[]⟩⟩
  match h.setVersionID versionID with
  | (_, some e) => .error e
  | (h, none) =>
  match h.setKeyUsage keyUsage with
  | (_, some e) => .error e
  | (h, none) =>
  match h.setAlgorithm algorithm with
  | (_, some e) => .error e
  | (h, none) =>
  match h.setModeOfUse modeOfUse with
  | (_, some e) => .error e
  | (h, none) =>
  match h.setVersionNum versionNum with
  | (_, some e) => .error e
  | (h, none) =>
  match h.setExportability exportability with
  | (_, some e) => .error e
  | (h, none) => .ok h

/-- `Header.Dump` (lines 380-392): compute the pad and total length, dump the
blocks (the block-dump error is discarded, yielding `(0, "")`), and emit the
16-character prefix followed by the block area. An unsupported version makes
`algoBlockSize` zero and `(2+keyLen) % 0` a Go division-by-zero panic. -/
def Header.dump (h : Header) (keyLen : Nat) : GRes (List Nat) :=
  let algoBlockSize := versionAlgoBlockSize h.versionID
  if algoBlockSize = 0 then .panic
  else
    let padLen := algoBlockSize - ((2 + keyLen) % algoBlockSize)
    let bd := match h.blocks.dump algoBlockSize with
      | .ok p => p
      | _ => (0, [])
    let kbLen := 16 + 4 + keyLen * 2 + padLen * 2 +
      versionKeyBlockMacLen h.versionID * 2 + bd.2.length
    if kbLen > 9999 then
      .err (GErr.header ("Total key block length (" ++ toString kbLen ++ ") exceeds limit of 9999."))
    else
      .ok (h.versionID ++ decPad 4 kbLen ++ h.keyUsage ++ h.algorithm ++
        h.modeOfUse ++ h.versionNum ++ h.exportability ++ decPad 2 bd.1 ++
        h.reserved ++ bd.2)

/-- `Header.Load` (lines 394-435): `header[:16]` is sliced before any length
check, so an input shorter than 16 characters is a Go out-of-range panic (the
`len(header) < 16` check on line 399 is unreachable). Returns the Go
`(int, error)` pair and the mutated header: fields set before a failing
setter keep their new values, and the Go `(0, err)` returns keep the header
state. -/
def Header.load (h : Header) (s : List Nat) : GRes (Nat × Header × Option GErr) :=
  if s.length < 16 then .panic
  else if !asciiAlphanumeric (sub s 0 16) then
    .ok (0, h, some (GErr.header ("Header must be ASCII alphanumeric. Header: '" ++ strOf (sub s 0 16) ++ "'")))
  else
    match h.setVersionID (sub s 0 1) with
    | (h, some e) => .ok (0, h, some e)
    | (h, none) =>
    match h.setKeyUsage (sub s 5 2) with
    | (h, some e) => .ok (0, h, some e)
    | (h, none) =>
    match h.setAlgorithm (sub s 7 1) with
    | (h, some e) => .ok (0, h, some e)
    | (h, none) =>
    match h.setModeOfUse (sub s 8 1) with
    | (h, some e) => .ok (0, h, some e)
    | (h, none) =>
    match h.setVersionNum (sub s 9 2) with
    | (h, some e) => .ok (0, h, some e)
    | (h, none) =>
    match h.setExportability (sub s 11 1) with
    | (h, some e) => .ok (0, h, some e)
    | (h, none) =>
    let h := { h with reserved := sub s 14 2 }
    if !asciiNumeric (sub s 12 2) then
      .ok (0, h, some (GErr.header ("Number of blocks (" ++ strOf (sub s 12 2) ++ ") is invalid. Expecting 2 digits.")))
    else
      let blocksNum := (s.getD 12 0 - 48) * 10 + (s.getD 13 0 - 48)
      (Blocks.load blocksNum (s.drop 16)).bind fun (blocksLen, nb, e) =>
        .ok (16 + blocksLen, { h with blocks := nb }, e)

/-! ## Key block, derivations and version profiles (psecTr31.go lines 457-1201) -/

/-- `KeyBlock` (lines 42-45): the KBPK bytes and the header instance. -/
structure KeyBlock where
  kbpk : List Nat
  header : Header
deriving Repr

/-- Go pattern `a, b, _ := f(...)` for a pair of byte slices: a returned
error is discarded and both results are nil; a panic still propagates. -/
def GRes.orNilPair : GRes (List Nat × List Nat) → GRes (List Nat × List Nat)
  | .panic => .panic
  | .err _ => .ok ([], [])
  | .ok v => .ok v

/-- `shiftLeft1` (lines 747-754): clear the top bit of the first byte, read
the block as a big-endian integer (`bytesToInt`), shift left by one and write
it back over the same length (`intToBytes`). -/
def shiftLeft1 (inBytes : List Nat) : List Nat :=
  let cleared := match inBytes with
    | [] => []
    | x :: rest => (x &&& 127) :: rest
  beBytes inBytes.length (beInt cleared * 2)

/-- `dShiftLeft1` (lines 1104-1127): the AES variant via `big.Int`; for a
byte string with its top bit cleared the shifted value fits the original
length, so the left-padded `Bytes()` output is the big-endian encoding. -/
def dShiftLeft1 (inBytes : List Nat) : List Nat :=
  let cleared := match inBytes with
    | [] => []
    | x :: rest => (x &&& 127) :: rest
  beBytes inBytes.length (beInt cleared * 2)

/-- `deriveDesCmacSubkey` (lines 757-784): CMAC subkeys from a DES-block
cipher; indexing `s[0]` of an empty cipher output is a Go panic. -/
def deriveDesCmacSubkey (cs : CipherSuite) (key : List Nat) :
    GRes (List Nat × List Nat) :=
  let r64 : List Nat := [0, 0, 0, 0, 0, 0, 0, 0x1B]
  let s := cs.tdesEcb key [0, 0, 0, 0, 0, 0, 0, 0]
  match s with
  | [] => .panic
  | s0 :: _ =>
    let k1 := if s0 &&& 128 ≠ 0 then xorB (shiftLeft1 s) r64 else shiftLeft1 s
    match k1 with
    | [] => .panic
    | k10 :: _ =>
      let k2 := if k10 &&& 128 ≠ 0 then xorB (shiftLeft1 k1) r64 else shiftLeft1 k1
      .ok (k1, k2)

/-- `deriveAESCMACSubkeys` (lines 1128-1151). -/
def deriveAESCMACSubkeys (cs : CipherSuite) (key : List Nat) :
    GRes (List Nat × List Nat) :=
  let r64 : List Nat := [0, 0, 0, 0, 0, 0, 0, 0, 0, 0, 0, 0, 0, 0, 0, 0x87]
  let s := cs.aesEcb key (List.replicate 16 0)
  match s with
  | [] => .panic
  | s0 :: _ =>
    let k1 := if s0 &&& 128 ≠ 0 then xorB (dShiftLeft1 s) r64 else dShiftLeft1 s
    match k1 with
    | [] => .panic
    | k10 :: _ =>
      let k2 := if k10 &&& 128 ≠ 0 then xorB (dShiftLeft1 k1) r64 else dShiftLeft1 k1
      .ok (k1, k2)

/-- The counter loop of `BDerive` (lines 698-717): one encryption-role and
one mac-role CBC-MAC per counter, appended to `kbek` and `kbak`. `a5`/`a7`
are the algorithm and key-bits bytes fixed before the loop. -/
def bDeriveLoop (cs : CipherSuite) (kbpk k1 : List Nat) (a5 a7 : Nat) :
    List Nat → List Nat × List Nat → GRes (List Nat × List Nat)
  | [], st => .ok st
  | i :: rest, (kbek, kbak) =>
    (generateCBCMAC cs kbpk (xorB [i, 0, 0, 0, 0, a5, 0, a7] k1) 1 8 .DES).bind fun encKey =>
    (generateCBCMAC cs kbpk (xorB [i, 0, 1, 0, 0, a5, 0, a7] k1) 1 8 .DES).bind fun authKey =>
    bDeriveLoop cs kbpk k1 a5 a7 rest (kbek ++ encKey, kbak ++ authKey)

/-- `BDerive` (lines 660-720): derive KBEK and KBAK for version B. A 16-byte
KBPK uses algorithm `0x0000`, key bits `0x0080` and counters {1,2}; any other
length uses `0x0001`, `0x00C0` and counters {1,2,3}. -/
def bDerive (cs : CipherSuite) (kbpk : List Nat) : GRes (List Nat × List Nat) :=
  let p := if kbpk.length = 16 then ((0x00 : Nat), (0x80 : Nat), [1, 2])
           else ((0x01 : Nat), (0xC0 : Nat), [1, 2, 3])
  (deriveDesCmacSubkey cs kbpk).bind fun (k1, _) =>
  bDeriveLoop cs kbpk k1 p.1 p.2.1 p.2.2 ([], [])

/-- `bGenerateMac` (lines 721-746): XOR the last eight bytes of
`header ‖ keyData` with the first CMAC subkey of KBAK, then CBC-MAC. -/
def bGenerateMac (cs : CipherSuite) (kbak header keyData : List Nat) :
    GRes (List Nat) :=
  (deriveDesCmacSubkey cs kbak).bind fun (km1, _) =>
  let macData := header ++ keyData
  if macData.length ≥ 8 then
    let macData := macData.take (macData.length - 8) ++
      xorB (macData.drop (macData.length - 8)) km1
    generateCBCMAC cs kbak macData 1 8 .DES
  else
    .err (GErr.keyBlock "macData is too short for the XOR operation")

/-- `BWrap` (lines 621-657). The random pad buffer of length
`padLen + extraPad` filled by `rand.Read` is modelled by the byte stream
`rnd`. The `BDerive` and `bGenerateMac` errors are discarded by the source
(`kbek, kbak, _ :=` and `mac, _ :=`), yielding nil values. -/
def bWrap (cs : CipherSuite) (kb : KeyBlock) (header key : List Nat)
    (extraPad : Nat) (rnd : Nat → Nat) : GRes (List Nat) :=
  if kb.kbpk.length ≠ 16 && kb.kbpk.length ≠ 24 then
    .err (GErr.keyBlock ("KBPK length (" ++ toString kb.kbpk.length ++ ") must be Double or Triple DES for key block version " ++ strOf kb.header.versionID ++ "."))
  else
    (bDerive cs kb.kbpk).orNilPair.bind fun (kbek, kbak) =>
    let padLen := 8 - ((2 + key.length + extraPad) % 8)
    let pad := (List.range (padLen + extraPad)).map (fun n => rnd n % 256)
    let clearKeyData := beBytes 2 (key.length * 8 % 2 ^ 16) ++ key ++ pad
    (bGenerateMac cs kbak header clearKeyData).orNil.bind fun mac =>
    let encKey := cs.tdesCbcEnc kbek mac clearKeyData
    .ok (header ++ hexEncode encKey ++ hexEncode mac)

/-- `BUnwrap` (lines 787-848). -/
def bUnwrap (cs : CipherSuite) (kb : KeyBlock) (header keyData receivedMac : List Nat) :
    GRes (List Nat) :=
  if kb.kbpk.length ≠ 16 && kb.kbpk.length ≠ 24 then
    .err (GErr.keyBlock ("KBPK length (" ++ toString kb.kbpk.length ++ ") must be Double or Triple DES for key block version " ++ strOf kb.header.versionID ++ "."))
  else if keyData.length < 8 || keyData.length % 8 ≠ 0 then
    .err (GErr.keyBlock ("Encrypted key is malformed. Key data: '" ++ strOf (hexEncode keyData) ++ "'"))
  else
    (bDerive cs kb.kbpk).bind fun (kbek, kbak) =>
    let clearKeyData := cs.tdesCbcDec kbek receivedMac keyData
    (bGenerateMac cs kbak header clearKeyData).bind fun mac =>
    if mac ≠ receivedMac then
      .err (GErr.keyBlock "Key block MAC doesn't match generated MAC.")
    else if clearKeyData.length < 2 then .panic
    else
      let keyLength := clearKeyData.getD 0 0 * 256 + clearKeyData.getD 1 0
      if keyLength % 8 ≠ 0 then
        .err (GErr.keyBlock "Decrypted key is invalid.")
      else
        let keyLength := keyLength / 8
        if clearKeyData.length < keyLength + 2 then
          .err (GErr.keyBlock "Decrypted key is malformed.")
        else
          .ok (sub clearKeyData 2 keyLength)

/-- `cDerive` (lines 894-907): the key-variant derivation of versions A/C. -/
def cDerive (kbpk : List Nat) : List Nat × List Nat :=
  (xorB kbpk (List.replicate kbpk.length 0x45),
   xorB kbpk (List.replicate kbpk.length 0x4D))

/-- `cGenerateMAC` (lines 910-916): 4-byte CBC-MAC over `header ‖ keyData`
(the engine error is discarded, yielding nil). -/
def cGenerateMAC (cs : CipherSuite) (kbak header keyData : List Nat) :
    GRes (List Nat) :=
  (generateCBCMAC cs kbak (header ++ keyData) 1 4 .DES).orNil

/-- Modelled from the spec (§5): the `compareMAC` helper, a constant-time
byte-equality comparison. -/
def compareMAC (a b : List Nat) : Bool := a == b

/-- `CWrap` (lines 851-893). `[]byte(header)[:8]` panics when the header is
shorter than eight characters. -/
def cWrap (cs : CipherSuite) (kb : KeyBlock) (header key : List Nat)
    (extraPad : Nat) (rnd : Nat → Nat) : GRes (List Nat) :=
  if kb.kbpk.length ≠ 8 && kb.kbpk.length ≠ 16 && kb.kbpk.length ≠ 24 then
    .err (GErr.keyBlock ("KBPK length (" ++ toString kb.kbpk.length ++ ") must be Single, Double or Triple DES for key block version " ++ strOf kb.header.versionID ++ "."))
  else
    let (kbek, kbak) := cDerive kb.kbpk
    let padLen := 8 - ((2 + key.length + extraPad) % 8)
    let pad := (List.range (padLen + extraPad)).map (fun n => rnd n % 256)
    let clearKeyData := beBytes 2 (key.length * 8 % 2 ^ 16) ++ key ++ pad
    if header.length < 8 then .panic
    else
      let encKey := cs.tdesCbcEnc kbek (header.take 8) clearKeyData
      (cGenerateMAC cs kbak header encKey).bind fun mac =>
      .ok (header ++ hexEncodeUpper encKey ++ hexEncodeUpper mac)

/-- `CUnwrap` (lines 919-963). The MAC is compared before decryption;
`header[:8]` panics when the header is shorter than eight characters, and
reading the two length bytes of a shorter decryption panics. -/
def cUnwrap (cs : CipherSuite) (kb : KeyBlock) (header keyData receivedMAC : List Nat) :
    GRes (List Nat) :=
  if kb.kbpk.length ≠ 8 && kb.kbpk.length ≠ 16 && kb.kbpk.length ≠ 24 then
    .err (GErr.keyBlock ("KBPK length (" ++ toString kb.kbpk.length ++ ") must be Single, Double or Triple DES for key block version " ++ strOf kb.header.versionID ++ "."))
  else if keyData.length < 8 || keyData.length % 8 ≠ 0 then
    .err (GErr.keyBlock ("Encrypted key is malformed. Key data: '" ++ strOf (hexEncodeUpper keyData) ++ "'"))
  else
    let (kbek, kbak) := cDerive kb.kbpk
    (cGenerateMAC cs kbak header keyData).orNil.bind fun mac =>
    if !compareMAC mac receivedMAC then
      .err (GErr.keyBlock "Key block MAC doesn't match generated MAC.")
    else if header.length < 8 then .panic
    else
      let clearKeyData := cs.tdesCbcDec kbek (header.take 8) keyData
      if clearKeyData.length < 2 then .panic
      else
        let keyLength := clearKeyData.getD 0 0 * 256 + clearKeyData.getD 1 0
        if keyLength % 8 ≠ 0 then
          .err (GErr.keyBlock "Decrypted key is invalid.")
        else
          let keyLength := keyLength / 8
          if clearKeyData.length < keyLength + 2 then
            .err (GErr.keyBlock "Decrypted key is malformed.")
          else
            .ok (sub clearKeyData 2 keyLength)

/-- The counter loop of `dDerive` (lines 1064-1079), including the source's
`kbak = append(kbek, encData2...)`: each iteration XORs the counter/role
template with K2, CBC-MACs under the KBPK, appends the encryption output to
`kbek` and then rebinds `kbak` to `kbek ++ encData2` (the engine errors are
discarded). Go's `append` allocates exact capacities for these sizes, so the
value semantics used here match the slice semantics of the source. -/
def dDeriveLoop (cs : CipherSuite) (kbpk k2 : List Nat) (a5 k6 k7 : Nat) :
    List Nat → List Nat × List Nat → GRes (List Nat × List Nat)
  | [], st => .ok st
  | i :: rest, (kbek, _) =>
    (generateCBCMAC cs kbpk
      (xorB [i, 0, 0, 0, 0, a5, k6, k7, 0x80, 0, 0, 0, 0, 0, 0, 0] k2) 1 16 .AES).orNil.bind
      fun encData =>
    (generateCBCMAC cs kbpk
      (xorB [i, 0, 1, 0, 0, a5, k6, k7, 0x80, 0, 0, 0, 0, 0, 0, 0] k2) 1 16 .AES).orNil.bind
      fun encData2 =>
    dDeriveLoop cs kbpk k2 a5 k6 k7 rest (kbek ++ encData, (kbek ++ encData) ++ encData2)

/-- `dDerive` (lines 1007-1082): derive KBEK and KBAK for version D. KBEK is
the prefix of the encryption-role material; KBAK is the `len(kbpk)`-byte
suffix of the final `kbak` buffer (which, through the `append(kbek, ...)`
rebinding, is KBEK material followed by the last mac-role output). Taking
the suffix of a shorter buffer would be a negative Go slice index, a panic. -/
def dDerive (cs : CipherSuite) (kbpk : List Nat) : GRes (List Nat × List Nat) :=
  let params : Option (Nat × Nat × Nat × List Nat) :=
    if kbpk.length = 16 then some (0x02, 0x00, 0x80, [1])
    else if kbpk.length = 24 then some (0x03, 0x00, 0xC0, [1, 2])
    else if kbpk.length = 32 then some (0x04, 0x01, 0x00, [1, 2])
    else none
  match params with
  | none => .err (GErr.plain ("unsupported KBPK length: " ++ toString kbpk.length))
  | some (a5, k6, k7, callsToCmac) =>
    (deriveAESCMACSubkeys cs kbpk).orNilPair.bind fun (_, k2) =>
    (dDeriveLoop cs kbpk k2 a5 k6 k7 callsToCmac ([], [])).bind fun (kbek, kbak) =>
    if kbak.length < kbpk.length then .panic
    else .ok (kbek.take kbpk.length, kbak.drop (kbak.length - kbpk.length))

/-- `dGenerateMAC` (lines 1083-1103): XOR the last sixteen bytes of
`header ‖ keyData` with the first CMAC subkey of KBAK, then AES-CBC-MAC. -/
def dGenerateMAC (cs : CipherSuite) (kbak header keyData : List Nat) :
    GRes (List Nat) :=
  (deriveAESCMACSubkeys cs kbak).bind fun (k1, _) =>
  let macData := header ++ keyData
  if macData.length < 16 then .err (GErr.plain "macData is too short")
  else
    generateCBCMAC cs kbak
      (macData.take (macData.length - 16) ++ xorB (macData.drop (macData.length - 16)) k1)
      1 16 .AES

/-- `DWrap` (lines 966-1006). -/
def dWrap (cs : CipherSuite) (kb : KeyBlock) (header key : List Nat)
    (extraPad : Nat) (rnd : Nat → Nat) : GRes (List Nat) :=
  if kb.kbpk.length ≠ 16 && kb.kbpk.length ≠ 24 && kb.kbpk.length ≠ 32 then
    .err (GErr.keyBlock ("KBPK length (" ++ toString kb.kbpk.length ++ ") must be AES-128, AES-192 or AES-256 for key block version D."))
  else
    (dDerive cs kb.kbpk).bind fun (kbek, kbak) =>
    let padLen := 16 - ((2 + key.length + extraPad) % 16)
    let pad := (List.range (padLen + extraPad)).map (fun n => rnd n % 256)
    let clearKeyData := beBytes 2 (key.length * 8 % 2 ^ 16) ++ key ++ pad
    (dGenerateMAC cs kbak header clearKeyData).bind fun mac =>
    let encKey := cs.aesCbcEnc kbek mac clearKeyData
    .ok (header ++ hexEncode encKey ++ hexEncode mac)

/-- `DUnwrap` (lines 1152-1201): the `dDerive` and `dGenerateMAC` errors are
discarded (`kbek, kbak, _ :=` on line 1167, `mac, _ :=` on line 1175). -/
def dUnwrap (cs : CipherSuite) (kb : KeyBlock) (header keyData receivedMAC : List Nat) :
    GRes (List Nat) :=
  if kb.kbpk.length ≠ 16 && kb.kbpk.length ≠ 24 && kb.kbpk.length ≠ 32 then
    .err (GErr.keyBlock ("KBPK length (" ++ toString kb.kbpk.length ++ ") must be AES-128, AES-192 or AES-256 for key block version " ++ strOf kb.header.versionID ++ "."))
  else if keyData.length < 16 || keyData.length % 16 ≠ 0 then
    .err (GErr.keyBlock ("Encrypted key is malformed. Key data: '" ++ strOf (hexEncodeUpper keyData) ++ "'"))
  else
    (dDerive cs kb.kbpk).orNilPair.bind fun (kbek, kbak) =>
    let clearKeyData := cs.aesCbcDec kbek receivedMAC keyData
    (dGenerateMAC cs kbak header clearKeyData).orNil.bind fun mac =>
    if mac ≠ receivedMAC then
      .err (GErr.keyBlock "Key block MAC doesn't match generated MAC.")
    else if clearKeyData.length < 2 then .panic
    else
      let keyLength := clearKeyData.getD 0 0 * 256 + clearKeyData.getD 1 0
      if keyLength % 8 ≠ 0 then
        .err (GErr.keyBlock "Decrypted key is invalid.")
      else
        let keyLength := keyLength / 8
        if clearKeyData.length < keyLength + 2 then
          .err (GErr.keyBlock "Decrypted key is malformed.")
        else
          .ok (sub clearKeyData 2 keyLength)

/-! ## Façade (psecTr31.go lines 487-618) -/

/-- The `_wrapDispatch`/`_unwrapDispatch` version membership (lines
606-618). -/
def versionSupported (v : List Nat) : Bool :=
  v = bts "A" || v = bts "B" || v = bts "C" || v = bts "D"

/-- `KeyBlock.Wrap` (lines 487-511): resolve the masked key length (the
algorithm's table default or the key length, then at least the key length),
dump the header (the dump error is discarded, leaving an empty header
string), and dispatch on the version ID. `rnd` models the random pad
stream. -/
def KeyBlock.wrap (cs : CipherSuite) (kb : KeyBlock) (key : List Nat)
    (maskedKeyLen : Option Nat) (rnd : Nat → Nat) : GRes (List Nat) :=
  if !versionSupported kb.header.versionID then
    .err (GErr.plain ("Key block version ID (" ++ strOf kb.header.versionID ++ ") is not supported"))
  else
    let wrappedMaskedLen :=
      match maskedKeyLen with
      | none =>
        match algoMaxKeyLen kb.header.algorithm with
        | some maxLen => max maxLen key.length
        | none => key.length
      | some m => max m key.length
    (kb.header.dump wrappedMaskedLen).orNil.bind fun headerDump =>
    if kb.header.versionID = bts "B" then
      bWrap cs kb headerDump key (wrappedMaskedLen - key.length) rnd
    else if kb.header.versionID = bts "D" then
      dWrap cs kb headerDump key (wrappedMaskedLen - key.length) rnd
    else
      cWrap cs kb headerDump key (wrappedMaskedLen - key.length) rnd

/-- `KeyBlock.Unwrap` (lines 512-600). The header-load error is discarded
(line 519, `headerLen, _ :=`), so a load failure leaves the partially
mutated header in use. An unsupported version ID after the load makes
`blockSize` zero and `len(keyBlock) % 0` a Go division-by-zero panic. In
addition to the unwrapped key this model returns the header state the call
leaves on the key block. -/
def KeyBlock.unwrap (cs : CipherSuite) (kb : KeyBlock) (keyBlock : List Nat) :
    GRes (List Nat × Header) :=
  if keyBlock.length < 5 then
    .err (GErr.keyBlock "Key block header length is malformed. Expecting 4 digits.")
  else
    (kb.header.load keyBlock).bind fun (headerLen, h, _) =>
    if !asciiNumeric (sub keyBlock 1 4) then
      .err (GErr.keyBlock ("Key block header length (" ++ strOf (sub keyBlock 1 4) ++ ") is malformed. Expecting 4 digits."))
    else
      let keyBlockLen := stringToInt (sub keyBlock 1 4)
      if keyBlockLen ≠ keyBlock.length then
        .err (GErr.keyBlock ("Key block header length (" ++ toString keyBlockLen ++ ") doesn't match input data length (" ++ toString keyBlock.length ++ ")."))
      else
        let blockSize := versionAlgoBlockSize h.versionID
        if blockSize = 0 then .panic
        else if keyBlock.length % blockSize ≠ 0 then
          .err (GErr.keyBlock ("Key block length (" ++ toString keyBlock.length ++ ") must be multiple of " ++ toString blockSize ++ " for key block version " ++ strOf h.versionID ++ "."))
        else
          let algoMacLen := versionKeyBlockMacLen h.versionID
          if headerLen < keyBlock.length then
            let receivedMacS := keyBlock.drop headerLen
            if receivedMacS.length > algoMacLen * 2 then
              let macS := receivedMacS.drop (receivedMacS.length - algoMacLen * 2)
              match hexDecode macS with
              | none =>
                .err (GErr.keyBlock ("Key block MAC must be valid hexchars. MAC: '" ++ strOf macS ++ "'"))
              | some receivedMac =>
                if receivedMac.length ≠ algoMacLen then
                  .err (GErr.keyBlock ("Key block MAC is malformed. Received " ++ toString macS.length ++ " bytes MAC. Expecting " ++ toString (algoMacLen * 2) ++ " bytes for key block version " ++ strOf h.versionID ++ ". MAC: '" ++ strOf macS ++ "'"))
                else
                  let keyDataS := (keyBlock.drop headerLen).take (receivedMacS.length - algoMacLen * 2)
                  match hexDecode keyDataS with
                  | none =>
                    .err (GErr.keyBlock ("Encrypted key must be valid hexchars. Key data: '" ++ strOf keyDataS ++ "'"))
                  | some keyData =>
                    let kb' : KeyBlock := { kb with header := h }
                    if h.versionID = bts "B" then
                      (bUnwrap cs kb' (keyBlock.take headerLen) keyData receivedMac).bind fun key =>
                        .ok (key, h)
                    else if h.versionID = bts "D" then
                      (dUnwrap cs kb' (keyBlock.take headerLen) keyData receivedMac).bind fun key =>
                        .ok (key, h)
                    else if h.versionID = bts "A" || h.versionID = bts "C" then
                      (cUnwrap cs kb' (keyBlock.take headerLen) keyData receivedMac).bind fun key =>
                        .ok (key, h)
                    else
                      .err (GErr.keyBlock ("Key block version ID (" ++ strOf h.versionID ++ ") is not supported."))
            else
              .err (GErr.keyBlock ("Key block MAC must be valid hexchars. MAC: '" ++ strOf receivedMacS ++ "'"))
          else
            .err (GErr.keyBlock "headerLen is out of bounds")

/-! ## Statement-side definitions for the verification -/

/-- The length block of ISO/IEC 9797-1 mode 3 as the spec words it (§4.1
"prepend the big-endian bit-length of the input in one block"): the value
`8·|d|` as a big-endian integer occupying the whole block, followed by the
Mode-1 padding of the input. Stated from the spec for comparison with
`padISO3`. -/
def padISO3Spec (data : List Nat) (blockSize : Nat) : List Nat :=
  beBytes blockSize (data.length * 8) ++ padISO1 data blockSize

/-- The version-D KBAK as the spec words it (§4.7 with the §9 correction):
the concatenation of the mac-role CMAC outputs, one per counter, truncated
to the KBPK length; no encryption-role output contributes. Stated from the
spec for comparison with `dDerive`. -/
def dDeriveSpecKbak (cs : CipherSuite) (kbpk : List Nat) : List Nat :=
  let params : Option (Nat × Nat × Nat × List Nat) :=
    if kbpk.length = 16 then some (0x02, 0x00, 0x80, [1])
    else if kbpk.length = 24 then some (0x03, 0x00, 0xC0, [1, 2])
    else if kbpk.length = 32 then some (0x04, 0x01, 0x00, [1, 2])
    else none
  match params with
  | none => []
  | some (a5, k6, k7, callsToCmac) =>
    match (deriveAESCMACSubkeys cs kbpk).orNilPair with
    | .ok (_, k2) =>
      (callsToCmac.flatMap (fun i =>
        match generateCBCMAC cs kbpk
          (xorB [i, 0, 1, 0, 0, a5, k6, k7, 0x80, 0, 0, 0, 0, 0, 0, 0] k2) 1 16 .AES with
        | .ok v => v
        | _ => [])).take kbpk.length
    | _ => []

/-- One caller-visible operation on a block set (for the `PB` invariant
claim): `Blocks.Set`, `Blocks.Load` or `Blocks.Delete`. -/
inductive BlockOp where
  | set : List Nat → List Nat → BlockOp
  | load : Nat → List Nat → BlockOp
  | del : List Nat → BlockOp

/-- Run one operation on a block set. A failing `Set` leaves the mapping
unchanged; a failing `Load` leaves the partially filled fresh mapping; a
panicking `Load` aborts the program, so the pre-call mapping is kept for the
invariant statement. -/
def applyOp (b : Blocks) : BlockOp → Blocks
  | .set k v => (b.set k v).1
  | .load n s =>
      match Blocks.load n s with
      | .ok (_, nb, _) => nb
      | _ => b
  | .del k => b.delete k

def applyOps (b : Blocks) (ops : List BlockOp) : Blocks := ops.foldl applyOp b

/-- An operation that is not `Set` with the reserved ID `PB`. -/
def BlockOp.notSetPB : BlockOp → Prop
  | .set k _ => k ≠ bts "PB"
  | _ => True

/-- The serialised form of one block entry (the two framings of
`Blocks.Dump`, lines 128-141). -/
def encEntry (blockID blockData : List Nat) : List Nat :=
  if blockData.length + 4 ≤ 255 then
    blockID ++ hexEncode [blockData.length + 4] ++ blockData
  else
    blockID ++ bts "0002" ++ hexPadUpper 4 (blockData.length + 10) ++ blockData

/-- A serialised block `enc` that `Blocks.Load` parses back to `(id, data)`:
a well-formed ID followed by either a two-character length field of value
`|data|+4`, or the extended framing `"00" ‖ "02" ‖ <4 hex chars of
|data|+10>`. -/
def EncBlock (id data enc : List Nat) : Prop :=
  id.length = 2 ∧ asciiAlphanumeric id = true ∧
  ((∃ L, enc = id ++ L ++ data ∧ L.length = 2 ∧ hexToInt L = data.length + 4) ∨
   (∃ X, enc = id ++ bts "0002" ++ X ++ data ∧ X.length = 4 ∧
     parseIntHex X = some (data.length + 10) ∧ data.length + 10 ≥ 10))

/-- The mapping `Blocks.Load` accumulates from a list of parsed blocks:
every non-`PB` entry is stored. -/
def loadFold (acc : List (List Nat × List Nat)) (l : List (List Nat × List Nat)) :
    List (List Nat × List Nat) :=
  l.foldl (fun a p => if p.1 ≠ bts "PB" then assocSet a p.1 p.2 else a) acc

/-- Well-formed block set: two-character alphanumeric IDs, printable data,
and data short enough for the extended length field (spec §3). -/
def WfBlocks (b : Blocks) : Prop :=
  ∀ p ∈ b.blocks, p.1.length = 2 ∧ asciiAlphanumeric p.1 = true ∧
    asciiPrintable p.2 = true ∧ p.2.length + 10 ≤ 65535

/-- A valid header (spec §3): a supported version, fixed fields of the right
width over the header alphabet, and a well-formed block set. -/
def ValidHeader (h : Header) : Prop :=
  (h.versionID = bts "A" ∨ h.versionID = bts "B" ∨ h.versionID = bts "C" ∨
    h.versionID = bts "D") ∧
  h.keyUsage.length = 2 ∧ asciiAlphanumeric h.keyUsage = true ∧
  h.algorithm.length = 1 ∧ asciiAlphanumeric h.algorithm = true ∧
  h.modeOfUse.length = 1 ∧ asciiAlphanumeric h.modeOfUse = true ∧
  h.versionNum.length = 2 ∧ asciiAlphanumeric h.versionNum = true ∧
  h.exportability.length = 1 ∧ asciiAlphanumeric h.exportability = true ∧
  h.reserved.length = 2 ∧ asciiAlphanumeric h.reserved = true ∧
  WfBlocks h.blocks

/-- The KBPK byte lengths each version accepts (spec §3 table). -/
def allowedKbpk (v : List Nat) (n : Nat) : Prop :=
  if v = bts "B" then n = 16 ∨ n = 24
  else if v = bts "D" then n = 16 ∨ n = 24 ∨ n = 32
  else n = 8 ∨ n = 16 ∨ n = 24

/-- The masked key length `Wrap` uses when the caller passes nil (lines
494-502): the algorithm's table default, at least the key length. -/
def maskedLenFor (h : Header) (key : List Nat) : Nat :=
  match algoMaxKeyLen h.algorithm with
  | some maxLen => max maxLen key.length
  | none => key.length

/-- The total key-block length `Header.Dump` computes for a given masked
key length (line 385). -/
def dumpKbLen (h : Header) (keyLen : Nat) : Nat :=
  let bs := versionAlgoBlockSize h.versionID
  let padLen := bs - ((2 + keyLen) % bs)
  let area := match h.blocks.dump bs with | .ok p => p.2.length | _ => 0
  16 + 4 + keyLen * 2 + padLen * 2 + versionKeyBlockMacLen h.versionID * 2 + area

/-- The block count `Header.Dump` emits. -/
def dumpCount (h : Header) : Nat :=
  match h.blocks.dump (versionAlgoBlockSize h.versionID) with
  | .ok p => p.1
  | _ => 0

/-- No entry of the association list carries the reserved ID `PB`. -/
def NoPB (l : List (List Nat × List Nat)) : Prop := ∀ p ∈ l, p.1 ≠ bts "PB"

/-- The concatenated serialisation of a block list's entries. -/
def rawOf (l : List (List Nat × List Nat)) : List Nat :=
  l.flatMap (fun p => encEntry p.1 p.2)

/-- Version-B end-to-end scenario inputs (spec §8 scenario 1): the KBPK
`0123456789ABCDEFFEDCBA9876543210`. -/
def c5Kbpk : List Nat :=
  [0x01, 0x23, 0x45, 0x67, 0x89, 0xAB, 0xCD, 0xEF,
   0xFE, 0xDC, 0xBA, 0x98, 0x76, 0x54, 0x32, 0x10]

/-- Version-B scenario key `0123456789ABCDEF0123456789ABCDEF`. -/
def c5Key : List Nat :=
  [0x01, 0x23, 0x45, 0x67, 0x89, 0xAB, 0xCD, 0xEF,
   0x01, 0x23, 0x45, 0x67, 0x89, 0xAB, 0xCD, 0xEF]

/-- Version-B scenario header `B/P0/T/E/00/E` (Reserved "00"). -/
def c5Header : Header :=
  ⟨bts "B", bts "P0", bts "T", bts "E", bts "00", bts "E", bts "00", ⟨[]⟩⟩

/-! # Theorems -/

theorem GRes.panic_bind {α β : Type} (f : α → GRes β) :
    (GRes.panic).bind f = .panic := rfl

theorem GRes.err_bind {α β : Type} (e : GErr) (f : α → GRes β) :
    (GRes.err e).bind f = .err e := rfl

theorem GRes.ok_bind {α β : Type} (a : α) (f : α → GRes β) :
    (GRes.ok a).bind f = f a := rfl

theorem mod_big_div_mod (v M D : Nat) (h : 256 * D ∣ M) :
    v % M / D % 256 = v / D % 256 := by
  obtain ⟨K, rfl⟩ := h
  rw [show 256 * D * K = D * (256 * K) by ring, Nat.mod_mul_right_div_self]
  exact Nat.mod_mod_of_dvd _ ⟨K, by ring⟩

/-- C7: the CBC-MAC engine is claimed to return an invalid-argument error
for every padding mode outside {1,2,3}; at the negative padding mode `-1`
(with a valid key and data) the code instead calls the nil function produced
by the `_padDispatch` map lookup, a runtime panic. -/
theorem C7_negative_padding_panics :
    GenerateCBCMAC idSuite (List.replicate 16 0) [1, 2, 3] (-1) 8 .DES = .panic := by
  decide

/-- C8 counterexample: for block size 16, `padISO3` writes the 64-bit
big-endian bit length into the first eight bytes of the length block and
zero-fills the rest, instead of the bit length occupying the whole block:
at `d = [0]` the emitted block is `00…08 ‖ 00…00`, not `00…00 ‖ …08`. -/
theorem C8_length_block_left_aligned :
    padISO3 [0] 16 =
      [0, 0, 0, 0, 0, 0, 0, 8, 0, 0, 0, 0, 0, 0, 0, 0] ++ padISO1 [0] 16 ∧
    padISO3 [0] 16 ≠ padISO3Spec [0] 16 := by
  exact ⟨by decide, by decide⟩

/-- C8 (amended): for block sizes 1, 2, 3, 4 and 8 — in particular for the
8-byte DES block actually used with mode 3 — `padISO3` returns one block
holding the big-endian bit length of the input followed by its Mode-1
padding; for other block sizes the length is left-aligned in the first four
or eight bytes instead. -/
theorem C8_padISO3_aligned_blocks (d : List Nat) (b : Nat)
    (hb : b = 1 ∨ b = 2 ∨ b = 3 ∨ b = 4 ∨ b = 8) :
    padISO3 d b = padISO3Spec d b := by
  have r1 : List.range 1 = [0] := by decide
  have r2 : List.range 2 = [0, 1] := by decide
  have r3 : List.range 3 = [0, 1, 2] := by decide
  have r4 : List.range 4 = [0, 1, 2, 3] := by decide
  have r8 : List.range 8 = [0, 1, 2, 3, 4, 5, 6, 7] := by decide
  rcases hb with rfl | rfl | rfl | rfl | rfl <;>
    simp only [padISO3, padISO3Spec, beBytes, r1, r2, r3, r4, r8, List.map,
      List.append_nil, List.replicate, if_true, if_false] <;>
    norm_num <;>
    (repeat' constructor) <;>
    exact mod_big_div_mod _ _ _ (by norm_num)

theorem C8_padISO3_aligned_blocks_witness :
    ((8 : Nat) = 1 ∨ (8 : Nat) = 2 ∨ (8 : Nat) = 3 ∨ (8 : Nat) = 4 ∨ (8 : Nat) = 8) ∧
    padISO3 [0] 8 = padISO3Spec [0] 8 :=
  ⟨by decide, C8_padISO3_aligned_blocks [0] 8 (by decide)⟩

/-- C10: for every input of length at least 5 and below 16, `Unwrap` passes
its own length guard, and `Header.Load` slices `header[:16]` before checking
the length, an out-of-range Go string access (a panic), instead of returning
a `HeaderError` or `KeyBlockError`. -/
theorem C10_short_input_out_of_range (cs : CipherSuite) (kb : KeyBlock)
    (s : List Nat) (h5 : 5 ≤ s.length) (h16 : s.length < 16) :
    KeyBlock.unwrap cs kb s = .panic := by
  unfold KeyBlock.unwrap
  rw [if_neg (by omega)]
  unfold Header.load
  rw [if_pos h16]
  rfl

theorem C10_short_input_out_of_range_witness :
    5 ≤ (bts "Z0080Z0080").length ∧ (bts "Z0080Z0080").length < 16 ∧
    KeyBlock.unwrap idSuite ⟨List.replicate 16 0, defaultHeader⟩ (bts "Z0080Z0080") = .panic :=
  ⟨by decide, by decide,
    C10_short_input_out_of_range idSuite ⟨List.replicate 16 0, defaultHeader⟩
      (bts "Z0080Z0080") (by decide) (by decide)⟩

/-- C3: on the 80-character input `"Z0080" ++ 75 × "0"`, `Header.Load`
produces the `HeaderError` "Version ID (Z) is not supported.", but `Unwrap`
discards that error (line 519) and proceeds past header parsing, returning a
`KeyBlockError` about non-hex key data instead of the claimed
`HeaderError`. -/
theorem C3_unwrap_discards_header_error :
    Header.load defaultHeader (bts "Z0080" ++ List.replicate 75 48) =
      .ok (0, defaultHeader, some (GErr.header "Version ID (Z) is not supported.")) ∧
    KeyBlock.unwrap idSuite ⟨List.replicate 16 0, defaultHeader⟩
        (bts "Z0080" ++ List.replicate 75 48) =
      .err (GErr.keyBlock ("Encrypted key must be valid hexchars. Key data: '" ++
        strOf (bts "Z008" ++ List.replicate 60 48) ++ "'")) := by
  exact ⟨by decide, by decide⟩

/-- C2: for a 24-byte KBPK (here under the identity cipher collaborators),
the KBAK returned by `dDerive` starts with eight bytes of encryption-role
CBC-MAC output — the `kbak = append(kbek, …)` rebinding — and differs from
the spec's corrected KBAK built from mac-role outputs alone. -/
theorem C2_kbak_includes_encryption_material :
    dDerive idSuite (List.replicate 24 17) =
      .ok ([1, 0, 0, 0, 0, 3, 0, 192, 128, 0, 0, 0, 0, 0, 0, 0, 2, 0, 0, 0, 0, 3, 0, 192],
           [128, 0, 0, 0, 0, 0, 0, 0, 2, 0, 1, 0, 0, 3, 0, 192, 128, 0, 0, 0, 0, 0, 0, 0]) ∧
    dDeriveSpecKbak idSuite (List.replicate 24 17) =
      [1, 0, 1, 0, 0, 3, 0, 192, 128, 0, 0, 0, 0, 0, 0, 0, 2, 0, 1, 0, 0, 3, 0, 192] ∧
    [128, 0, 0, 0, 0, 0, 0, 0, 2, 0, 1, 0, 0, 3, 0, 192, 128, 0, 0, 0, 0, 0, 0, 0] ≠
      dDeriveSpecKbak idSuite (List.replicate 24 17) := by
  exact ⟨by decide, by decide, by decide⟩


theorem noPB_assocSet {l : List (List Nat × List Nat)} {k v : List Nat}
    (hl : NoPB l) (hk : k ≠ bts "PB") : NoPB (assocSet l k v) := by
  induction l with
  | nil =>
    intro p hp
    simp only [assocSet, List.mem_singleton] at hp
    subst hp
    exact hk
  | cons q rest ih =>
    intro p hp
    simp only [assocSet] at hp
    split at hp
    · rcases List.mem_cons.mp hp with rfl | h
      · exact hk
      · exact hl p (List.mem_cons_of_mem _ h)
    · rcases List.mem_cons.mp hp with rfl | h
      · exact hl _ (List.mem_cons_self _ _)
      · exact ih (fun r hr => hl r (List.mem_cons_of_mem _ hr)) p h

theorem loadAux_noPB (blocks : List Nat) :
    ∀ (j i : Nat) (acc : List (List Nat × List Nat))
      (res : Nat × List (List Nat × List Nat) × Option GErr),
      Blocks.loadAux blocks j i acc = .ok res → NoPB acc → NoPB res.2.1 := by
  intro j
  induction j with
  | zero =>
    intro i acc res h hacc
    simp only [Blocks.loadAux] at h
    cases h
    exact hacc
  | succ j ih =>
    intro i acc res h hacc
    simp only [Blocks.loadAux, onParsedLen] at h
    split at h
    · cases h; exact hacc
    · split at h
      · split at h
        · cases h
        · cases h; exact hacc
      · split at h
        · split at h
          · cases h
          · cases h; exact hacc
        · split at h
          · cases h; exact hacc
          · split at h
            · cases h; exact hacc
            · split at h
              · cases h
              · cases h; exact hacc
              · split at h
                · cases h; exact hacc
                · split at h
                  · cases h; exact hacc
                  · split at h
                    · cases h; exact hacc
                    · split at h
                      · exact ih _ _ _ h (noPB_assocSet hacc (by assumption))
                      · exact ih _ _ _ h hacc

theorem contains_eq_false_iff (b : Blocks) (q : List Nat) :
    b.contains q = false ↔ ∀ p ∈ b.blocks, p.1 ≠ q := by
  simp [Blocks.contains, List.any_eq_false]

theorem applyOp_noPB (b : Blocks) (op : BlockOp) (hop : op.notSetPB)
    (hb : NoPB b.blocks) : NoPB (applyOp b op).blocks := by
  cases op with
  | set k v =>
    simp only [applyOp, Blocks.set]
    split
    · exact hb
    · split
      · exact hb
      · exact noPB_assocSet hb hop
  | load n s =>
    simp only [applyOp, Blocks.load]
    rcases hres : Blocks.loadAux s n 0 [] with _ | e | ⟨i, acc, e⟩
    · exact hb
    · exact hb
    · have : NoPB acc :=
        loadAux_noPB s n 0 [] (i, acc, e) hres (fun p hp => absurd hp (List.not_mem_nil p))
      simpa [GRes.bind] using this
  | del k =>
    intro p hp
    exact hb p (List.mem_of_mem_filter hp)

/-- C6 counterexample: `Blocks.Set` accepts the reserved ID `PB` (it only
checks for a two-character alphanumeric ID and printable data), so after
`Set("PB", "0")` the mapping does contain a `PB` entry. -/
theorem C6_set_stores_pb :
    ((Blocks.set ⟨[]⟩ (bts "PB") (bts "0")).1).contains (bts "PB") = true := by
  decide

/-- C6 (amended): `Blocks.Load` discards parsed `PB` blocks and
`Blocks.Delete` removes entries, so after any sequence of `Set`, `Load` and
`Delete` operations in which `Set` is never called with the ID `PB`,
starting from a `PB`-free mapping, the mapping contains no `PB` entry;
`Set` itself however does store `PB` when asked to. -/
theorem C6_pb_free_under_loads_and_deletes (ops : List BlockOp) (b : Blocks)
    (hb : b.contains (bts "PB") = false) (hops : ∀ op ∈ ops, op.notSetPB) :
    (applyOps b ops).contains (bts "PB") = false := by
  rw [contains_eq_false_iff] at hb ⊢
  induction ops generalizing b with
  | nil => exact hb
  | cons op rest ih =>
    have h1 : NoPB (applyOp b op).blocks :=
      applyOp_noPB b op (hops op (List.mem_cons_self _ _)) hb
    have h2 : ∀ o ∈ rest, o.notSetPB := fun o ho => hops o (List.mem_cons_of_mem _ ho)
    simpa [applyOps, List.foldl] using ih (applyOp b op) h1 h2

theorem C6_pb_free_under_loads_and_deletes_witness :
    ((⟨[]⟩ : Blocks).contains (bts "PB") = false) ∧
    (∀ op ∈ ([.set (bts "KS") (bts "00"), .load 1 (bts "PB0600"),
      .del (bts "KS")] : List BlockOp), op.notSetPB) ∧
    (applyOps ⟨[]⟩ [.set (bts "KS") (bts "00"), .load 1 (bts "PB0600"),
      .del (bts "KS")]).contains (bts "PB") = false := by
  refine ⟨by decide, ?_, ?_⟩
  · intro op hop
    simp only [List.mem_cons, List.not_mem_nil, or_false] at hop
    rcases hop with rfl | rfl | rfl
    · show bts "KS" ≠ bts "PB"; decide
    · trivial
    · trivial
  · refine C6_pb_free_under_loads_and_deletes _ _ (by decide) ?_
    intro op hop
    simp only [List.mem_cons, List.not_mem_nil, or_false] at hop
    rcases hop with rfl | rfl | rfl
    · show bts "KS" ≠ bts "PB"; decide
    · trivial
    · trivial

/-- C4 counterexample: the extended framing emitted for a 600-byte `TC`
block is `TC` ‖ `00` ‖ `02` ‖ `0262` — the length-of-length field holds
`02` (bytes), not the claimed `04`. -/
theorem C4_length_of_length_is_02 :
    (Blocks.dump ⟨[(bts "TC", List.replicate 600 65)]⟩ 8).bind
        (fun p => .ok (p.2.take 10)) = .ok (bts "TC00020262") ∧
    bts "TC00020262" ≠ bts "TC" ++ bts "00" ++ bts "04" ++ bts "0262" := by
  constructor
  · set_option maxRecDepth 100000 in decide
  · decide

/-- C4 (amended): serialising the block set `{TC ↦ 600-byte payload}` (an
8-byte algo block size adds a `PB0600` pad block) emits the framing
`TC` ‖ `00` ‖ `02` ‖ `0262` ‖ payload — the length-of-length counts bytes,
each two hex characters — and parsing the serialised area returns exactly
the original 600 payload bytes under `TC`. -/
theorem C4_extended_framing_roundtrip :
    Blocks.dump ⟨[(bts "TC", List.replicate 600 65)]⟩ 8 =
      .ok (2, bts "TC" ++ bts "00" ++ bts "02" ++ bts "0262" ++
        List.replicate 600 65 ++ bts "PB0600") ∧
    Blocks.load 2 (bts "TC" ++ bts "00" ++ bts "02" ++ bts "0262" ++
        List.replicate 600 65 ++ bts "PB0600") =
      .ok (616, ⟨[(bts "TC", List.replicate 600 65)]⟩, none) := by
  constructor
  · set_option maxRecDepth 100000 in decide
  · set_option maxRecDepth 100000 in decide

/-- C9 counterexample: for the algo block size 252 and the block set
`{AB ↦ 244 × "0"}`, the pad length is 252 and `%02X` widens `4+252 = 256`
to three characters, so the emitted area has length 505, which is not a
multiple of 252. -/
theorem C9_misaligned_at_large_block_size :
    (Blocks.dump ⟨[(bts "AB", List.replicate 244 48)]⟩ 252).bind
        (fun p => .ok (p.2.length % 252)) = .ok 1 ∧ (1 : Nat) ≠ 0 := by
  exact ⟨by set_option maxRecDepth 100000 in decide, by decide⟩

/-- C5 counterexample: with the version-B scenario inputs and no explicit
masked key length, the algorithm tag `T` masks the 16-byte key to 24 bytes,
so `Wrap` emits a 96-character string starting `B0096`, not an 80-character
string starting `B0080` (shown under the identity cipher collaborators; the
length and prefix are cipher-independent). -/
theorem C5_wrap_emits_96_chars :
    (KeyBlock.wrap idSuite ⟨c5Kbpk, c5Header⟩ c5Key none (fun _ => 0)).bind
        (fun s => .ok (s.length, s.take 5)) = .ok (96, bts "B0096") ∧
    ((96 : Nat), bts "B0096") ≠ ((80 : Nat), bts "B0080") := by
  exact ⟨by decide, by decide⟩

theorem hexDigitVal_lower {n : Nat} (h : n < 16) :
    hexDigitVal (hexCharLower n) = some n := by
  interval_cases n <;> decide

theorem hexDigitVal_upper {n : Nat} (h : n < 16) :
    hexDigitVal (hexCharUpper n) = some n := by
  interval_cases n <;> decide

theorem length_hexEncode (l : List Nat) : (hexEncode l).length = 2 * l.length := by
  induction l with
  | nil => rfl
  | cons b rest ih => simp [hexEncode, List.flatMap_cons] at ih ⊢; omega

theorem length_hexEncodeUpper (l : List Nat) :
    (hexEncodeUpper l).length = 2 * l.length := by
  induction l with
  | nil => rfl
  | cons b rest ih => simp [hexEncodeUpper, List.flatMap_cons] at ih ⊢; omega

theorem hexDecode_hexEncode {l : List Nat} (h : Bytes l) :
    hexDecode (hexEncode l) = some l := by
  induction l with
  | nil => rfl
  | cons b rest ih =>
    have hb : b < 256 := h b (List.mem_cons_self _ _)
    have h1 : b / 16 < 16 := by omega
    have h2 : b % 16 < 16 := by omega
    have hrest : Bytes rest := fun x hx => h x (List.mem_cons_of_mem _ hx)
    simp only [hexEncode, List.flatMap_cons, List.cons_append, List.nil_append]
    show hexDecode (hexCharLower (b / 16) :: hexCharLower (b % 16) :: hexEncode rest) = _
    rw [hexDecode, hexDigitVal_lower h1, hexDigitVal_lower h2]
    show (hexDecode (hexEncode rest)).bind _ = _
    rw [ih hrest]
    show some ((16 * (b / 16) + b % 16) :: rest) = _
    have hv : 16 * (b / 16) + b % 16 = b := by omega
    rw [hv]

theorem hexDecode_hexEncodeUpper {l : List Nat} (h : Bytes l) :
    hexDecode (hexEncodeUpper l) = some l := by
  induction l with
  | nil => rfl
  | cons b rest ih =>
    have hb : b < 256 := h b (List.mem_cons_self _ _)
    have h1 : b / 16 < 16 := by omega
    have h2 : b % 16 < 16 := by omega
    have hrest : Bytes rest := fun x hx => h x (List.mem_cons_of_mem _ hx)
    simp only [hexEncodeUpper, List.flatMap_cons, List.cons_append, List.nil_append]
    show hexDecode (hexCharUpper (b / 16) :: hexCharUpper (b % 16) :: hexEncodeUpper rest) = _
    rw [hexDecode, hexDigitVal_upper h1, hexDigitVal_upper h2]
    show (hexDecode (hexEncodeUpper rest)).bind _ = _
    rw [ih hrest]
    show some ((16 * (b / 16) + b % 16) :: rest) = _
    have hv : 16 * (b / 16) + b % 16 = b := by omega
    rw [hv]

theorem decDigitsAux_fuel : ∀ (n f f' : Nat), n ≤ f → n ≤ f' →
    decDigitsAux f n = decDigitsAux f' n := by
  intro n
  induction n using Nat.strong_induction_on with
  | _ n ih =>
    intro f f' hf hf'
    match n, f, f' with
    | 0, 0, 0 => rfl
    | 0, 0, _ + 1 => rfl
    | 0, _ + 1, 0 => rfl
    | 0, _ + 1, _ + 1 => rfl
    | m + 1, f + 1, f' + 1 =>
      show (48 + (m + 1) % 10) :: decDigitsAux f ((m + 1) / 10) =
        (48 + (m + 1) % 10) :: decDigitsAux f' ((m + 1) / 10)
      have hlt : (m + 1) / 10 < m + 1 := Nat.div_lt_self (by omega) (by omega)
      rw [ih ((m + 1) / 10) hlt f f' (by omega) (by omega)]

theorem decDigits_eq (n : Nat) :
    decDigits n = if n = 0 then [] else decDigits (n / 10) ++ [48 + n % 10] := by
  match n with
  | 0 => rfl
  | m + 1 =>
    rw [if_neg (by omega)]
    show (decDigitsAux (m + 1) (m + 1)).reverse = _
    have hlt : (m + 1) / 10 < m + 1 := Nat.div_lt_self (by omega) (by omega)
    show ((48 + (m + 1) % 10) :: decDigitsAux m ((m + 1) / 10)).reverse = _
    rw [decDigitsAux_fuel ((m+1)/10) m ((m+1)/10) (by omega) (le_refl _)]
    simp [decDigits]

theorem hexDigitsAux_fuel : ∀ (n f f' : Nat), n ≤ f → n ≤ f' →
    hexDigitsAux f n = hexDigitsAux f' n := by
  intro n
  induction n using Nat.strong_induction_on with
  | _ n ih =>
    intro f f' hf hf'
    match n, f, f' with
    | 0, 0, 0 => rfl
    | 0, 0, _ + 1 => rfl
    | 0, _ + 1, 0 => rfl
    | 0, _ + 1, _ + 1 => rfl
    | m + 1, f + 1, f' + 1 =>
      show hexCharUpper ((m + 1) % 16) :: hexDigitsAux f ((m + 1) / 16) =
        hexCharUpper ((m + 1) % 16) :: hexDigitsAux f' ((m + 1) / 16)
      have hlt : (m + 1) / 16 < m + 1 := Nat.div_lt_self (by omega) (by omega)
      rw [ih ((m + 1) / 16) hlt f f' (by omega) (by omega)]

theorem hexDigits_eq (n : Nat) :
    hexDigits n = if n = 0 then [] else hexDigits (n / 16) ++ [hexCharUpper (n % 16)] := by
  match n with
  | 0 => rfl
  | m + 1 =>
    rw [if_neg (by omega)]
    show (hexDigitsAux (m + 1) (m + 1)).reverse = _
    have hlt : (m + 1) / 16 < m + 1 := Nat.div_lt_self (by omega) (by omega)
    show (hexCharUpper ((m + 1) % 16) :: hexDigitsAux m ((m + 1) / 16)).reverse = _
    rw [hexDigitsAux_fuel ((m+1)/16) m ((m+1)/16) (by omega) (le_refl _)]
    simp [hexDigits]

theorem stringToInt_append (a b : List Nat) :
    stringToInt (a ++ b) = b.foldl (fun x c => x * 10 + (c - 48)) (stringToInt a) := by
  simp [stringToInt, List.foldl_append]

theorem decDigits_charset (n : Nat) :
    ∀ c ∈ decDigits n, 48 ≤ c ∧ c ≤ 57 := by
  induction n using Nat.strong_induction_on with
  | _ n ih =>
    rw [decDigits_eq]
    split
    · intro c hc; cases hc
    · intro c hc
      rcases List.mem_append.mp hc with h | h
      · exact ih (n / 10) (Nat.div_lt_self (by omega) (by omega)) c h
      · have : c = 48 + n % 10 := List.mem_singleton.mp h
        omega

theorem decDigits_length (n k : Nat) (h : n < 10 ^ k) :
    (decDigits n).length ≤ k := by
  induction k generalizing n with
  | zero =>
    have : n = 0 := by simpa using h
    subst this
    exact le_refl _
  | succ k ih =>
    rw [decDigits_eq]
    split
    · simp
    · have h1 : n / 10 < 10 ^ k := by
        refine (Nat.div_lt_iff_lt_mul (by omega)).mpr ?_
        rw [pow_succ] at h
        omega
      have := ih (n / 10) h1
      simp only [List.length_append, List.length_cons, List.length_nil]
      omega

theorem decFold_digits (n : Nat) : ∀ (A : Nat),
    (decDigits n).foldl (fun x c => x * 10 + (c - 48)) A =
      A * 10 ^ (decDigits n).length + n := by
  induction n using Nat.strong_induction_on with
  | _ n ih =>
    intro A
    rw [decDigits_eq]
    split
    · next h => subst h; simp
    · next h =>
      rw [List.foldl_append]
      have hlt : n / 10 < n := Nat.div_lt_self (by omega) (by omega)
      rw [ih (n / 10) hlt A]
      simp only [List.foldl_cons, List.foldl_nil, List.length_append, List.length_cons,
        List.length_nil]
      have h10 : 48 + n % 10 - 48 = n % 10 := by omega
      rw [h10, pow_succ]
      have : A * (10 ^ (decDigits (n / 10)).length * 10) =
          A * 10 ^ (decDigits (n / 10)).length * 10 := by ring
      rw [this]
      omega

theorem stringToInt_decPad (w n : Nat) : stringToInt (decPad w n) = n := by
  rw [decPad, stringToInt_append]
  have hz : stringToInt (List.replicate (w - (decDigits n).length) 48) = 0 := by
    induction (w - (decDigits n).length) with
    | zero => rfl
    | succ k ihk =>
      rw [List.replicate_succ]
      show stringToInt (48 :: List.replicate k 48) = 0
      simpa [stringToInt, List.foldl_cons] using ihk
  rw [hz]
  simpa using decFold_digits n 0

theorem isHexByte_upper {d : Nat} (h : d < 16) : isHexByte (hexCharUpper d) = true := by
  interval_cases d <;> decide

theorem isHexByte_lower {d : Nat} (h : d < 16) : isHexByte (hexCharLower d) = true := by
  interval_cases d <;> decide

theorem hexDigits_charset (n : Nat) : ∀ c ∈ hexDigits n, isHexByte c = true := by
  induction n using Nat.strong_induction_on with
  | _ n ih =>
    rw [hexDigits_eq]
    split
    · intro c hc; cases hc
    · intro c hc
      rcases List.mem_append.mp hc with h | h
      · exact ih (n / 16) (Nat.div_lt_self (by omega) (by omega)) c h
      · rw [List.mem_singleton.mp h]
        exact isHexByte_upper (by omega)

theorem hexDigits_length (n k : Nat) (h : n < 16 ^ k) : (hexDigits n).length ≤ k := by
  induction k generalizing n with
  | zero =>
    have : n = 0 := by simpa using h
    subst this
    exact le_refl _
  | succ k ih =>
    rw [hexDigits_eq]
    split
    · simp
    · have h1 : n / 16 < 16 ^ k := by
        refine (Nat.div_lt_iff_lt_mul (by omega)).mpr ?_
        rw [pow_succ] at h
        omega
      have := ih (n / 16) h1
      simp only [List.length_append, List.length_cons, List.length_nil]
      omega

theorem hexFold_digits (n : Nat) : ∀ (A : Nat),
    (hexDigits n).foldl (fun a c => a * 16 + (hexDigitVal c).getD 0) A =
      A * 16 ^ (hexDigits n).length + n := by
  induction n using Nat.strong_induction_on with
  | _ n ih =>
    intro A
    rw [hexDigits_eq]
    split
    · next h => subst h; simp
    · next h =>
      rw [List.foldl_append]
      have hlt : n / 16 < n := Nat.div_lt_self (by omega) (by omega)
      rw [ih (n / 16) hlt A]
      simp only [List.foldl_cons, List.foldl_nil, List.length_append, List.length_cons,
        List.length_nil]
      have hv : (hexDigitVal (hexCharUpper (n % 16))).getD 0 = n % 16 := by
        rw [hexDigitVal_upper (by omega)]
        rfl
      rw [hv, pow_succ]
      have : A * (16 ^ (hexDigits (n / 16)).length * 16) =
          A * 16 ^ (hexDigits (n / 16)).length * 16 := by ring
      rw [this]
      omega

theorem isAsciiHex_hexPadUpper (w n : Nat) : isAsciiHex (hexPadUpper w n) = true := by
  rw [hexPadUpper, isAsciiHex, List.all_append]
  refine Bool.and_eq_true_iff.mpr ⟨?_, ?_⟩
  · rw [List.all_eq_true]
    intro c hc
    rw [List.eq_of_mem_replicate hc]
    rfl
  · rw [List.all_eq_true]
    intro c hc
    exact hexDigits_charset n c hc

theorem hexToInt_hexPadUpper (w n : Nat) : hexToInt (hexPadUpper w n) = n := by
  rw [hexToInt, if_pos (isAsciiHex_hexPadUpper w n), hexPadUpper, List.foldl_append]
  have hz : ∀ k, (List.replicate k 48).foldl (fun a c => a * 16 + (hexDigitVal c).getD 0) 0 = 0 := by
    intro k
    induction k with
    | zero => rfl
    | succ k ihk => rw [List.replicate_succ]; simpa using ihk
  rw [hz]
  simpa using hexFold_digits n 0

theorem length_hexPadUpper (w n : Nat) (h : n < 16 ^ w) :
    (hexPadUpper w n).length = w := by
  rw [hexPadUpper]
  have := hexDigits_length n w h
  simp only [List.length_append, List.length_replicate]
  omega

theorem parseIntHex_hexPadUpper4 (n : Nat) (h : n ≤ 65535) :
    parseIntHex (hexPadUpper 4 n) = some n := by
  have hne : hexPadUpper 4 n ≠ [] := by
    have := length_hexPadUpper 4 n (by norm_num; omega)
    intro hcon
    rw [hcon] at this
    simp at this
  have hfold : (hexPadUpper 4 n).foldl (fun a c => a * 16 + (hexDigitVal c).getD 0) 0 = n := by
    have := hexToInt_hexPadUpper 4 n
    rw [hexToInt, if_pos (isAsciiHex_hexPadUpper 4 n)] at this
    exact this
  rw [parseIntHex, if_pos, hfold]
  rw [hfold]
  simp only [Bool.and_eq_true, decide_eq_true_eq]
  refine ⟨⟨by simpa using hne, isAsciiHex_hexPadUpper 4 n⟩, by norm_num; omega⟩

theorem hexToInt_encByte (v : Nat) (h : v ≤ 255) : hexToInt (hexEncode [v]) = v := by
  have h1 : v / 16 < 16 := by omega
  have h2 : v % 16 < 16 := by omega
  show hexToInt [hexCharLower (v / 16), hexCharLower (v % 16)] = v
  rw [hexToInt, if_pos]
  · simp only [List.foldl_cons, List.foldl_nil]
    rw [hexDigitVal_lower h1, hexDigitVal_lower h2]
    show (0 * 16 + v / 16) * 16 + v % 16 = v
    omega
  · simp [isAsciiHex, isHexByte_lower h1, isHexByte_lower h2]

theorem asciiNumeric_decPad (w n : Nat) : asciiNumeric (decPad w n) = true := by
  rw [decPad, asciiNumeric, List.all_append]
  refine Bool.and_eq_true_iff.mpr ⟨?_, ?_⟩
  · rw [List.all_eq_true]
    intro c hc
    rw [List.eq_of_mem_replicate hc]
    rfl
  · rw [List.all_eq_true]
    intro c hc
    have := decDigits_charset n c hc
    simp only [decide_eq_true_eq, Bool.and_eq_true]
    exact ⟨by omega, by omega⟩

theorem numeric_alnum {s : List Nat} (h : asciiNumeric s = true) :
    asciiAlphanumeric s = true := by
  rw [asciiNumeric, List.all_eq_true] at h
  rw [asciiAlphanumeric, List.all_eq_true]
  intro c hc
  have := h c hc
  simp only [Bool.and_eq_true, decide_eq_true_eq] at this
  simp only [isAlnumByte, Bool.or_eq_true, Bool.and_eq_true, decide_eq_true_eq]
  exact Or.inl (Or.inl this)

theorem length_decPad (w n : Nat) (h : n < 10 ^ w) : (decPad w n).length = w := by
  rw [decPad]
  have := decDigits_length n w h
  simp only [List.length_append, List.length_replicate]
  omega

theorem decPad2_eq (n : Nat) (h : n ≤ 99) :
    decPad 2 n = [48 + n / 10, 48 + n % 10] := by
  interval_cases n <;> decide

theorem sub_exact (pre mid post : List Nat) (i n : Nat)
    (hi : pre.length = i) (hn : mid.length = n) :
    sub (pre ++ (mid ++ post)) i n = mid := by
  subst hi hn
  rw [sub, List.drop_left, List.take_append_of_le_length (le_refl _), List.take_length]

theorem onParsedLen_ok (bl : Int) (i : Nat) (acc : List (List Nat × List Nat))
    (k : Int → Nat → GRes (Nat × List (List Nat × List Nat) × Option GErr)) :
    onParsedLen (.ok (bl, i)) acc k = k bl i := rfl

theorem loadAux_step (pre enc rest id data : List Nat) (j : Nat)
    (acc : List (List Nat × List Nat))
    (henc : EncBlock id data enc)
    (htail : 2 ≤ data.length + rest.length) :
    Blocks.loadAux (pre ++ (enc ++ rest)) (j + 1) pre.length acc =
      Blocks.loadAux (pre ++ (enc ++ rest)) j (pre.length + enc.length)
        (if id = bts "PB" then acc else assocSet acc id data) := by
  obtain ⟨hid2, hidal, hcase⟩ := henc
  rcases hcase with ⟨L, rfl, hL2, hLv⟩ | ⟨X, rfl, hX4, hXv, hX10⟩
  · -- short framing
    have hlen : (pre ++ (id ++ L ++ data ++ rest)).length =
        pre.length + 4 + data.length + rest.length := by
      simp [List.length_append, hid2, hL2] <;> omega
    have hsub_id : sub (pre ++ (id ++ L ++ data ++ rest)) pre.length 2 = id := by
      have hre : pre ++ (id ++ L ++ data ++ rest) = pre ++ (id ++ (L ++ (data ++ rest))) := by
        simp [List.append_assoc]
      rw [hre]
      exact sub_exact _ _ _ _ _ rfl hid2
    have hsub_L : sub (pre ++ (id ++ L ++ data ++ rest)) (pre.length + 2) 2 = L := by
      have hre : pre ++ (id ++ L ++ data ++ rest) = (pre ++ id) ++ (L ++ (data ++ rest)) := by
        simp [List.append_assoc]
      rw [hre]
      exact sub_exact _ _ _ _ _ (by simp [hid2]) hL2
    have hsub_data : sub (pre ++ (id ++ L ++ data ++ rest)) (pre.length + 4) data.length = data := by
      have hre : pre ++ (id ++ L ++ data ++ rest) = ((pre ++ id) ++ L) ++ (data ++ rest) := by
        simp [List.append_assoc]
      rw [hre]
      exact sub_exact _ _ _ _ _ (by simp [hid2, hL2] <;> omega) rfl
    simp only [Blocks.loadAux]
    rw [if_neg (by rw [hlen]; omega), if_neg (by rw [hlen]; omega),
      if_neg (by rw [hlen]; omega), hsub_id, hsub_L]
    rw [if_neg (by simp [hidal]), if_neg (by rw [hlen]; omega)]
    rw [hLv]
    have hc : ¬ ((data.length + 4 : Nat) : Int) = 0 := by
      push_cast
      omega
    rw [if_neg hc]
    have hbl : ((data.length + 4 : Nat) : Int) - 4 = (data.length : Int) := by
      push_cast
      ring
    rw [hbl, onParsedLen_ok]
    have hblnn : ¬ ((data.length : Int) < 0) := by
      exact Int.not_lt.mpr (Int.natCast_nonneg _)
    rw [if_neg hblnn]
    have htn : ((data.length : Int)).toNat = data.length := Int.toNat_natCast _
    rw [htn]
    rw [if_neg (by rw [hlen]; omega)]
    have h44 : pre.length + 2 + 2 = pre.length + 4 := by omega
    rw [h44, hsub_data]
    rw [if_neg (by omega)]
    have hel : (id ++ L ++ data).length = 4 + data.length := by
      simp [hid2, hL2] <;> omega
    rw [hel]
    by_cases hpb : id = bts "PB"
    · rw [if_neg (by simpa using hpb), if_pos hpb]
      congr 1
      omega
    · rw [if_pos hpb, if_neg hpb]
      congr 1
      omega
  · -- extended framing
    have h0002 : (bts "0002").length = 4 := by decide
    have hlen : (pre ++ (id ++ bts "0002" ++ X ++ data ++ rest)).length =
        pre.length + 10 + data.length + rest.length := by
      simp [List.length_append, hid2, hX4, h0002] <;> omega
    have hXhex : isAsciiHex X = true := by
      rw [parseIntHex] at hXv
      by_cases hc : (X ≠ [] && isAsciiHex X &&
          X.foldl (fun a c => a * 16 + (hexDigitVal c).getD 0) 0 < 2 ^ 63) = true
      · simp only [Bool.and_eq_true] at hc
        exact hc.1.2
      · rw [if_neg hc] at hXv
        cases hXv
    have hXval : X.foldl (fun a c => a * 16 + (hexDigitVal c).getD 0) 0 = data.length + 10 := by
      rw [parseIntHex] at hXv
      by_cases hc : (X ≠ [] && isAsciiHex X &&
          X.foldl (fun a c => a * 16 + (hexDigitVal c).getD 0) 0 < 2 ^ 63) = true
      · rw [if_pos hc] at hXv
        exact Option.some_injective _ hXv
      · rw [if_neg hc] at hXv
        cases hXv
    have hsub_id : sub (pre ++ (id ++ bts "0002" ++ X ++ data ++ rest)) pre.length 2 = id := by
      have hre : pre ++ (id ++ bts "0002" ++ X ++ data ++ rest) =
          pre ++ (id ++ (bts "0002" ++ (X ++ (data ++ rest)))) := by
        simp [List.append_assoc]
      rw [hre]
      exact sub_exact _ _ _ _ _ rfl hid2
    have hsub_00 : sub (pre ++ (id ++ bts "0002" ++ X ++ data ++ rest)) (pre.length + 2) 2 =
        bts "00" := by
      have hre : pre ++ (id ++ bts "0002" ++ X ++ data ++ rest) =
          (pre ++ id) ++ (bts "00" ++ (bts "02" ++ (X ++ (data ++ rest)))) := by
        simp [List.append_assoc]
        rw [show bts "0002" = bts "00" ++ bts "02" from by decide]
        simp [List.append_assoc]
      rw [hre]
      exact sub_exact _ _ _ _ _ (by simp [hid2]) (by decide)
    have hsub_02 : sub (pre ++ (id ++ bts "0002" ++ X ++ data ++ rest)) (pre.length + 4) 2 =
        bts "02" := by
      have hre : pre ++ (id ++ bts "0002" ++ X ++ data ++ rest) =
          ((pre ++ id) ++ bts "00") ++ (bts "02" ++ (X ++ (data ++ rest))) := by
        simp [List.append_assoc]
        rw [show bts "0002" = bts "00" ++ bts "02" from by decide]
        simp [List.append_assoc]
      rw [hre]
      exact sub_exact _ _ _ _ _ (by simp [hid2]; decide) (by decide)
    have hsub_X : sub (pre ++ (id ++ bts "0002" ++ X ++ data ++ rest)) (pre.length + 6) 4 = X := by
      have hre : pre ++ (id ++ bts "0002" ++ X ++ data ++ rest) =
          ((pre ++ id) ++ bts "0002") ++ (X ++ (data ++ rest)) := by
        simp [List.append_assoc]
      rw [hre]
      exact sub_exact _ _ _ _ _ (by simp [hid2, h0002] <;> omega) hX4
    have hsub_data : sub (pre ++ (id ++ bts "0002" ++ X ++ data ++ rest))
        (pre.length + 10) data.length = data := by
      have hre : pre ++ (id ++ bts "0002" ++ X ++ data ++ rest) =
          (((pre ++ id) ++ bts "0002") ++ X) ++ (data ++ rest) := by
        simp [List.append_assoc]
      rw [hre]
      exact sub_exact _ _ _ _ _ (by simp [hid2, hX4, h0002] <;> omega) rfl
    have hext : Blocks.parseExtendedLen id (pre ++ (id ++ bts "0002" ++ X ++ data ++ rest))
        (pre.length + 2 + 2) = .ok ((data.length : Int), pre.length + 10) := by
      rw [Blocks.parseExtendedLen]
      rw [if_neg (by rw [hlen]; omega)]
      rw [show pre.length + 2 + 2 = pre.length + 4 from by omega, hsub_02]
      rw [if_neg (by decide)]
      rw [show parseIntHex (bts "02") = some 2 from by decide]
      simp only []
      rw [if_neg (by decide)]
      rw [if_neg (by rw [hlen]; omega)]
      rw [show pre.length + 4 + 2 = pre.length + 6 from by omega, hsub_X]
      rw [if_neg (by simp [hX4, hXhex])]
      rw [show parseIntHex X = some (data.length + 10) from hXv]
      simp only [GRes.ok.injEq, Prod.mk.injEq]
      refine ⟨?_, ?_⟩
      · push_cast
        ring
      · trivial
    simp only [Blocks.loadAux]
    rw [if_neg (by rw [hlen]; omega), if_neg (by rw [hlen]; omega),
      if_neg (by rw [hlen]; omega), hsub_id, hsub_00]
    rw [if_neg (by simp [hidal]), if_neg (by rw [hlen]; omega)]
    rw [show hexToInt (bts "00") = 0 from by decide]
    rw [if_pos (by norm_num), hext, onParsedLen_ok]
    have hblnn : ¬ ((data.length : Int) < 0) := by
      exact Int.not_lt.mpr (Int.natCast_nonneg _)
    rw [if_neg hblnn]
    have htn : ((data.length : Int)).toNat = data.length := Int.toNat_natCast _
    rw [htn]
    rw [if_neg (by rw [hlen]; omega)]
    rw [hsub_data]
    rw [if_neg (by omega)]
    have hel : (id ++ bts "0002" ++ X ++ data).length = 10 + data.length := by
      simp [hid2, hX4, h0002] <;> omega
    rw [hel]
    by_cases hpb : id = bts "PB"
    · rw [if_neg (by simpa using hpb), if_pos hpb]
      congr 1
      omega
    · rw [if_pos hpb, if_neg hpb]
      congr 1
      omega

theorem loadAux_chain (trips : List ((List Nat × List Nat) × List Nat)) :
    ∀ (pre rest : List Nat) (acc : List (List Nat × List Nat)),
      (∀ t ∈ trips, EncBlock t.1.1 t.1.2 t.2) →
      2 ≤ rest.length →
      Blocks.loadAux (pre ++ (trips.flatMap Prod.snd ++ rest)) trips.length pre.length acc =
        .ok (pre.length + (trips.flatMap Prod.snd).length,
          loadFold acc (trips.map Prod.fst), none) := by
  induction trips with
  | nil =>
    intro pre rest acc _ _
    simp [Blocks.loadAux, loadFold]
  | cons t tail ih =>
    intro pre rest acc henc hrest
    obtain ⟨⟨id, data⟩, enc⟩ := t
    have hflat : (((id, data), enc) :: tail).flatMap Prod.snd =
        enc ++ tail.flatMap Prod.snd := by
      simp [List.flatMap_cons]
    rw [hflat]
    have hstep := loadAux_step pre enc (tail.flatMap Prod.snd ++ rest) id data
      tail.length acc (henc _ (List.mem_cons_self _ _)) (by simp; omega)
    have hassoc : pre ++ (enc ++ tail.flatMap Prod.snd ++ rest) =
        pre ++ (enc ++ (tail.flatMap Prod.snd ++ rest)) := by
      simp [List.append_assoc]
    rw [show (((id, data), enc) :: tail).length = tail.length + 1 from rfl]
    rw [hassoc, hstep]
    have hih := ih (pre ++ enc) rest
      (if id = bts "PB" then acc else assocSet acc id data)
      (fun t ht => henc t (List.mem_cons_of_mem _ ht)) hrest
    have hre2 : (pre ++ enc) ++ (tail.flatMap Prod.snd ++ rest) =
        pre ++ (enc ++ (tail.flatMap Prod.snd ++ rest)) := by
      simp [List.append_assoc]
    rw [hre2] at hih
    rw [show (pre ++ enc).length = pre.length + enc.length from by simp] at hih
    rw [hih]
    congr 1
    refine Prod.ext ?_ (Prod.ext ?_ rfl)
    · show pre.length + enc.length + (tail.flatMap Prod.snd).length =
        pre.length + (enc ++ tail.flatMap Prod.snd).length
      simp [List.length_append]
      omega
    · show loadFold (if id = bts "PB" then acc else assocSet acc id data) (tail.map Prod.fst) =
        loadFold acc ((id, data) :: tail.map Prod.fst)
      rw [loadFold, loadFold, List.foldl_cons]
      by_cases hpb : id = bts "PB"
      · rw [if_pos hpb]
        simp [hpb]
      · rw [if_neg hpb]
        simp [hpb]

theorem dumpEntries_eq (l : List (List Nat × List Nat))
    (h : ∀ p ∈ l, p.2.length + 10 ≤ 65535) :
    dumpEntries l = .ok (rawOf l) := by
  induction l with
  | nil => rfl
  | cons p tail ih =>
    obtain ⟨id, data⟩ := p
    have htail : ∀ q ∈ tail, q.2.length + 10 ≤ 65535 :=
      fun q hq => h q (List.mem_cons_of_mem _ hq)
    have hp : data.length + 10 ≤ 65535 := h (id, data) (List.mem_cons_self _ _)
    rw [dumpEntries]
    by_cases hshort : data.length + 4 ≤ 255
    · rw [if_pos hshort, ih htail]
      show GRes.ok _ = _
      have hs : data.length ≤ 251 := by omega
      simp [rawOf, encEntry, hs, List.append_assoc]
    · rw [if_neg hshort, if_neg (by omega), ih htail]
      show GRes.ok _ = _
      have hs : ¬ data.length ≤ 251 := by omega
      simp [rawOf, encEntry, hs, List.append_assoc]

theorem encBlock_encEntry (id data : List Nat) (h2 : id.length = 2)
    (hal : asciiAlphanumeric id = true) (hlen : data.length + 10 ≤ 65535) :
    EncBlock id data (encEntry id data) := by
  refine ⟨h2, hal, ?_⟩
  by_cases hshort : data.length + 4 ≤ 255
  · exact Or.inl ⟨hexEncode [data.length + 4],
      by rw [encEntry, if_pos hshort] <;> simp [List.append_assoc],
      by simp [length_hexEncode],
      hexToInt_encByte _ hshort⟩
  · exact Or.inr ⟨hexPadUpper 4 (data.length + 10),
      by rw [encEntry, if_neg hshort] <;> simp [List.append_assoc],
      length_hexPadUpper 4 _ (by norm_num <;> omega),
      parseIntHex_hexPadUpper4 _ (by omega),
      by omega⟩

theorem encBlock_pb (padNum : Nat) (h : padNum ≤ 251) :
    EncBlock (bts "PB") (List.replicate padNum 48)
      (bts "PB" ++ (hexPadUpper 2 (4 + padNum) ++ List.replicate padNum 48)) := by
  refine ⟨by decide, by decide, Or.inl ⟨hexPadUpper 2 (4 + padNum), rfl, ?_, ?_⟩⟩
  · exact length_hexPadUpper 2 _ (by norm_num <;> omega)
  · rw [hexToInt_hexPadUpper, List.length_replicate] <;> omega

theorem dump_eq (b : Blocks) (bs : Nat)
    (hwf : ∀ p ∈ b.blocks, p.2.length + 10 ≤ 65535) (hbs : 1 ≤ bs) :
    Blocks.dump b bs =
      if (rawOf b.blocks).length > 0 ∧ (rawOf b.blocks).length % bs ≠ 0 then
        .ok (b.blocks.length + 1, rawOf b.blocks ++
          (bts "PB" ++ (hexPadUpper 2 (4 + (bs - ((rawOf b.blocks).length + 4) % bs)) ++
           List.replicate (bs - ((rawOf b.blocks).length + 4) % bs) 48)))
      else .ok (b.blocks.length, rawOf b.blocks) := by
  rw [Blocks.dump, dumpEntries_eq _ hwf]
  show (if ((rawOf b.blocks).length > 0 && bs > 0 && (rawOf b.blocks).length % bs ≠ 0) = true
    then _ else _) = _
  by_cases hcond : (rawOf b.blocks).length > 0 ∧ (rawOf b.blocks).length % bs ≠ 0
  · rw [if_pos (by simp [hcond.1, hcond.2]; omega), if_pos hcond]
    simp [List.append_assoc]
  · rw [if_neg (by simpa using fun h1 _ h2 => hcond ⟨h1, h2⟩), if_neg hcond]

/-- C9 (amended): for every block set and every algo block size between 1
and 251 (covering the profiles' 8 and 16; for sizes above 251 the `%02X` pad
length field widens and breaks alignment), the emitted optional-block area
has a length that is a multiple of the block size; the synthetic `PB` pad
block is appended exactly when the concatenation of the caller blocks alone
was nonempty and misaligned; and no parse of a block area ever yields a `PB`
entry in the mapping. -/
theorem C9_block_area_alignment (b : Blocks) (bs : Nat) (cnt : Nat) (area : List Nat)
    (hbs1 : 1 ≤ bs) (hbs2 : bs ≤ 251)
    (hwf : ∀ p ∈ b.blocks, p.2.length + 10 ≤ 65535)
    (hdump : Blocks.dump b bs = .ok (cnt, area)) :
    area.length % bs = 0 ∧
    (if (rawOf b.blocks).length > 0 ∧ (rawOf b.blocks).length % bs ≠ 0 then
      cnt = b.blocks.length + 1 ∧
      area = rawOf b.blocks ++
        (bts "PB" ++ (hexPadUpper 2 (4 + (bs - ((rawOf b.blocks).length + 4) % bs)) ++
         List.replicate (bs - ((rawOf b.blocks).length + 4) % bs) 48))
     else cnt = b.blocks.length ∧ area = rawOf b.blocks) ∧
    (∀ (n : Nat) (s : List Nat) (i : Nat) (m : Blocks) (e : Option GErr),
      Blocks.load n s = .ok (i, m, e) → m.contains (bts "PB") = false) := by
  rw [dump_eq b bs hwf hbs1] at hdump
  have hnoPB : ∀ (n : Nat) (s : List Nat) (i : Nat) (m : Blocks) (e : Option GErr),
      Blocks.load n s = .ok (i, m, e) → m.contains (bts "PB") = false := by
    intro n s i m e hload
    rw [Blocks.load] at hload
    rcases hres : Blocks.loadAux s n 0 [] with _ | e' | ⟨i', acc, e'⟩ <;> rw [hres] at hload
    · cases hload
    · cases hload
    · cases hload
      rw [contains_eq_false_iff]
      exact loadAux_noPB s n 0 [] _ hres
        (fun p hp => absurd hp (List.not_mem_nil p))
  by_cases hcond : (rawOf b.blocks).length > 0 ∧ (rawOf b.blocks).length % bs ≠ 0
  · rw [if_pos hcond] at hdump
    cases hdump
    rw [if_pos hcond]
    refine ⟨?_, ⟨rfl, rfl⟩, hnoPB⟩
    have hpadle : bs - ((rawOf b.blocks).length + 4) % bs ≤ 251 := by omega
    have hlen2 : (hexPadUpper 2 (4 + (bs - ((rawOf b.blocks).length + 4) % bs))).length = 2 := by
      refine length_hexPadUpper 2 _ ?_
      norm_num
      omega
    rw [List.length_append, List.length_append, List.length_append, hlen2,
      List.length_replicate]
    have hd := Nat.div_add_mod ((rawOf b.blocks).length + 4) bs
    have hmlt : ((rawOf b.blocks).length + 4) % bs < bs := Nat.mod_lt _ (by omega)
    have : (rawOf b.blocks).length + ((bts "PB").length + (2 +
        (bs - ((rawOf b.blocks).length + 4) % bs))) =
        bs * (((rawOf b.blocks).length + 4) / bs) + bs := by
      show (rawOf b.blocks).length + (2 + (2 + (bs - ((rawOf b.blocks).length + 4) % bs))) = _
      omega
    rw [this]
    have h2 : bs * (((rawOf b.blocks).length + 4) / bs) + bs =
        bs * ((((rawOf b.blocks).length + 4) / bs) + 1) := by ring
    rw [h2, Nat.mul_mod_right]
  · rw [if_neg hcond] at hdump
    cases hdump
    rw [if_neg hcond]
    refine ⟨?_, ⟨rfl, rfl⟩, hnoPB⟩
    rcases Nat.eq_zero_or_pos (rawOf b.blocks).length with h0 | hpos
    · rw [h0]
      simp
    · have : (rawOf b.blocks).length % bs = 0 := by
        by_contra hne
        exact hcond ⟨hpos, hne⟩
      exact this

theorem C9_block_area_alignment_witness :
    ((1 : Nat) ≤ 8 ∧ (8 : Nat) ≤ 251 ∧
      (∀ p ∈ (⟨[(bts "KS", bts "XY")]⟩ : Blocks).blocks, p.2.length + 10 ≤ 65535) ∧
      Blocks.dump ⟨[(bts "KS", bts "XY")]⟩ 8 = .ok (2, bts "KS06XYPB0A000000")) ∧
    ((bts "KS06XYPB0A000000").length % 8 = 0 ∧
      (if (rawOf (⟨[(bts "KS", bts "XY")]⟩ : Blocks).blocks).length > 0 ∧
          (rawOf (⟨[(bts "KS", bts "XY")]⟩ : Blocks).blocks).length % 8 ≠ 0 then
        (2 : Nat) = (⟨[(bts "KS", bts "XY")]⟩ : Blocks).blocks.length + 1 ∧
        bts "KS06XYPB0A000000" = rawOf (⟨[(bts "KS", bts "XY")]⟩ : Blocks).blocks ++
          (bts "PB" ++ (hexPadUpper 2 (4 + (8 -
            ((rawOf (⟨[(bts "KS", bts "XY")]⟩ : Blocks).blocks).length + 4) % 8)) ++
           List.replicate (8 -
            ((rawOf (⟨[(bts "KS", bts "XY")]⟩ : Blocks).blocks).length + 4) % 8) 48))
       else (2 : Nat) = (⟨[(bts "KS", bts "XY")]⟩ : Blocks).blocks.length ∧
        bts "KS06XYPB0A000000" = rawOf (⟨[(bts "KS", bts "XY")]⟩ : Blocks).blocks) ∧
      (∀ (n : Nat) (s : List Nat) (i : Nat) (m : Blocks) (e : Option GErr),
        Blocks.load n s = .ok (i, m, e) → m.contains (bts "PB") = false)) :=
  ⟨⟨by decide, by decide, by decide, by decide⟩,
    C9_block_area_alignment ⟨[(bts "KS", bts "XY")]⟩ 8 2 (bts "KS06XYPB0A000000")
      (by decide) (by decide) (by decide) (by decide)⟩

theorem alnum_append (a b : List Nat) :
    asciiAlphanumeric (a ++ b) = (asciiAlphanumeric a && asciiAlphanumeric b) := by
  simp [asciiAlphanumeric, List.all_append]

theorem versionID_length {h : Header} (hv : ValidHeader h) : h.versionID.length = 1 := by
  rcases hv.1 with h1 | h1 | h1 | h1 <;> rw [h1] <;> decide

theorem versionID_alnum {h : Header} (hv : ValidHeader h) :
    asciiAlphanumeric h.versionID = true := by
  rcases hv.1 with h1 | h1 | h1 | h1 <;> rw [h1] <;> decide

theorem headerDump_eq (h : Header) (keyLen cnt : Nat) (area : List Nat)
    (hbs : versionAlgoBlockSize h.versionID ≠ 0)
    (hbd : h.blocks.dump (versionAlgoBlockSize h.versionID) = .ok (cnt, area))
    (hkb : 16 + 4 + keyLen * 2 +
      (versionAlgoBlockSize h.versionID -
        ((2 + keyLen) % versionAlgoBlockSize h.versionID)) * 2 +
      versionKeyBlockMacLen h.versionID * 2 + area.length ≤ 9999) :
    h.dump keyLen = .ok (h.versionID ++
      decPad 4 (16 + 4 + keyLen * 2 +
        (versionAlgoBlockSize h.versionID -
          ((2 + keyLen) % versionAlgoBlockSize h.versionID)) * 2 +
        versionKeyBlockMacLen h.versionID * 2 + area.length) ++
      h.keyUsage ++ h.algorithm ++ h.modeOfUse ++ h.versionNum ++ h.exportability ++
      decPad 2 cnt ++ h.reserved ++ area) := by
  rw [Header.dump, if_neg hbs]
  simp only [hbd]
  rw [if_neg (by omega)]

theorem getD_at (pre l : List Nat) (i k d : Nat) (hi : pre.length = i) :
    (pre ++ l).getD (i + k) d = l.getD k d := by
  subst hi
  induction pre with
  | nil => simp
  | cons x xs ih =>
    have h1 : xs.length + 1 + k = (xs.length + k) + 1 := by omega
    show ((x :: xs) ++ l).getD ((x :: xs).length + k) d = l.getD k d
    simp only [List.length_cons, h1, List.cons_append, List.getD_cons_succ]
    exact ih

theorem getD_head (pre rest : List Nat) (c i d : Nat) (hi : pre.length = i) :
    (pre ++ (c :: rest)).getD i d = c := by
  subst hi
  induction pre with
  | nil => rfl
  | cons x xs ih => simpa using ih

theorem headerLoad_dump (h0 h : Header) (hv : ValidHeader h) (kbLen : Nat)
    (trips : List ((List Nat × List Nat) × List Nat)) (tail : List Nat)
    (henc : ∀ t ∈ trips, EncBlock t.1.1 t.1.2 t.2)
    (htail : 2 ≤ tail.length) (hcnt : trips.length ≤ 99) (hkb : kbLen ≤ 9999) :
    Header.load h0
      (h.versionID ++ decPad 4 kbLen ++ h.keyUsage ++ h.algorithm ++ h.modeOfUse ++
        h.versionNum ++ h.exportability ++ decPad 2 trips.length ++ h.reserved ++
        (trips.flatMap Prod.snd ++ tail)) =
      .ok (16 + (trips.flatMap Prod.snd).length,
        { versionID := h.versionID, keyUsage := h.keyUsage, algorithm := h.algorithm,
          modeOfUse := h.modeOfUse, versionNum := h.versionNum,
          exportability := h.exportability, reserved := h.reserved,
          blocks := ⟨loadFold [] (trips.map Prod.fst)⟩ }, none) := by
  obtain ⟨hvid, hku2, hkual, hal1, halal, hmu1, hmual, hvn2, hvnal, hex1, hexal,
    hres2, hresal, hwfb⟩ := hv
  have hv1 : h.versionID.length = 1 := by
    rcases hvid with h1 | h1 | h1 | h1 <;> rw [h1] <;> decide
  have hval : asciiAlphanumeric h.versionID = true := by
    rcases hvid with h1 | h1 | h1 | h1 <;> rw [h1] <;> decide
  have hd4 : (decPad 4 kbLen).length = 4 := length_decPad 4 kbLen (by norm_num <;> omega)
  have hd2 : (decPad 2 trips.length).length = 2 :=
    length_decPad 2 trips.length (by norm_num <;> omega)
  set s := h.versionID ++ decPad 4 kbLen ++ h.keyUsage ++ h.algorithm ++ h.modeOfUse ++
    h.versionNum ++ h.exportability ++ decPad 2 trips.length ++ h.reserved ++
    (trips.flatMap Prod.snd ++ tail) with hs
  have hslen : s.length = 16 + (trips.flatMap Prod.snd).length + tail.length := by
    rw [hs]
    simp [List.length_append, hv1, hku2, hal1, hmu1, hvn2, hex1, hres2, hd4, hd2]
    omega
  -- slice facts
  have hsub16 : sub s 0 16 = h.versionID ++ decPad 4 kbLen ++ h.keyUsage ++ h.algorithm ++
      h.modeOfUse ++ h.versionNum ++ h.exportability ++ decPad 2 trips.length ++
      h.reserved := by
    have hre : s = (h.versionID ++ decPad 4 kbLen ++ h.keyUsage ++ h.algorithm ++
        h.modeOfUse ++ h.versionNum ++ h.exportability ++ decPad 2 trips.length ++
        h.reserved) ++ ((trips.flatMap Prod.snd ++ tail) ++ []) := by
      rw [hs] <;> simp [List.append_assoc]
    rw [hre, show (0 : Nat) = ([] : List Nat).length from rfl]
    rw [show ((h.versionID ++ decPad 4 kbLen ++ h.keyUsage ++ h.algorithm ++
        h.modeOfUse ++ h.versionNum ++ h.exportability ++ decPad 2 trips.length ++
        h.reserved) ++ ((trips.flatMap Prod.snd ++ tail) ++ [])) =
      [] ++ ((h.versionID ++ decPad 4 kbLen ++ h.keyUsage ++ h.algorithm ++
        h.modeOfUse ++ h.versionNum ++ h.exportability ++ decPad 2 trips.length ++
        h.reserved) ++ ((trips.flatMap Prod.snd ++ tail) ++ [])) from rfl]
    exact sub_exact _ _ _ _ _ rfl
      (by simp [List.length_append, hv1, hku2, hal1, hmu1, hvn2, hex1, hres2, hd4, hd2])
  have hsubV : sub s 0 1 = h.versionID := by
    have hre : s = [] ++ (h.versionID ++ (decPad 4 kbLen ++ h.keyUsage ++ h.algorithm ++
        h.modeOfUse ++ h.versionNum ++ h.exportability ++ decPad 2 trips.length ++
        h.reserved ++ (trips.flatMap Prod.snd ++ tail)))  := by
      rw [hs] <;> simp [List.append_assoc]
    rw [hre]
    exact sub_exact _ _ _ _ _ rfl hv1
  have hsubKU : sub s 5 2 = h.keyUsage := by
    have hre : s = (h.versionID ++ decPad 4 kbLen) ++ (h.keyUsage ++ (h.algorithm ++
        h.modeOfUse ++ h.versionNum ++ h.exportability ++ decPad 2 trips.length ++
        h.reserved ++ (trips.flatMap Prod.snd ++ tail))) := by
      rw [hs] <;> simp [List.append_assoc]
    rw [hre]
    exact sub_exact _ _ _ _ _ (by simp [hv1, hd4]) hku2
  have hsubAl : sub s 7 1 = h.algorithm := by
    have hre : s = (h.versionID ++ decPad 4 kbLen ++ h.keyUsage) ++ (h.algorithm ++
        (h.modeOfUse ++ h.versionNum ++ h.exportability ++ decPad 2 trips.length ++
        h.reserved ++ (trips.flatMap Prod.snd ++ tail))) := by
      rw [hs] <;> simp [List.append_assoc]
    rw [hre]
    exact sub_exact _ _ _ _ _ (by simp [hv1, hd4, hku2]) hal1
  have hsubMU : sub s 8 1 = h.modeOfUse := by
    have hre : s = (h.versionID ++ decPad 4 kbLen ++ h.keyUsage ++ h.algorithm) ++
        (h.modeOfUse ++ (h.versionNum ++ h.exportability ++ decPad 2 trips.length ++
        h.reserved ++ (trips.flatMap Prod.snd ++ tail))) := by
      rw [hs] <;> simp [List.append_assoc]
    rw [hre]
    exact sub_exact _ _ _ _ _ (by simp [hv1, hd4, hku2, hal1]) hmu1
  have hsubVN : sub s 9 2 = h.versionNum := by
    have hre : s = (h.versionID ++ decPad 4 kbLen ++ h.keyUsage ++ h.algorithm ++
        h.modeOfUse) ++ (h.versionNum ++ (h.exportability ++ decPad 2 trips.length ++
        h.reserved ++ (trips.flatMap Prod.snd ++ tail))) := by
      rw [hs] <;> simp [List.append_assoc]
    rw [hre]
    exact sub_exact _ _ _ _ _ (by simp [hv1, hd4, hku2, hal1, hmu1]) hvn2
  have hsubEx : sub s 11 1 = h.exportability := by
    have hre : s = (h.versionID ++ decPad 4 kbLen ++ h.keyUsage ++ h.algorithm ++
        h.modeOfUse ++ h.versionNum) ++ (h.exportability ++ (decPad 2 trips.length ++
        h.reserved ++ (trips.flatMap Prod.snd ++ tail))) := by
      rw [hs] <;> simp [List.append_assoc]
    rw [hre]
    exact sub_exact _ _ _ _ _ (by simp [hv1, hd4, hku2, hal1, hmu1, hvn2]) hex1
  have hsubNum : sub s 12 2 = decPad 2 trips.length := by
    have hre : s = (h.versionID ++ decPad 4 kbLen ++ h.keyUsage ++ h.algorithm ++
        h.modeOfUse ++ h.versionNum ++ h.exportability) ++ (decPad 2 trips.length ++
        (h.reserved ++ (trips.flatMap Prod.snd ++ tail))) := by
      rw [hs] <;> simp [List.append_assoc]
    rw [hre]
    exact sub_exact _ _ _ _ _ (by simp [hv1, hd4, hku2, hal1, hmu1, hvn2, hex1] <;> omega) hd2
  have hsubRes : sub s 14 2 = h.reserved := by
    have hre : s = (h.versionID ++ decPad 4 kbLen ++ h.keyUsage ++ h.algorithm ++
        h.modeOfUse ++ h.versionNum ++ h.exportability ++ decPad 2 trips.length) ++
        (h.reserved ++ (trips.flatMap Prod.snd ++ tail)) := by
      rw [hs] <;> simp [List.append_assoc]
    rw [hre]
    exact sub_exact _ _ _ _ _
      (by simp [hv1, hd4, hku2, hal1, hmu1, hvn2, hex1, hd2] <;> omega) hres2
  have hdrop16 : s.drop 16 = trips.flatMap Prod.snd ++ tail := by
    have hre : s = (h.versionID ++ decPad 4 kbLen ++ h.keyUsage ++ h.algorithm ++
        h.modeOfUse ++ h.versionNum ++ h.exportability ++ decPad 2 trips.length ++
        h.reserved) ++ (trips.flatMap Prod.snd ++ tail) := by
      rw [hs] <;> simp [List.append_assoc]
    rw [hre, show (16 : Nat) = (h.versionID ++ decPad 4 kbLen ++ h.keyUsage ++
        h.algorithm ++ h.modeOfUse ++ h.versionNum ++ h.exportability ++
        decPad 2 trips.length ++ h.reserved).length from by
      simp [hv1, hd4, hku2, hal1, hmu1, hvn2, hex1, hd2, hres2]]
    exact List.drop_left _ _
  have hpad2 : decPad 2 trips.length = [48 + trips.length / 10, 48 + trips.length % 10] :=
    decPad2_eq trips.length hcnt
  have hg12 : s.getD 12 0 = 48 + trips.length / 10 := by
    have hre : s = (h.versionID ++ decPad 4 kbLen ++ h.keyUsage ++ h.algorithm ++
        h.modeOfUse ++ h.versionNum ++ h.exportability) ++
        ((48 + trips.length / 10) :: ((48 + trips.length % 10) ::
          (h.reserved ++ (trips.flatMap Prod.snd ++ tail)))) := by
      rw [hs] <;> simp [hpad2, List.append_assoc]
    rw [hre]
    exact getD_head _ _ _ _ _
      (by simp [hv1, hd4, hku2, hal1, hmu1, hvn2, hex1] <;> omega)
  have hg13 : s.getD 13 0 = 48 + trips.length % 10 := by
    have hre : s = ((h.versionID ++ decPad 4 kbLen ++ h.keyUsage ++ h.algorithm ++
        h.modeOfUse ++ h.versionNum ++ h.exportability) ++ [48 + trips.length / 10]) ++
        ((48 + trips.length % 10) :: (h.reserved ++ (trips.flatMap Prod.snd ++ tail))) := by
      rw [hs] <;> simp [hpad2, List.append_assoc]
    rw [hre]
    exact getD_head _ _ _ _ _
      (by simp [hv1, hd4, hku2, hal1, hmu1, hvn2, hex1] <;> omega)
  -- setter facts
  have hsetV : ∀ g : Header, g.setVersionID h.versionID =
      ({ g with versionID := h.versionID }, none) := by
    intro g
    rcases hvid with h1 | h1 | h1 | h1 <;> rw [h1, Header.setVersionID] <;>
      rw [if_neg (by decide)]
  have hsetKU : ∀ g : Header, g.setKeyUsage h.keyUsage =
      ({ g with keyUsage := h.keyUsage }, none) := by
    intro g
    rw [Header.setKeyUsage, if_neg (by simp [hku2, hkual])]
  have hsetAl : ∀ g : Header, g.setAlgorithm h.algorithm =
      ({ g with algorithm := h.algorithm }, none) := by
    intro g
    rw [Header.setAlgorithm, if_neg (by simp [hal1, halal])]
  have hsetMU : ∀ g : Header, g.setModeOfUse h.modeOfUse =
      ({ g with modeOfUse := h.modeOfUse }, none) := by
    intro g
    rw [Header.setModeOfUse, if_neg (by simp [hmu1, hmual])]
  have hsetVN : ∀ g : Header, g.setVersionNum h.versionNum =
      ({ g with versionNum := h.versionNum }, none) := by
    intro g
    rw [Header.setVersionNum, if_neg (by simp [hvn2, hvnal])]
  have hsetEx : ∀ g : Header, g.setExportability h.exportability =
      ({ g with exportability := h.exportability }, none) := by
    intro g
    rw [Header.setExportability, if_neg (by simp [hex1, hexal])]
  have hload : Blocks.load trips.length (trips.flatMap Prod.snd ++ tail) =
      .ok ((trips.flatMap Prod.snd).length, ⟨loadFold [] (trips.map Prod.fst)⟩, none) := by
    rw [Blocks.load]
    have hch := loadAux_chain trips [] tail [] henc htail
    simp only [List.nil_append, List.length_nil, Nat.zero_add] at hch
    rw [hch]
    rfl
  -- walk the definition
  rw [Header.load, if_neg (by omega), hsub16]
  rw [if_neg (by
    simp only [alnum_append, hval, hkual, halal, hmual, hvnal, hexal, hresal,
      numeric_alnum (asciiNumeric_decPad 4 kbLen),
      numeric_alnum (asciiNumeric_decPad 2 trips.length), Bool.and_self,
      Bool.not_true, Bool.false_eq_true, not_false_eq_true])]
  rw [hsubV, hsetV h0]
  rw [hsubKU]
  simp only [hsetKU]
  rw [hsubAl]
  simp only [hsetAl]
  rw [hsubMU]
  simp only [hsetMU]
  rw [hsubVN]
  simp only [hsetVN]
  rw [hsubEx]
  simp only [hsetEx]
  rw [hsubRes, hsubNum]
  rw [if_neg (by simp [asciiNumeric_decPad])]
  rw [hg12, hg13]
  rw [show (48 + trips.length / 10 - 48) * 10 + (48 + trips.length % 10 - 48) =
    trips.length from by omega]
  rw [hdrop16, hload]
  rfl

theorem Bytes_append {a b : List Nat} (ha : Bytes a) (hb : Bytes b) : Bytes (a ++ b) := by
  intro x hx
  rcases List.mem_append.mp hx with h | h
  · exact ha x h
  · exact hb x h

theorem Bytes_replicate (n v : Nat) (h : v < 256) : Bytes (List.replicate n v) := by
  intro x hx
  rw [List.eq_of_mem_replicate hx]
  exact h

theorem Bytes_take {a : List Nat} (n : Nat) (ha : Bytes a) : Bytes (a.take n) :=
  fun x hx => ha x (List.mem_of_mem_take hx)

theorem Bytes_drop {a : List Nat} (n : Nat) (ha : Bytes a) : Bytes (a.drop n) :=
  fun x hx => ha x (List.mem_of_mem_drop hx)

theorem Bytes_xorB : ∀ {a b : List Nat}, Bytes a → Bytes b → Bytes (xorB a b) := by
  intro a
  induction a with
  | nil => intro b _ _ x hx; cases hx
  | cons u us ih =>
    intro b ha hb x hx
    cases b with
    | nil => cases hx
    | cons v vs =>
      rw [xorB, List.zipWith_cons_cons] at hx
      rcases List.mem_cons.mp hx with rfl | hx2
      · have hu : u < 256 := ha u (List.mem_cons_self _ _)
        have hv : v < 256 := hb v (List.mem_cons_self _ _)
        calc u ^^^ v < 2 ^ 8 := Nat.xor_lt_two_pow (by simpa using hu) (by simpa using hv)
          _ = 256 := by norm_num
      · exact ih (fun y hy => ha y (List.mem_cons_of_mem _ hy))
          (fun y hy => hb y (List.mem_cons_of_mem _ hy)) x hx2

theorem Bytes_beBytes (n v : Nat) : Bytes (beBytes n v) := by
  intro x hx
  rw [beBytes] at hx
  obtain ⟨i, _, hi⟩ := List.mem_map.mp hx
  omega

theorem padISO1_length_pos (d : List Nat) (bs : Nat) (hbs : 0 < bs) (hd : d ≠ []) :
    bs ≤ (padISO1 d bs).length ∧ (padISO1 d bs).length % bs = 0 := by
  rw [padISO1]
  have hdl : 0 < d.length := List.length_pos.mpr hd
  simp only [if_neg (by omega : ¬ bs ≤ 0)]
  by_cases hrem : d.length % bs > 0
  · rw [if_pos hrem]
    have hle : d.length % bs ≤ d.length := Nat.mod_le _ _
    have hlt : d.length % bs < bs := Nat.mod_lt _ hbs
    rw [if_neg (by simp [List.length_append, List.length_replicate]; omega)]
    simp only [List.length_append, List.length_replicate]
    constructor
    · omega
    · have hdm := Nat.div_add_mod d.length bs
      have : d.length + (bs - d.length % bs) = bs * (d.length / bs) + bs := by omega
      rw [this, show bs * (d.length / bs) + bs = bs * (d.length / bs + 1) from by ring,
        Nat.mul_mod_right]
  · rw [if_neg hrem, if_neg (by omega)]
    have h0 : d.length % bs = 0 := by omega
    constructor
    · have := Nat.div_add_mod d.length bs
      rcases Nat.eq_zero_or_pos (d.length / bs) with hq | hq
      · rw [hq] at this
        omega
      · have : bs * 1 ≤ bs * (d.length / bs) := Nat.mul_le_mul_left _ hq
        omega
    · exact h0

theorem padISO1_bytes {d : List Nat} (bs : Nat) (hd : Bytes d) : Bytes (padISO1 d bs) := by
  rw [padISO1]
  have hz : ∀ n, Bytes (List.replicate n 0) := fun n => Bytes_replicate n 0 (by omega)
  set bs' := if bs ≤ 0 then 8 else bs with hbs'
  set data' := if d.length % bs' > 0 then d ++ List.replicate (bs' - d.length % bs') 0 else d
    with hdata
  have hbytes' : Bytes data' := by
    rw [hdata]
    split
    · exact Bytes_append hd (hz _)
    · exact hd
  split
  · exact hz _
  · exact hbytes'

theorem generateCBCMAC_ok (cs : CipherSuite) (good : cs.Good) (key data : List Nat)
    (len : Nat) (alg : Alg) (hk : key ≠ []) (hd : data ≠ []) (hl0 : 0 < len)
    (hlb : len ≤ if alg = .AES then 16 else 8) :
    ∃ m, generateCBCMAC cs key data 1 len alg = .ok m ∧ m.length = len ∧ Bytes m := by
  rw [generateCBCMAC, GenerateCBCMAC]
  rw [if_neg (by norm_num), if_neg (by simpa using hk), if_neg (by simpa using hd)]
  rw [if_neg (by omega : ¬ len = 0)]
  rw [if_neg (by norm_num : ¬ (1 : Int) > 3)]
  cases alg with
  | DES =>
    obtain ⟨hge, _⟩ := padISO1_length_pos data 8 (by norm_num) hd
    have hmlen : (cs.tdesCbcEnc key (List.replicate 8 0) (padISO1 data 8)).length =
        (padISO1 data 8).length := good.tdesEncLen _ _ _
    refine ⟨List.take len (List.drop
        ((cs.tdesCbcEnc key (List.replicate 8 0) (padISO1 data 8)).length - 8)
        (cs.tdesCbcEnc key (List.replicate 8 0) (padISO1 data 8))), ?_, ?_, ?_⟩
    · show (if (cs.tdesCbcEnc key (List.replicate 8 0) (padISO1 data 8)).length < 8
          then GRes.panic
          else GRes.ok (List.take len (List.drop
            ((cs.tdesCbcEnc key (List.replicate 8 0) (padISO1 data 8)).length - 8)
            (cs.tdesCbcEnc key (List.replicate 8 0) (padISO1 data 8))))) = _
      rw [if_neg (by omega)]
    · rw [List.length_take, List.length_drop]
      simp at hlb
      omega
    · exact Bytes_take _ (Bytes_drop _ (good.tdesEncBytes _ _ _))
  | AES =>
    obtain ⟨hge, _⟩ := padISO1_length_pos data 16 (by norm_num) hd
    have hmlen : (cs.aesCbcEnc key (List.replicate 16 0) (padISO1 data 16)).length =
        (padISO1 data 16).length := good.aesEncLen _ _ _
    refine ⟨List.take len (List.drop
        ((cs.aesCbcEnc key (List.replicate 16 0) (padISO1 data 16)).length - 16)
        (cs.aesCbcEnc key (List.replicate 16 0) (padISO1 data 16))), ?_, ?_, ?_⟩
    · show (if (cs.aesCbcEnc key (List.replicate 16 0) (padISO1 data 16)).length < 16
          then GRes.panic
          else GRes.ok (List.take len (List.drop
            ((cs.aesCbcEnc key (List.replicate 16 0) (padISO1 data 16)).length - 16)
            (cs.aesCbcEnc key (List.replicate 16 0) (padISO1 data 16))))) = _
      rw [if_neg (by omega)]
    · rw [List.length_take, List.length_drop]
      simp at hlb
      omega
    · exact Bytes_take _ (Bytes_drop _ (good.aesEncBytes _ _ _))

theorem beBytes_length (n v : Nat) : (beBytes n v).length = n := by
  rw [beBytes, List.length_map, List.length_range]

theorem shiftLeft1_length (b : List Nat) : (shiftLeft1 b).length = b.length :=
  beBytes_length _ _

theorem dShiftLeft1_length (b : List Nat) : (dShiftLeft1 b).length = b.length :=
  beBytes_length _ _

theorem Bytes_shiftLeft1 (b : List Nat) : Bytes (shiftLeft1 b) :=
  Bytes_beBytes _ _

theorem Bytes_dShiftLeft1 (b : List Nat) : Bytes (dShiftLeft1 b) :=
  Bytes_beBytes _ _

theorem xorB_length (a b : List Nat) : (xorB a b).length = min a.length b.length := by
  rw [xorB, List.length_zipWith]

theorem deriveDesCmacSubkey_ok (cs : CipherSuite) (good : cs.Good) (key : List Nat) :
    ∃ k1 k2, deriveDesCmacSubkey cs key = .ok (k1, k2) ∧ k1.length = 8 ∧ Bytes k1 := by
  have hslen : (cs.tdesEcb key [0, 0, 0, 0, 0, 0, 0, 0]).length = 8 := by
    rw [good.tdesEcbLen]
    rfl
  have hsbytes := good.tdesEcbBytes key [0, 0, 0, 0, 0, 0, 0, 0]
  rcases heq : cs.tdesEcb key [0, 0, 0, 0, 0, 0, 0, 0] with _ | ⟨s0, srest⟩
  · rw [heq] at hslen
    cases hslen
  · rw [heq] at hslen hsbytes
    have hk1len : (if s0 &&& 128 ≠ 0
        then xorB (shiftLeft1 (s0 :: srest)) [0, 0, 0, 0, 0, 0, 0, 0x1B]
        else shiftLeft1 (s0 :: srest)).length = 8 := by
      split
      · rw [xorB_length, shiftLeft1_length, hslen]
        rfl
      · rw [shiftLeft1_length, hslen]
    have hk1bytes : Bytes (if s0 &&& 128 ≠ 0
        then xorB (shiftLeft1 (s0 :: srest)) [0, 0, 0, 0, 0, 0, 0, 0x1B]
        else shiftLeft1 (s0 :: srest)) := by
      split
      · exact Bytes_xorB (Bytes_shiftLeft1 _) (by decide)
      · exact Bytes_shiftLeft1 _
    rcases hk1eq : (if s0 &&& 128 ≠ 0
        then xorB (shiftLeft1 (s0 :: srest)) [0, 0, 0, 0, 0, 0, 0, 0x1B]
        else shiftLeft1 (s0 :: srest)) with _ | ⟨k10, k1rest⟩
    · rw [hk1eq] at hk1len
      cases hk1len
    · rw [hk1eq] at hk1len hk1bytes
      refine ⟨k10 :: k1rest,
        if k10 &&& 128 ≠ 0
          then xorB (shiftLeft1 (k10 :: k1rest)) [0, 0, 0, 0, 0, 0, 0, 0x1B]
          else shiftLeft1 (k10 :: k1rest), ?_, hk1len, hk1bytes⟩
      simp only [deriveDesCmacSubkey, heq, hk1eq]

theorem deriveAESCMACSubkeys_ok (cs : CipherSuite) (good : cs.Good) (key : List Nat) :
    ∃ k1 k2, deriveAESCMACSubkeys cs key = .ok (k1, k2) ∧
      k1.length = 16 ∧ Bytes k1 ∧ k2.length = 16 ∧ Bytes k2 := by
  have hslen : (cs.aesEcb key (List.replicate 16 0)).length = 16 := by
    rw [good.aesEcbLen]
    rfl
  have hsbytes := good.aesEcbBytes key (List.replicate 16 0)
  rcases heq : cs.aesEcb key (List.replicate 16 0) with _ | ⟨s0, srest⟩
  · rw [heq] at hslen
    cases hslen
  · rw [heq] at hslen hsbytes
    have hk1len : (if s0 &&& 128 ≠ 0
        then xorB (dShiftLeft1 (s0 :: srest))
          [0, 0, 0, 0, 0, 0, 0, 0, 0, 0, 0, 0, 0, 0, 0, 0x87]
        else dShiftLeft1 (s0 :: srest)).length = 16 := by
      split
      · rw [xorB_length, dShiftLeft1_length, hslen]
        rfl
      · rw [dShiftLeft1_length, hslen]
    have hk1bytes : Bytes (if s0 &&& 128 ≠ 0
        then xorB (dShiftLeft1 (s0 :: srest))
          [0, 0, 0, 0, 0, 0, 0, 0, 0, 0, 0, 0, 0, 0, 0, 0x87]
        else dShiftLeft1 (s0 :: srest)) := by
      split
      · exact Bytes_xorB (Bytes_dShiftLeft1 _) (by decide)
      · exact Bytes_dShiftLeft1 _
    rcases hk1eq : (if s0 &&& 128 ≠ 0
        then xorB (dShiftLeft1 (s0 :: srest))
          [0, 0, 0, 0, 0, 0, 0, 0, 0, 0, 0, 0, 0, 0, 0, 0x87]
        else dShiftLeft1 (s0 :: srest)) with _ | ⟨k10, k1rest⟩
    · rw [hk1eq] at hk1len
      cases hk1len
    · rw [hk1eq] at hk1len hk1bytes
      refine ⟨k10 :: k1rest,
        if k10 &&& 128 ≠ 0
          then xorB (dShiftLeft1 (k10 :: k1rest))
            [0, 0, 0, 0, 0, 0, 0, 0, 0, 0, 0, 0, 0, 0, 0, 0x87]
          else dShiftLeft1 (k10 :: k1rest), ?_, hk1len, hk1bytes, ?_, ?_⟩
      · simp only [deriveAESCMACSubkeys, heq, hk1eq]
      · simp only [List.length_cons] at hk1len
        split
        · rw [xorB_length, dShiftLeft1_length]
          simp only [List.length_cons]
          omega
        · rw [dShiftLeft1_length, List.length_cons]
          omega
      · split
        · exact Bytes_xorB (Bytes_dShiftLeft1 _) (by decide)
        · exact Bytes_dShiftLeft1 _

theorem Bytes_nil : Bytes ([] : List Nat) := by
  intro b hb
  cases hb

theorem beBytes_two (v : Nat) : beBytes 2 v = [v / 256 % 256, v % 256] := by
  norm_num [beBytes, List.range_succ]

theorem xorB_ne_nil {a b : List Nat} (ha : a.length = 8) (hb : b.length = 8) :
    xorB a b ≠ [] := by
  have : (xorB a b).length = 8 := by rw [xorB_length, ha, hb]; omega
  intro hnil
  rw [hnil] at this
  cases this

theorem bDeriveLoop_ok (cs : CipherSuite) (good : cs.Good) (kbpk k1 : List Nat)
    (a5 a7 : Nat) (hkbpk : kbpk ≠ []) (hk1 : k1.length = 8) :
    ∀ (ctrs : List Nat) (kbek0 kbak0 : List Nat), Bytes kbek0 → Bytes kbak0 →
      ∃ kbek kbak,
        bDeriveLoop cs kbpk k1 a5 a7 ctrs (kbek0, kbak0) = .ok (kbek, kbak) ∧
        kbek.length = kbek0.length + 8 * ctrs.length ∧
        kbak.length = kbak0.length + 8 * ctrs.length ∧ Bytes kbek ∧ Bytes kbak := by
  intro ctrs
  induction ctrs with
  | nil =>
    intro kbek0 kbak0 hbE hbA
    exact ⟨kbek0, kbak0, rfl, by simp, by simp, hbE, hbA⟩
  | cons i rest ih =>
    intro kbek0 kbak0 hbE hbA
    obtain ⟨m1, hm1, hm1len, hm1b⟩ :=
      generateCBCMAC_ok cs good kbpk (xorB [i, 0, 0, 0, 0, a5, 0, a7] k1) 8 .DES
        hkbpk (xorB_ne_nil rfl hk1) (by omega) (by simp)
    obtain ⟨m2, hm2, hm2len, hm2b⟩ :=
      generateCBCMAC_ok cs good kbpk (xorB [i, 0, 1, 0, 0, a5, 0, a7] k1) 8 .DES
        hkbpk (xorB_ne_nil rfl hk1) (by omega) (by simp)
    obtain ⟨kbek, kbak, hrec, hl1, hl2, hb1, hb2⟩ :=
      ih (kbek0 ++ m1) (kbak0 ++ m2) (Bytes_append hbE hm1b) (Bytes_append hbA hm2b)
    refine ⟨kbek, kbak, ?_, ?_, ?_, hb1, hb2⟩
    · simp only [bDeriveLoop, hm1, GRes.ok_bind, hm2, hrec]
    · rw [hl1, List.length_append, hm1len, List.length_cons]
      omega
    · rw [hl2, List.length_append, hm2len, List.length_cons]
      omega

theorem bDerive_ok (cs : CipherSuite) (good : cs.Good) (kbpk : List Nat)
    (hkbpk : kbpk ≠ []) :
    ∃ kbek kbak, bDerive cs kbpk = .ok (kbek, kbak) ∧
      kbek.length = (if kbpk.length = 16 then 16 else 24) ∧
      kbak.length = (if kbpk.length = 16 then 16 else 24) ∧
      Bytes kbek ∧ Bytes kbak := by
  obtain ⟨k1, k2, hk, hk1len, hk1b⟩ := deriveDesCmacSubkey_ok cs good kbpk
  by_cases h16 : kbpk.length = 16
  · obtain ⟨kbek, kbak, hloop, hl1, hl2, hb1, hb2⟩ :=
      bDeriveLoop_ok cs good kbpk k1 0x00 0x80 hkbpk hk1len [1, 2] [] [] Bytes_nil Bytes_nil
    refine ⟨kbek, kbak, ?_, ?_, ?_, hb1, hb2⟩
    · simp only [bDerive, hk, GRes.ok_bind, if_pos h16]
      exact hloop
    · rw [if_pos h16, hl1]
      rfl
    · rw [if_pos h16, hl2]
      rfl
  · obtain ⟨kbek, kbak, hloop, hl1, hl2, hb1, hb2⟩ :=
      bDeriveLoop_ok cs good kbpk k1 0x01 0xC0 hkbpk hk1len [1, 2, 3] [] [] Bytes_nil Bytes_nil
    refine ⟨kbek, kbak, ?_, ?_, ?_, hb1, hb2⟩
    · simp only [bDerive, hk, GRes.ok_bind, if_neg h16]
      exact hloop
    · rw [if_neg h16, hl1]
      rfl
    · rw [if_neg h16, hl2]
      rfl

theorem bGenerateMac_ok (cs : CipherSuite) (good : cs.Good)
    (kbak header keyData : List Nat) (hkbak : kbak ≠ [])
    (hlen : 8 ≤ header.length + keyData.length) :
    ∃ mac, bGenerateMac cs kbak header keyData = .ok mac ∧ mac.length = 8 ∧ Bytes mac := by
  obtain ⟨km1, km2, hk, hkm1len, hkm1b⟩ := deriveDesCmacSubkey_ok cs good kbak
  have hmdlen : (header ++ keyData).length = header.length + keyData.length :=
    List.length_append _ _
  have hxlen : ((header ++ keyData).take ((header ++ keyData).length - 8) ++
      xorB ((header ++ keyData).drop ((header ++ keyData).length - 8)) km1).length =
      header.length + keyData.length := by
    rw [List.length_append, List.length_take, xorB_length, List.length_drop, hmdlen, hkm1len]
    omega
  obtain ⟨mac, hmac, hmaclen, hmacb⟩ :=
    generateCBCMAC_ok cs good kbak
      ((header ++ keyData).take ((header ++ keyData).length - 8) ++
        xorB ((header ++ keyData).drop ((header ++ keyData).length - 8)) km1)
      8 .DES hkbak
      (by
        intro hnil
        rw [hnil] at hxlen
        simp at hxlen
        omega)
      (by omega) (by simp)
  refine ⟨mac, ?_, hmaclen, hmacb⟩
  simp only [bGenerateMac, hk, GRes.ok_bind]
  rw [if_pos (by rw [hmdlen]; omega)]
  exact hmac

theorem GRes.orNil_ok (v : List Nat) : (GRes.ok v).orNil = .ok v := rfl

theorem GRes.orNilPair_ok (v : List Nat × List Nat) :
    (GRes.ok v).orNilPair = .ok v := rfl

theorem pad_bytes (rnd : Nat → Nat) (n : Nat) :
    Bytes ((List.range n).map (fun m => rnd m % 256)) := by
  intro b hb
  obtain ⟨m, _, hm⟩ := List.mem_map.mp hb
  omega

theorem len_prefix_getD (key pad : List Nat) (h : key.length ≤ 8191) :
    (beBytes 2 (key.length * 8 % 2 ^ 16) ++ key ++ pad).getD 0 0 * 256 +
      (beBytes 2 (key.length * 8 % 2 ^ 16) ++ key ++ pad).getD 1 0 = key.length * 8 := by
  have hv : key.length * 8 % 2 ^ 16 = key.length * 8 := Nat.mod_eq_of_lt (by omega)
  rw [beBytes_two, hv]
  simp only [List.cons_append, List.nil_append, List.getD_cons_zero, List.getD_cons_succ]
  omega

theorem b_roundtrip (cs : CipherSuite) (good : cs.Good) (kb kb2 : KeyBlock)
    (header key : List Nat) (extraPad : Nat) (rnd : Nat → Nat)
    (hkl : kb.kbpk.length = 16 ∨ kb.kbpk.length = 24)
    (hkb2 : kb2.kbpk = kb.kbpk)
    (hkey : Bytes key) (hklen : key.length ≤ 8191) :
    ∃ ct mac,
      bWrap cs kb header key extraPad rnd = .ok (header ++ hexEncode ct ++ hexEncode mac) ∧
      ct.length = 2 + key.length + (8 - (2 + key.length + extraPad) % 8) + extraPad ∧
      Bytes ct ∧ mac.length = 8 ∧ Bytes mac ∧
      bUnwrap cs kb2 header ct mac = .ok key := by
  have hkbpknil : kb.kbpk ≠ [] := by
    rcases hkl with h | h <;> intro hnil <;> rw [hnil] at h <;> cases h
  obtain ⟨kbek, kbak, hder, hle, hla, hbe, hba⟩ := bDerive_ok cs good kb.kbpk hkbpknil
  have hkbaklen : kbak.length ≠ 0 := by
    rcases hkl with h | h
    · rw [if_pos h] at hla
      omega
    · rw [if_neg (by omega)] at hla
      omega
  have hkbaknil : kbak ≠ [] := by
    intro hnil
    rw [hnil] at hkbaklen
    exact hkbaklen rfl
  have hc1 : ¬((kb.kbpk.length ≠ 16 && kb.kbpk.length ≠ 24) = true) := by
    rcases hkl with h | h <;> simp [h]
  have hclen : (beBytes 2 (key.length * 8 % 2 ^ 16) ++ key ++
      (List.range (8 - (2 + key.length + extraPad) % 8 + extraPad)).map
        (fun n => rnd n % 256)).length =
      2 + key.length + (8 - (2 + key.length + extraPad) % 8) + extraPad := by
    rw [List.length_append, List.length_append, beBytes_length, List.length_map,
      List.length_range]
    omega
  have hcb : Bytes (beBytes 2 (key.length * 8 % 2 ^ 16) ++ key ++
      (List.range (8 - (2 + key.length + extraPad) % 8 + extraPad)).map
        (fun n => rnd n % 256)) :=
    Bytes_append (Bytes_append (Bytes_beBytes _ _) hkey) (pad_bytes rnd _)
  have hcmod : (beBytes 2 (key.length * 8 % 2 ^ 16) ++ key ++
      (List.range (8 - (2 + key.length + extraPad) % 8 + extraPad)).map
        (fun n => rnd n % 256)).length % 8 = 0 := by
    rw [hclen]
    omega
  obtain ⟨mac, hmac, hmaclen, hmacb⟩ :=
    bGenerateMac_ok cs good kbak header
      (beBytes 2 (key.length * 8 % 2 ^ 16) ++ key ++
        (List.range (8 - (2 + key.length + extraPad) % 8 + extraPad)).map
          (fun n => rnd n % 256))
      hkbaknil (by rw [hclen]; omega)
  have hctlen : (cs.tdesCbcEnc kbek mac
      (beBytes 2 (key.length * 8 % 2 ^ 16) ++ key ++
        (List.range (8 - (2 + key.length + extraPad) % 8 + extraPad)).map
          (fun n => rnd n % 256))).length =
      (beBytes 2 (key.length * 8 % 2 ^ 16) ++ key ++
        (List.range (8 - (2 + key.length + extraPad) % 8 + extraPad)).map
          (fun n => rnd n % 256)).length :=
    good.tdesEncLen _ _ _
  refine ⟨cs.tdesCbcEnc kbek mac
      (beBytes 2 (key.length * 8 % 2 ^ 16) ++ key ++
        (List.range (8 - (2 + key.length + extraPad) % 8 + extraPad)).map
          (fun n => rnd n % 256)), mac, ?_, ?_, good.tdesEncBytes _ _ _, hmaclen, hmacb, ?_⟩
  · simp only [bWrap, hder, GRes.orNilPair_ok, GRes.ok_bind, hmac, GRes.orNil_ok]
    rw [if_neg hc1]
  · rw [hctlen, hclen]
  · simp only [bUnwrap, hkb2, hder, GRes.ok_bind]
    rw [if_neg hc1]
    have hc2 : ¬((cs.tdesCbcEnc kbek mac
        (beBytes 2 (key.length * 8 % 2 ^ 16) ++ key ++
          (List.range (8 - (2 + key.length + extraPad) % 8 + extraPad)).map
            (fun n => rnd n % 256))).length < 8 ∨
        (cs.tdesCbcEnc kbek mac
          (beBytes 2 (key.length * 8 % 2 ^ 16) ++ key ++
            (List.range (8 - (2 + key.length + extraPad) % 8 + extraPad)).map
              (fun n => rnd n % 256))).length % 8 ≠ 0) := by
      rw [hctlen, hclen]
      omega
    rw [if_neg (by simp only [Bool.or_eq_true, decide_eq_true_eq]; exact hc2)]
    rw [good.tdesInv kbek mac
      (beBytes 2 (key.length * 8 % 2 ^ 16) ++ key ++
        (List.range (8 - (2 + key.length + extraPad) % 8 + extraPad)).map
          (fun n => rnd n % 256)) hmacb hcb hcmod]
    simp only [hmac, GRes.ok_bind]
    rw [if_neg (fun h => h rfl)]
    rw [if_neg (by rw [hclen]; omega)]
    rw [len_prefix_getD key _ hklen]
    rw [if_neg (not_not_intro (by omega))]
    rw [Nat.mul_div_cancel key.length (by omega)]
    rw [if_neg (by rw [hclen]; omega)]
    rw [List.append_assoc,
      sub_exact (beBytes 2 (key.length * 8 % 2 ^ 16)) key _ 2 key.length
        (beBytes_length 2 _) rfl]

theorem cGenerateMAC_ok (cs : CipherSuite) (good : cs.Good)
    (kbak header keyData : List Nat) (hkbak : kbak ≠ [])
    (hd : header ++ keyData ≠ []) :
    ∃ mac, cGenerateMAC cs kbak header keyData = .ok mac ∧ mac.length = 4 ∧ Bytes mac := by
  obtain ⟨m, hm, hml, hmb⟩ :=
    generateCBCMAC_ok cs good kbak (header ++ keyData) 4 .DES hkbak hd (by omega) (by simp)
  refine ⟨m, ?_, hml, hmb⟩
  rw [cGenerateMAC, hm]
  rfl

theorem c_roundtrip (cs : CipherSuite) (good : cs.Good) (kb kb2 : KeyBlock)
    (header key : List Nat) (extraPad : Nat) (rnd : Nat → Nat)
    (hkl : kb.kbpk.length = 8 ∨ kb.kbpk.length = 16 ∨ kb.kbpk.length = 24)
    (hkb2 : kb2.kbpk = kb.kbpk)
    (hkey : Bytes key) (hklen : key.length ≤ 8191)
    (hh8 : 8 ≤ header.length) (hhb : Bytes header) :
    ∃ ct mac,
      cWrap cs kb header key extraPad rnd =
        .ok (header ++ hexEncodeUpper ct ++ hexEncodeUpper mac) ∧
      ct.length = 2 + key.length + (8 - (2 + key.length + extraPad) % 8) + extraPad ∧
      Bytes ct ∧ mac.length = 4 ∧ Bytes mac ∧
      cUnwrap cs kb2 header ct mac = .ok key := by
  have hc1 : ¬((kb.kbpk.length ≠ 8 && kb.kbpk.length ≠ 16 && kb.kbpk.length ≠ 24) = true) := by
    rcases hkl with h | h | h <;> simp [h]
  have hkbaklen : (xorB kb.kbpk (List.replicate kb.kbpk.length 0x4D)).length =
      kb.kbpk.length := by
    rw [xorB_length, List.length_replicate, Nat.min_self]
  have hkbaknil : xorB kb.kbpk (List.replicate kb.kbpk.length 0x4D) ≠ [] := by
    intro hnil
    rw [hnil] at hkbaklen
    rcases hkl with h | h | h <;> rw [h] at hkbaklen <;> cases hkbaklen
  have hclen : (beBytes 2 (key.length * 8 % 2 ^ 16) ++ key ++
      (List.range (8 - (2 + key.length + extraPad) % 8 + extraPad)).map
        (fun n => rnd n % 256)).length =
      2 + key.length + (8 - (2 + key.length + extraPad) % 8) + extraPad := by
    rw [List.length_append, List.length_append, beBytes_length, List.length_map,
      List.length_range]
    omega
  have hcb : Bytes (beBytes 2 (key.length * 8 % 2 ^ 16) ++ key ++
      (List.range (8 - (2 + key.length + extraPad) % 8 + extraPad)).map
        (fun n => rnd n % 256)) :=
    Bytes_append (Bytes_append (Bytes_beBytes _ _) hkey) (pad_bytes rnd _)
  have hcmod : (beBytes 2 (key.length * 8 % 2 ^ 16) ++ key ++
      (List.range (8 - (2 + key.length + extraPad) % 8 + extraPad)).map
        (fun n => rnd n % 256)).length % 8 = 0 := by
    rw [hclen]
    omega
  have hctlen : (cs.tdesCbcEnc (xorB kb.kbpk (List.replicate kb.kbpk.length 0x45))
      (header.take 8)
      (beBytes 2 (key.length * 8 % 2 ^ 16) ++ key ++
        (List.range (8 - (2 + key.length + extraPad) % 8 + extraPad)).map
          (fun n => rnd n % 256))).length =
      (beBytes 2 (key.length * 8 % 2 ^ 16) ++ key ++
        (List.range (8 - (2 + key.length + extraPad) % 8 + extraPad)).map
          (fun n => rnd n % 256)).length :=
    good.tdesEncLen _ _ _
  have hdnil : header ++ cs.tdesCbcEnc (xorB kb.kbpk (List.replicate kb.kbpk.length 0x45))
      (header.take 8)
      (beBytes 2 (key.length * 8 % 2 ^ 16) ++ key ++
        (List.range (8 - (2 + key.length + extraPad) % 8 + extraPad)).map
          (fun n => rnd n % 256)) ≠ [] := by
    intro hnil
    have := congrArg List.length hnil
    simp only [List.length_append, List.length_nil] at this
    omega
  obtain ⟨mac, hmac, hmaclen, hmacb⟩ :=
    cGenerateMAC_ok cs good (xorB kb.kbpk (List.replicate kb.kbpk.length 0x4D)) header
      (cs.tdesCbcEnc (xorB kb.kbpk (List.replicate kb.kbpk.length 0x45))
        (header.take 8)
        (beBytes 2 (key.length * 8 % 2 ^ 16) ++ key ++
          (List.range (8 - (2 + key.length + extraPad) % 8 + extraPad)).map
            (fun n => rnd n % 256)))
      hkbaknil hdnil
  refine ⟨cs.tdesCbcEnc (xorB kb.kbpk (List.replicate kb.kbpk.length 0x45))
      (header.take 8)
      (beBytes 2 (key.length * 8 % 2 ^ 16) ++ key ++
        (List.range (8 - (2 + key.length + extraPad) % 8 + extraPad)).map
          (fun n => rnd n % 256)), mac, ?_, ?_, good.tdesEncBytes _ _ _, hmaclen, hmacb, ?_⟩
  · simp only [cWrap, cDerive, hmac, GRes.ok_bind]
    rw [if_neg hc1, if_neg (by omega)]
  · rw [hctlen, hclen]
  · have hc2 : ¬((cs.tdesCbcEnc (xorB kb.kbpk (List.replicate kb.kbpk.length 0x45))
        (header.take 8)
        (beBytes 2 (key.length * 8 % 2 ^ 16) ++ key ++
          (List.range (8 - (2 + key.length + extraPad) % 8 + extraPad)).map
            (fun n => rnd n % 256))).length < 8 ∨
        (cs.tdesCbcEnc (xorB kb.kbpk (List.replicate kb.kbpk.length 0x45))
          (header.take 8)
          (beBytes 2 (key.length * 8 % 2 ^ 16) ++ key ++
            (List.range (8 - (2 + key.length + extraPad) % 8 + extraPad)).map
              (fun n => rnd n % 256))).length % 8 ≠ 0) := by
      rw [hctlen, hclen]
      omega
    simp only [cUnwrap, hkb2, cDerive, hmac, GRes.orNil_ok, GRes.ok_bind]
    rw [if_neg hc1]
    rw [if_neg (by simp only [Bool.or_eq_true, decide_eq_true_eq]; exact hc2)]
    rw [if_neg (by simp [compareMAC])]
    rw [if_neg (by omega)]
    rw [good.tdesInv (xorB kb.kbpk (List.replicate kb.kbpk.length 0x45)) (header.take 8)
      (beBytes 2 (key.length * 8 % 2 ^ 16) ++ key ++
        (List.range (8 - (2 + key.length + extraPad) % 8 + extraPad)).map
          (fun n => rnd n % 256)) (Bytes_take 8 hhb) hcb hcmod]
    rw [if_neg (by rw [hclen]; omega)]
    rw [len_prefix_getD key _ hklen]
    rw [if_neg (not_not_intro (by omega))]
    rw [Nat.mul_div_cancel key.length (by omega)]
    rw [if_neg (by rw [hclen]; omega)]
    rw [List.append_assoc,
      sub_exact (beBytes 2 (key.length * 8 % 2 ^ 16)) key _ 2 key.length
        (beBytes_length 2 _) rfl]

theorem xorB_ne_nil16 {a b : List Nat} (ha : a.length = 16) (hb : b.length = 16) :
    xorB a b ≠ [] := by
  have : (xorB a b).length = 16 := by
    rw [xorB_length, ha, hb]
    omega
  intro hnil
  rw [hnil] at this
  cases this

theorem dDeriveLoop_ok (cs : CipherSuite) (good : cs.Good) (kbpk k2 : List Nat)
    (a5 k6 k7 : Nat) (hkbpk : kbpk ≠ []) (hk2 : k2.length = 16) :
    ∀ (ctrs : List Nat) (kbek0 kbak0 : List Nat), Bytes kbek0 →
      ∃ kbek kbak,
        dDeriveLoop cs kbpk k2 a5 k6 k7 ctrs (kbek0, kbak0) = .ok (kbek, kbak) ∧
        kbek.length = kbek0.length + 16 * ctrs.length ∧ Bytes kbek ∧
        (ctrs ≠ [] → kbak.length = kbek0.length + 16 * ctrs.length + 16 ∧ Bytes kbak) ∧
        (ctrs = [] → kbak = kbak0) := by
  intro ctrs
  induction ctrs with
  | nil =>
    intro kbek0 kbak0 hbE
    exact ⟨kbek0, kbak0, rfl, by simp, hbE, fun h => absurd rfl h, fun _ => rfl⟩
  | cons i rest ih =>
    intro kbek0 kbak0 hbE
    obtain ⟨m1, hm1, hm1len, hm1b⟩ :=
      generateCBCMAC_ok cs good kbpk
        (xorB [i, 0, 0, 0, 0, a5, k6, k7, 0x80, 0, 0, 0, 0, 0, 0, 0] k2) 16 .AES
        hkbpk (xorB_ne_nil16 rfl hk2) (by omega) (by simp)
    obtain ⟨m2, hm2, hm2len, hm2b⟩ :=
      generateCBCMAC_ok cs good kbpk
        (xorB [i, 0, 1, 0, 0, a5, k6, k7, 0x80, 0, 0, 0, 0, 0, 0, 0] k2) 16 .AES
        hkbpk (xorB_ne_nil16 rfl hk2) (by omega) (by simp)
    obtain ⟨kbek, kbak, hrec, hl1, hb1, hrest, hnil⟩ :=
      ih (kbek0 ++ m1) ((kbek0 ++ m1) ++ m2) (Bytes_append hbE hm1b)
    refine ⟨kbek, kbak, ?_, ?_, hb1, ?_, ?_⟩
    · simp only [dDeriveLoop, hm1, GRes.orNil_ok, GRes.ok_bind, hm2, hrec]
    · rw [hl1, List.length_append, hm1len, List.length_cons]
      omega
    · intro _
      rcases List.eq_nil_or_concat rest with hr | hr
      · subst hr
        have hkb : kbak = (kbek0 ++ m1) ++ m2 := hnil rfl
        have hke : kbek.length = (kbek0 ++ m1).length := by rw [hl1]; simp
        constructor
        · rw [hkb, List.length_append, List.length_append, hm1len, hm2len, List.length_cons]
          omega
        · exact hkb ▸ Bytes_append (Bytes_append hbE hm1b) hm2b
      · obtain ⟨xs, x, rfl⟩ := hr
        have hne : xs.concat x ≠ ([] : List Nat) := by simp
        obtain ⟨hlen2, hb2⟩ := hrest hne
        constructor
        · rw [hlen2, List.length_append, hm1len, List.length_cons]
          omega
        · exact hb2
    · intro h
      cases h

theorem dDerive_ok (cs : CipherSuite) (good : cs.Good) (kbpk : List Nat)
    (hkl : kbpk.length = 16 ∨ kbpk.length = 24 ∨ kbpk.length = 32) :
    ∃ kbek kbak, dDerive cs kbpk = .ok (kbek, kbak) ∧ kbek.length = kbpk.length ∧
      kbak.length = kbpk.length ∧ Bytes kbek ∧ Bytes kbak := by
  have hknil : kbpk ≠ [] := by
    rcases hkl with h | h | h <;> intro hnil <;> rw [hnil] at h <;> cases h
  obtain ⟨k1, k2, hsub, hk1len, hk1b, hk2len, hk2b⟩ := deriveAESCMACSubkeys_ok cs good kbpk
  rcases hkl with h | h | h
  · obtain ⟨kbek, kbak, hloop, hel, heb, hra, _⟩ :=
      dDeriveLoop_ok cs good kbpk k2 0x02 0x00 0x80 hknil hk2len [1] [] [] Bytes_nil
    obtain ⟨hal, hab⟩ := hra (by simp)
    norm_num at hel hal
    refine ⟨kbek.take kbpk.length, kbak.drop (kbak.length - kbpk.length), ?_, ?_, ?_,
      Bytes_take _ heb, Bytes_drop _ hab⟩
    · norm_num [dDerive, h, hsub, GRes.orNilPair_ok, GRes.ok_bind, hloop]
      intro hlt
      exact absurd hlt (by omega)
    · rw [List.length_take]
      omega
    · rw [List.length_drop]
      omega
  · obtain ⟨kbek, kbak, hloop, hel, heb, hra, _⟩ :=
      dDeriveLoop_ok cs good kbpk k2 0x03 0x00 0xC0 hknil hk2len [1, 2] [] [] Bytes_nil
    obtain ⟨hal, hab⟩ := hra (by simp)
    norm_num at hel hal
    refine ⟨kbek.take kbpk.length, kbak.drop (kbak.length - kbpk.length), ?_, ?_, ?_,
      Bytes_take _ heb, Bytes_drop _ hab⟩
    · norm_num [dDerive, h, hsub, GRes.orNilPair_ok, GRes.ok_bind, hloop]
      intro hlt
      exact absurd hlt (by omega)
    · rw [List.length_take]
      omega
    · rw [List.length_drop]
      omega
  · obtain ⟨kbek, kbak, hloop, hel, heb, hra, _⟩ :=
      dDeriveLoop_ok cs good kbpk k2 0x04 0x01 0x00 hknil hk2len [1, 2] [] [] Bytes_nil
    obtain ⟨hal, hab⟩ := hra (by simp)
    norm_num at hel hal
    refine ⟨kbek.take kbpk.length, kbak.drop (kbak.length - kbpk.length), ?_, ?_, ?_,
      Bytes_take _ heb, Bytes_drop _ hab⟩
    · norm_num [dDerive, h, hsub, GRes.orNilPair_ok, GRes.ok_bind, hloop]
      intro hlt
      exact absurd hlt (by omega)
    · rw [List.length_take]
      omega
    · rw [List.length_drop]
      omega

theorem dGenerateMAC_ok (cs : CipherSuite) (good : cs.Good)
    (kbak header keyData : List Nat) (hkbak : kbak ≠ [])
    (hlen : 16 ≤ header.length + keyData.length) :
    ∃ mac, dGenerateMAC cs kbak header keyData = .ok mac ∧ mac.length = 16 ∧ Bytes mac := by
  obtain ⟨km1, km2, hk, hkm1len, hkm1b, _, _⟩ := deriveAESCMACSubkeys_ok cs good kbak
  have hmdlen : (header ++ keyData).length = header.length + keyData.length :=
    List.length_append _ _
  have hxlen : ((header ++ keyData).take ((header ++ keyData).length - 16) ++
      xorB ((header ++ keyData).drop ((header ++ keyData).length - 16)) km1).length =
      header.length + keyData.length := by
    rw [List.length_append, List.length_take, xorB_length, List.length_drop, hmdlen, hkm1len]
    omega
  obtain ⟨mac, hmac, hmaclen, hmacb⟩ :=
    generateCBCMAC_ok cs good kbak
      ((header ++ keyData).take ((header ++ keyData).length - 16) ++
        xorB ((header ++ keyData).drop ((header ++ keyData).length - 16)) km1)
      16 .AES hkbak
      (by
        intro hnil
        rw [hnil] at hxlen
        simp at hxlen
        omega)
      (by omega) (by simp)
  refine ⟨mac, ?_, hmaclen, hmacb⟩
  simp only [dGenerateMAC, hk, GRes.ok_bind]
  rw [if_neg (by rw [hmdlen]; omega)]
  exact hmac

theorem d_roundtrip (cs : CipherSuite) (good : cs.Good) (kb kb2 : KeyBlock)
    (header key : List Nat) (extraPad : Nat) (rnd : Nat → Nat)
    (hkl : kb.kbpk.length = 16 ∨ kb.kbpk.length = 24 ∨ kb.kbpk.length = 32)
    (hkb2 : kb2.kbpk = kb.kbpk)
    (hkey : Bytes key) (hklen : key.length ≤ 8191) :
    ∃ ct mac,
      dWrap cs kb header key extraPad rnd = .ok (header ++ hexEncode ct ++ hexEncode mac) ∧
      ct.length = 2 + key.length + (16 - (2 + key.length + extraPad) % 16) + extraPad ∧
      Bytes ct ∧ mac.length = 16 ∧ Bytes mac ∧
      dUnwrap cs kb2 header ct mac = .ok key := by
  obtain ⟨kbek, kbak, hder, hle, hla, hbe, hba⟩ := dDerive_ok cs good kb.kbpk hkl
  have hkbaknil : kbak ≠ [] := by
    intro hnil
    rw [hnil] at hla
    rcases hkl with h | h | h <;> rw [h] at hla <;> cases hla
  have hc1 : ¬((kb.kbpk.length ≠ 16 && kb.kbpk.length ≠ 24 && kb.kbpk.length ≠ 32) = true) := by
    rcases hkl with h | h | h <;> simp [h]
  have hclen : (beBytes 2 (key.length * 8 % 2 ^ 16) ++ key ++
      (List.range (16 - (2 + key.length + extraPad) % 16 + extraPad)).map
        (fun n => rnd n % 256)).length =
      2 + key.length + (16 - (2 + key.length + extraPad) % 16) + extraPad := by
    rw [List.length_append, List.length_append, beBytes_length, List.length_map,
      List.length_range]
    omega
  have hcb : Bytes (beBytes 2 (key.length * 8 % 2 ^ 16) ++ key ++
      (List.range (16 - (2 + key.length + extraPad) % 16 + extraPad)).map
        (fun n => rnd n % 256)) :=
    Bytes_append (Bytes_append (Bytes_beBytes _ _) hkey) (pad_bytes rnd _)
  have hcmod : (beBytes 2 (key.length * 8 % 2 ^ 16) ++ key ++
      (List.range (16 - (2 + key.length + extraPad) % 16 + extraPad)).map
        (fun n => rnd n % 256)).length % 16 = 0 := by
    rw [hclen]
    omega
  obtain ⟨mac, hmac, hmaclen, hmacb⟩ :=
    dGenerateMAC_ok cs good kbak header
      (beBytes 2 (key.length * 8 % 2 ^ 16) ++ key ++
        (List.range (16 - (2 + key.length + extraPad) % 16 + extraPad)).map
          (fun n => rnd n % 256))
      hkbaknil (by rw [hclen]; omega)
  have hctlen : (cs.aesCbcEnc kbek mac
      (beBytes 2 (key.length * 8 % 2 ^ 16) ++ key ++
        (List.range (16 - (2 + key.length + extraPad) % 16 + extraPad)).map
          (fun n => rnd n % 256))).length =
      (beBytes 2 (key.length * 8 % 2 ^ 16) ++ key ++
        (List.range (16 - (2 + key.length + extraPad) % 16 + extraPad)).map
          (fun n => rnd n % 256)).length :=
    good.aesEncLen _ _ _
  refine ⟨cs.aesCbcEnc kbek mac
      (beBytes 2 (key.length * 8 % 2 ^ 16) ++ key ++
        (List.range (16 - (2 + key.length + extraPad) % 16 + extraPad)).map
          (fun n => rnd n % 256)), mac, ?_, ?_, good.aesEncBytes _ _ _, hmaclen, hmacb, ?_⟩
  · simp only [dWrap, hder, GRes.ok_bind, hmac]
    rw [if_neg hc1]
  · rw [hctlen, hclen]
  · have hc2 : ¬((cs.aesCbcEnc kbek mac
        (beBytes 2 (key.length * 8 % 2 ^ 16) ++ key ++
          (List.range (16 - (2 + key.length + extraPad) % 16 + extraPad)).map
            (fun n => rnd n % 256))).length < 16 ∨
        (cs.aesCbcEnc kbek mac
          (beBytes 2 (key.length * 8 % 2 ^ 16) ++ key ++
            (List.range (16 - (2 + key.length + extraPad) % 16 + extraPad)).map
              (fun n => rnd n % 256))).length % 16 ≠ 0) := by
      rw [hctlen, hclen]
      omega
    simp only [dUnwrap, hkb2, hder, GRes.orNilPair_ok, GRes.ok_bind]
    rw [if_neg hc1]
    rw [if_neg (by simp only [Bool.or_eq_true, decide_eq_true_eq]; exact hc2)]
    rw [good.aesInv kbek mac
      (beBytes 2 (key.length * 8 % 2 ^ 16) ++ key ++
        (List.range (16 - (2 + key.length + extraPad) % 16 + extraPad)).map
          (fun n => rnd n % 256)) hmacb hcb hcmod]
    simp only [hmac, GRes.orNil_ok, GRes.ok_bind]
    rw [if_neg (fun h => h rfl)]
    rw [if_neg (by rw [hclen]; omega)]
    rw [len_prefix_getD key _ hklen]
    rw [if_neg (not_not_intro (by omega))]
    rw [Nat.mul_div_cancel key.length (by omega)]
    rw [if_neg (by rw [hclen]; omega)]
    rw [List.append_assoc,
      sub_exact (beBytes 2 (key.length * 8 % 2 ^ 16)) key _ 2 key.length
        (beBytes_length 2 _) rfl]
theorem Bytes_of_numeric {s : List Nat} (h : asciiNumeric s = true) : Bytes s := by
  intro b hb
  have := List.all_eq_true.mp h b hb
  simp at this
  omega

theorem Bytes_of_alnum {s : List Nat} (h : asciiAlphanumeric s = true) : Bytes s := by
  intro b hb
  have := List.all_eq_true.mp h b hb
  simp [isAlnumByte] at this
  omega

theorem Bytes_of_printable {s : List Nat} (h : asciiPrintable s = true) : Bytes s := by
  intro b hb
  have := List.all_eq_true.mp h b hb
  simp at this
  omega

theorem Bytes_decPad (w n : Nat) : Bytes (decPad w n) :=
  Bytes_of_numeric (asciiNumeric_decPad w n)

theorem Bytes_reverse {l : List Nat} (h : Bytes l) : Bytes l.reverse := by
  intro b hb
  exact h b (List.mem_reverse.mp hb)

theorem Bytes_hexDigitsAux (fuel n : Nat) : Bytes (hexDigitsAux fuel n) := by
  induction fuel generalizing n with
  | zero => exact Bytes_nil
  | succ fuel ih =>
    cases n with
    | zero => exact Bytes_nil
    | succ m =>
      intro b hb
      rw [hexDigitsAux] at hb
      rcases List.mem_cons.mp hb with h | h
      · subst h
        have : (m + 1) % 16 < 16 := Nat.mod_lt _ (by omega)
        rw [hexCharUpper]
        split <;> omega
      · exact ih _ b h

theorem Bytes_hexPadUpper (w n : Nat) : Bytes (hexPadUpper w n) :=
  Bytes_append (Bytes_replicate _ 48 (by omega))
    (Bytes_reverse (Bytes_hexDigitsAux n n))

theorem Bytes_hexEncode {l : List Nat} (h : Bytes l) : Bytes (hexEncode l) := by
  intro b hb
  rw [hexEncode] at hb
  obtain ⟨x, hx, hmem⟩ := List.mem_flatMap.mp hb
  have hx256 := h x hx
  have h16 : x % 16 < 16 := Nat.mod_lt _ (by omega)
  have hd16 : x / 16 < 16 := by omega
  rcases List.mem_cons.mp hmem with h1 | h1
  · subst h1
    rw [hexCharLower]
    split <;> omega
  · rcases List.mem_cons.mp h1 with h2 | h2
    · subst h2
      rw [hexCharLower]
      split <;> omega
    · cases h2

theorem Bytes_hexEncodeUpper {l : List Nat} (h : Bytes l) : Bytes (hexEncodeUpper l) := by
  intro b hb
  rw [hexEncodeUpper] at hb
  obtain ⟨x, hx, hmem⟩ := List.mem_flatMap.mp hb
  have hx256 := h x hx
  have h16 : x % 16 < 16 := Nat.mod_lt _ (by omega)
  have hd16 : x / 16 < 16 := by omega
  rcases List.mem_cons.mp hmem with h1 | h1
  · subst h1
    rw [hexCharUpper]
    split <;> omega
  · rcases List.mem_cons.mp h1 with h2 | h2
    · subst h2
      rw [hexCharUpper]
      split <;> omega
    · cases h2

theorem Bytes_encEntry {id data : List Nat} (hid : asciiAlphanumeric id = true)
    (hdata : asciiPrintable data = true) : Bytes (encEntry id data) := by
  rw [encEntry]
  split
  · exact Bytes_append (Bytes_append (Bytes_of_alnum hid)
      (Bytes_hexEncode (by intro b hb; rcases List.mem_singleton.mp hb with rfl; omega)))
      (Bytes_of_printable hdata)
  · exact Bytes_append (Bytes_append (Bytes_append (Bytes_of_alnum hid) (by decide))
      (Bytes_hexPadUpper 4 _)) (Bytes_of_printable hdata)

theorem Bytes_rawOf {l : List (List Nat × List Nat)}
    (h : ∀ p ∈ l, asciiAlphanumeric p.1 = true ∧ asciiPrintable p.2 = true) :
    Bytes (rawOf l) := by
  induction l with
  | nil => exact Bytes_nil
  | cons p tail ih =>
    rw [rawOf, List.flatMap_cons]
    refine Bytes_append (Bytes_encEntry (h p (List.mem_cons_self _ _)).1
      (h p (List.mem_cons_self _ _)).2) ?_
    exact ih fun q hq => h q (List.mem_cons_of_mem _ hq)

theorem flatMap_map_enc (l : List (List Nat × List Nat)) :
    (l.map (fun p => (p, encEntry p.1 p.2))).flatMap Prod.snd = rawOf l := by
  simp [rawOf, List.flatMap_map]

theorem dump_trips (b : Blocks) (bs : Nat)
    (hwf : WfBlocks b) (hbs1 : 1 ≤ bs) (hbs2 : bs ≤ 251) :
    ∃ (cnt : Nat) (area : List Nat) (trips : List ((List Nat × List Nat) × List Nat)),
      Blocks.dump b bs = .ok (cnt, area) ∧ area.length % bs = 0 ∧ Bytes area ∧
      trips.flatMap Prod.snd = area ∧ (∀ t ∈ trips, EncBlock t.1.1 t.1.2 t.2) ∧
      trips.length = cnt := by
  have hwf2 : ∀ p ∈ b.blocks, p.2.length + 10 ≤ 65535 := fun p hp => (hwf p hp).2.2.2
  have hdmp := dump_eq b bs hwf2 hbs1
  by_cases hcond : (rawOf b.blocks).length > 0 ∧ (rawOf b.blocks).length % bs ≠ 0
  · rw [if_pos hcond] at hdmp
    refine ⟨b.blocks.length + 1,
      rawOf b.blocks ++ (bts "PB" ++
        (hexPadUpper 2 (4 + (bs - ((rawOf b.blocks).length + 4) % bs)) ++
         List.replicate (bs - ((rawOf b.blocks).length + 4) % bs) 48)),
      b.blocks.map (fun p => (p, encEntry p.1 p.2)) ++
        [((bts "PB", List.replicate (bs - ((rawOf b.blocks).length + 4) % bs) 48),
          bts "PB" ++ (hexPadUpper 2 (4 + (bs - ((rawOf b.blocks).length + 4) % bs)) ++
            List.replicate (bs - ((rawOf b.blocks).length + 4) % bs) 48))],
      hdmp, ?_, ?_, ?_, ?_, by simp⟩
    · have hpadle : bs - ((rawOf b.blocks).length + 4) % bs ≤ 251 := by omega
      have hlen2 : (hexPadUpper 2
          (4 + (bs - ((rawOf b.blocks).length + 4) % bs))).length = 2 := by
        refine length_hexPadUpper 2 _ ?_
        norm_num
        omega
      rw [List.length_append, List.length_append, List.length_append, hlen2,
        List.length_replicate]
      have hd := Nat.div_add_mod ((rawOf b.blocks).length + 4) bs
      have hmlt : ((rawOf b.blocks).length + 4) % bs < bs := Nat.mod_lt _ (by omega)
      have heq1 : (rawOf b.blocks).length + ((bts "PB").length + (2 +
          (bs - ((rawOf b.blocks).length + 4) % bs))) =
          bs * (((rawOf b.blocks).length + 4) / bs) + bs := by
        show (rawOf b.blocks).length + (2 + (2 +
          (bs - ((rawOf b.blocks).length + 4) % bs))) = _
        omega
      rw [heq1]
      have h2 : bs * (((rawOf b.blocks).length + 4) / bs) + bs =
          bs * ((((rawOf b.blocks).length + 4) / bs) + 1) := by ring
      rw [h2, Nat.mul_mod_right]
    · refine Bytes_append
        (Bytes_rawOf fun p hp => ⟨(hwf p hp).2.1, (hwf p hp).2.2.1⟩) ?_
      exact Bytes_append (by decide)
        (Bytes_append (Bytes_hexPadUpper 2 _) (Bytes_replicate _ 48 (by omega)))
    · simp [List.flatMap_append, flatMap_map_enc]
    · intro t ht
      rcases List.mem_append.mp ht with h | h
      · obtain ⟨p, hp, rfl⟩ := List.mem_map.mp h
        obtain ⟨h2, hal, hprint, hlen⟩ := hwf p hp
        exact encBlock_encEntry p.1 p.2 h2 hal hlen
      · obtain rfl := List.mem_singleton.mp h
        exact encBlock_pb _ (by omega)
  · rw [if_neg hcond] at hdmp
    refine ⟨b.blocks.length, rawOf b.blocks,
      b.blocks.map (fun p => (p, encEntry p.1 p.2)),
      hdmp, ?_, Bytes_rawOf (fun p hp => ⟨(hwf p hp).2.1, (hwf p hp).2.2.1⟩),
      flatMap_map_enc _, ?_, by simp⟩
    · rcases Nat.eq_zero_or_pos (rawOf b.blocks).length with h0 | hpos
      · rw [h0]
        simp
      · by_contra hne
        exact hcond ⟨hpos, hne⟩
    · intro t ht
      obtain ⟨p, hp, rfl⟩ := List.mem_map.mp ht
      obtain ⟨h2, hal, hprint, hlen⟩ := hwf p hp
      exact encBlock_encEntry p.1 p.2 h2 hal hlen

theorem facadeB_aux (cs : CipherSuite) (good : cs.Good) (kbpk : List Nat) (h h0 : Header)
    (key : List Nat) (rnd : Nat → Nat) (M : Nat)
    (hv : ValidHeader h) (hV : h.versionID = bts "B")
    (hkbl : kbpk.length = 16 ∨ kbpk.length = 24)
    (hkey : Bytes key) (hklen : key.length ≤ 8191) (hMk : key.length ≤ M)
    (hfit : dumpKbLen h M ≤ 9999) (hcnt : dumpCount h ≤ 99) :
    ∃ out h2,
      (h.dump M).orNil.bind (fun headerDump =>
        bWrap cs ⟨kbpk, h⟩ headerDump key (M - key.length) rnd) = .ok out ∧
      KeyBlock.unwrap cs ⟨kbpk, h0⟩ out = .ok (key, h2) ∧
      h2.versionID = h.versionID ∧ h2.keyUsage = h.keyUsage ∧
      h2.algorithm = h.algorithm ∧ h2.modeOfUse = h.modeOfUse ∧
      h2.versionNum = h.versionNum ∧ h2.exportability = h.exportability ∧
      h2.reserved = h.reserved ∧
      out.length = dumpKbLen h M ∧
      List.take 5 out = h.versionID ++ decPad 4 (dumpKbLen h M) := by
  have hv' := hv
  obtain ⟨hvid, hku2, hkual, hal1, halal, hmu1, hmual, hvn2, hvnal, hex1, hexal,
    hres2, hresal, hwfb⟩ := hv'
  have hv1 : h.versionID.length = 1 := versionID_length hv
  have hbs : versionAlgoBlockSize h.versionID = 8 := by rw [hV]; decide
  have hmacl : versionKeyBlockMacLen h.versionID = 8 := by rw [hV]; decide
  obtain ⟨cnt, area, trips, hdump, harea, hab, hflat, henc, htlen⟩ :=
    dump_trips h.blocks 8 hwfb (by omega) (by omega)
  have hcnt99 : cnt ≤ 99 := by
    simp only [dumpCount, hbs, hdump] at hcnt
    exact hcnt
  have hKBL : dumpKbLen h M = 16 + 4 + M * 2 + (8 - (2 + M) % 8) * 2 + 8 * 2 + area.length := by
    simp only [dumpKbLen, hbs, hmacl, hdump]
  have hfit9 : 16 + 4 + M * 2 + (8 - (2 + M) % 8) * 2 + 8 * 2 + area.length ≤ 9999 := by omega
  have hD : h.dump M = .ok (h.versionID ++ decPad 4 (16 + 4 + M * 2 + (8 - (2 + M) % 8) * 2 + 8 * 2 + area.length) ++ h.keyUsage ++ h.algorithm ++ h.modeOfUse ++ h.versionNum ++ h.exportability ++ decPad 2 cnt ++ h.reserved ++ area) := by
    have hD0 := headerDump_eq h M cnt area (by rw [hbs]; omega) (by rw [hbs]; exact hdump)
      (by rw [hbs, hmacl]; exact hfit9)
    rw [hbs, hmacl] at hD0
    exact hD0
  obtain ⟨ct, mac, hw, hctl, hctb, hmacl8, hmacb, hu⟩ :=
    b_roundtrip cs good ⟨kbpk, h⟩ ⟨kbpk, { versionID := h.versionID, keyUsage := h.keyUsage, algorithm := h.algorithm, modeOfUse := h.modeOfUse, versionNum := h.versionNum, exportability := h.exportability, reserved := h.reserved, blocks := ⟨loadFold [] (trips.map Prod.fst)⟩ }⟩
      (h.versionID ++ decPad 4 (16 + 4 + M * 2 + (8 - (2 + M) % 8) * 2 + 8 * 2 + area.length) ++ h.keyUsage ++ h.algorithm ++ h.modeOfUse ++ h.versionNum ++ h.exportability ++ decPad 2 cnt ++ h.reserved ++ area) key (M - key.length) rnd hkbl rfl hkey hklen
  have hd4 : (decPad 4 (16 + 4 + M * 2 + (8 - (2 + M) % 8) * 2 + 8 * 2 + area.length)).length = 4 := by
    refine length_decPad 4 _ ?_
    norm_num
    omega
  have hd2 : (decPad 2 cnt).length = 2 := by
    refine length_decPad 2 _ ?_
    omega
  have hhl : (h.versionID ++ decPad 4 (16 + 4 + M * 2 + (8 - (2 + M) % 8) * 2 + 8 * 2 + area.length) ++ h.keyUsage ++ h.algorithm ++ h.modeOfUse ++ h.versionNum ++ h.exportability ++ decPad 2 cnt ++ h.reserved ++ area).length = 16 + area.length := by
    simp [List.length_append, hv1, hku2, hal1, hmu1, hvn2, hex1, hres2, hd4, hd2]
    omega
  have hLSlen : (h.versionID ++ decPad 4 (16 + 4 + M * 2 + (8 - (2 + M) % 8) * 2 + 8 * 2 + area.length) ++ h.keyUsage ++ h.algorithm ++ h.modeOfUse ++ h.versionNum ++ h.exportability ++ decPad 2 cnt ++ h.reserved ++ (area ++ (hexEncode ct ++ hexEncode mac))).length = 16 + area.length + (2 * ct.length + 2 * 8) := by
    simp [List.length_append, hv1, hku2, hal1, hmu1, hvn2, hex1, hres2, hd4, hd2,
      length_hexEncode, hmacl8]
    omega
  have hld := headerLoad_dump h0 h hv (16 + 4 + M * 2 + (8 - (2 + M) % 8) * 2 + 8 * 2 + area.length) trips (hexEncode ct ++ hexEncode mac)
    henc (by rw [List.length_append, length_hexEncode, length_hexEncode, hmacl8]; omega)
    (by omega) hfit9
  rw [htlen, hflat] at hld
  have hre : (h.versionID ++ decPad 4 (16 + 4 + M * 2 + (8 - (2 + M) % 8) * 2 + 8 * 2 + area.length) ++ h.keyUsage ++ h.algorithm ++ h.modeOfUse ++ h.versionNum ++ h.exportability ++ decPad 2 cnt ++ h.reserved ++ (area ++ (hexEncode ct ++ hexEncode mac))) = (h.versionID ++ decPad 4 (16 + 4 + M * 2 + (8 - (2 + M) % 8) * 2 + 8 * 2 + area.length) ++ h.keyUsage ++ h.algorithm ++ h.modeOfUse ++ h.versionNum ++ h.exportability ++ decPad 2 cnt ++ h.reserved ++ area) ++ (hexEncode ct ++ hexEncode mac) := by
    simp [List.append_assoc]
  have hsub14 : sub (h.versionID ++ decPad 4 (16 + 4 + M * 2 + (8 - (2 + M) % 8) * 2 + 8 * 2 + area.length) ++ h.keyUsage ++ h.algorithm ++ h.modeOfUse ++ h.versionNum ++ h.exportability ++ decPad 2 cnt ++ h.reserved ++ (area ++ (hexEncode ct ++ hexEncode mac))) 1 4 = decPad 4 (16 + 4 + M * 2 + (8 - (2 + M) % 8) * 2 + 8 * 2 + area.length) := by
    rw [show (h.versionID ++ decPad 4 (16 + 4 + M * 2 + (8 - (2 + M) % 8) * 2 + 8 * 2 + area.length) ++ h.keyUsage ++ h.algorithm ++ h.modeOfUse ++ h.versionNum ++ h.exportability ++ decPad 2 cnt ++ h.reserved ++ (area ++ (hexEncode ct ++ hexEncode mac))) = h.versionID ++ (decPad 4 (16 + 4 + M * 2 + (8 - (2 + M) % 8) * 2 + 8 * 2 + area.length) ++ (h.keyUsage ++ (h.algorithm ++ (h.modeOfUse ++ (h.versionNum ++ (h.exportability ++ (decPad 2 cnt ++ (h.reserved ++ (area ++ (hexEncode ct ++ hexEncode mac)))))))))) from by
      simp [List.append_assoc]]
    exact sub_exact _ _ _ _ _ hv1 hd4
  have hdropHL : (h.versionID ++ decPad 4 (16 + 4 + M * 2 + (8 - (2 + M) % 8) * 2 + 8 * 2 + area.length) ++ h.keyUsage ++ h.algorithm ++ h.modeOfUse ++ h.versionNum ++ h.exportability ++ decPad 2 cnt ++ h.reserved ++ (area ++ (hexEncode ct ++ hexEncode mac))).drop (16 + area.length) = hexEncode ct ++ hexEncode mac := by
    rw [hre, show 16 + area.length = (h.versionID ++ decPad 4 (16 + 4 + M * 2 + (8 - (2 + M) % 8) * 2 + 8 * 2 + area.length) ++ h.keyUsage ++ h.algorithm ++ h.modeOfUse ++ h.versionNum ++ h.exportability ++ decPad 2 cnt ++ h.reserved ++ area).length from hhl.symm]
    exact List.drop_left _ _
  have htakeHL : (h.versionID ++ decPad 4 (16 + 4 + M * 2 + (8 - (2 + M) % 8) * 2 + 8 * 2 + area.length) ++ h.keyUsage ++ h.algorithm ++ h.modeOfUse ++ h.versionNum ++ h.exportability ++ decPad 2 cnt ++ h.reserved ++ (area ++ (hexEncode ct ++ hexEncode mac))).take (16 + area.length) = (h.versionID ++ decPad 4 (16 + 4 + M * 2 + (8 - (2 + M) % 8) * 2 + 8 * 2 + area.length) ++ h.keyUsage ++ h.algorithm ++ h.modeOfUse ++ h.versionNum ++ h.exportability ++ decPad 2 cnt ++ h.reserved ++ area) := by
    rw [hre, show 16 + area.length = (h.versionID ++ decPad 4 (16 + 4 + M * 2 + (8 - (2 + M) % 8) * 2 + 8 * 2 + area.length) ++ h.keyUsage ++ h.algorithm ++ h.modeOfUse ++ h.versionNum ++ h.exportability ++ decPad 2 cnt ++ h.reserved ++ area).length from hhl.symm]
    exact List.take_left _ _
  have hdropM : (hexEncode ct ++ hexEncode mac).drop
      ((hexEncode ct ++ hexEncode mac).length - 8 * 2) = hexEncode mac := by
    rw [show (hexEncode ct ++ hexEncode mac).length - 8 * 2 = (hexEncode ct).length from by
      rw [List.length_append, length_hexEncode, length_hexEncode, hmacl8]
      omega]
    exact List.drop_left _ _
  have htakeM : (hexEncode ct ++ hexEncode mac).take
      ((hexEncode ct ++ hexEncode mac).length - 8 * 2) = hexEncode ct := by
    rw [show (hexEncode ct ++ hexEncode mac).length - 8 * 2 = (hexEncode ct).length from by
      rw [List.length_append, length_hexEncode, length_hexEncode, hmacl8]
      omega]
    exact List.take_left _ _
  refine ⟨h.versionID ++ decPad 4 (16 + 4 + M * 2 + (8 - (2 + M) % 8) * 2 + 8 * 2 + area.length) ++ h.keyUsage ++ h.algorithm ++ h.modeOfUse ++ h.versionNum ++ h.exportability ++ decPad 2 cnt ++ h.reserved ++ area ++ hexEncode ct ++ hexEncode mac, { versionID := h.versionID, keyUsage := h.keyUsage, algorithm := h.algorithm, modeOfUse := h.modeOfUse, versionNum := h.versionNum, exportability := h.exportability, reserved := h.reserved, blocks := ⟨loadFold [] (trips.map Prod.fst)⟩ }, ?_, ?_, rfl, rfl, rfl, rfl, rfl, rfl, rfl, ?_, ?_⟩
  · rw [hD]
    simp only [GRes.orNil_ok, GRes.ok_bind]
    exact hw
  · rw [show (h.versionID ++ decPad 4 (16 + 4 + M * 2 + (8 - (2 + M) % 8) * 2 + 8 * 2 + area.length) ++ h.keyUsage ++ h.algorithm ++ h.modeOfUse ++ h.versionNum ++ h.exportability ++ decPad 2 cnt ++ h.reserved ++ area ++ hexEncode ct ++ hexEncode mac) = (h.versionID ++ decPad 4 (16 + 4 + M * 2 + (8 - (2 + M) % 8) * 2 + 8 * 2 + area.length) ++ h.keyUsage ++ h.algorithm ++ h.modeOfUse ++ h.versionNum ++ h.exportability ++ decPad 2 cnt ++ h.reserved ++ (area ++ (hexEncode ct ++ hexEncode mac))) from by simp [List.append_assoc]]
    simp only [KeyBlock.unwrap]
    rw [if_neg (by omega)]
    rw [hld]
    simp only [GRes.ok_bind]
    rw [hsub14]
    rw [if_neg (by simp [asciiNumeric_decPad])]
    rw [stringToInt_decPad]
    rw [if_neg (not_not_intro (by omega))]
    rw [hbs]
    rw [if_neg (by omega)]
    rw [if_neg (not_not_intro (by omega))]
    rw [hmacl]
    rw [if_pos (by omega)]
    rw [hdropHL]
    rw [if_pos (by
      rw [List.length_append, length_hexEncode, length_hexEncode, hmacl8]
      omega)]
    rw [hdropM]
    simp only [hexDecode_hexEncode hmacb]
    rw [if_neg (not_not_intro hmacl8)]
    rw [htakeM]
    simp only [hexDecode_hexEncode hctb]
    rw [if_pos hV]
    rw [htakeHL]
    simp only [hu, GRes.ok_bind]
  · rw [hKBL]
    have hol : (h.versionID ++ decPad 4 (16 + 4 + M * 2 + (8 - (2 + M) % 8) * 2 + 8 * 2 + area.length) ++ h.keyUsage ++ h.algorithm ++ h.modeOfUse ++ h.versionNum ++ h.exportability ++ decPad 2 cnt ++ h.reserved ++ area ++ hexEncode ct ++ hexEncode mac).length = (h.versionID ++ decPad 4 (16 + 4 + M * 2 + (8 - (2 + M) % 8) * 2 + 8 * 2 + area.length) ++ h.keyUsage ++ h.algorithm ++ h.modeOfUse ++ h.versionNum ++ h.exportability ++ decPad 2 cnt ++ h.reserved ++ area).length + (2 * ct.length + 2 * 8) := by
      rw [List.length_append, List.length_append, length_hexEncode, length_hexEncode, hmacl8]
      omega
    rw [hol, hhl]
    omega
  · rw [hKBL]
    rw [show (h.versionID ++ decPad 4 (16 + 4 + M * 2 + (8 - (2 + M) % 8) * 2 + 8 * 2 + area.length) ++ h.keyUsage ++ h.algorithm ++ h.modeOfUse ++ h.versionNum ++ h.exportability ++ decPad 2 cnt ++ h.reserved ++ area ++ hexEncode ct ++ hexEncode mac) = (h.versionID ++ decPad 4 (16 + 4 + M * 2 + (8 - (2 + M) % 8) * 2 + 8 * 2 + area.length)) ++ (h.keyUsage ++ (h.algorithm ++ (h.modeOfUse ++ (h.versionNum ++ (h.exportability ++ (decPad 2 cnt ++ (h.reserved ++ (area ++ (hexEncode ct ++ hexEncode mac))))))))) from by
      simp [List.append_assoc]]
    rw [show (5 : Nat) = (h.versionID ++ decPad 4 (16 + 4 + M * 2 + (8 - (2 + M) % 8) * 2 + 8 * 2 + area.length)).length from by
      rw [List.length_append, hv1, hd4]]
    exact List.take_left _ _

theorem facadeD_aux (cs : CipherSuite) (good : cs.Good) (kbpk : List Nat) (h h0 : Header)
    (key : List Nat) (rnd : Nat → Nat) (M : Nat)
    (hv : ValidHeader h) (hV : h.versionID = bts "D")
    (hkbl : kbpk.length = 16 ∨ kbpk.length = 24 ∨ kbpk.length = 32)
    (hkey : Bytes key) (hklen : key.length ≤ 8191) (hMk : key.length ≤ M)
    (hfit : dumpKbLen h M ≤ 9999) (hcnt : dumpCount h ≤ 99) :
    ∃ out h2,
      (h.dump M).orNil.bind (fun headerDump =>
        dWrap cs ⟨kbpk, h⟩ headerDump key (M - key.length) rnd) = .ok out ∧
      KeyBlock.unwrap cs ⟨kbpk, h0⟩ out = .ok (key, h2) ∧
      h2.versionID = h.versionID ∧ h2.keyUsage = h.keyUsage ∧
      h2.algorithm = h.algorithm ∧ h2.modeOfUse = h.modeOfUse ∧
      h2.versionNum = h.versionNum ∧ h2.exportability = h.exportability ∧
      h2.reserved = h.reserved ∧
      out.length = dumpKbLen h M ∧
      List.take 5 out = h.versionID ++ decPad 4 (dumpKbLen h M) := by
  have hv' := hv
  obtain ⟨hvid, hku2, hkual, hal1, halal, hmu1, hmual, hvn2, hvnal, hex1, hexal,
    hres2, hresal, hwfb⟩ := hv'
  have hv1 : h.versionID.length = 1 := versionID_length hv
  have hbs : versionAlgoBlockSize h.versionID = 16 := by rw [hV]; decide
  have hmacl : versionKeyBlockMacLen h.versionID = 16 := by rw [hV]; decide
  obtain ⟨cnt, area, trips, hdump, harea, hab, hflat, henc, htlen⟩ :=
    dump_trips h.blocks 16 hwfb (by omega) (by omega)
  have hcnt99 : cnt ≤ 99 := by
    simp only [dumpCount, hbs, hdump] at hcnt
    exact hcnt
  have hKBL : dumpKbLen h M = 16 + 4 + M * 2 + (16 - (2 + M) % 16) * 2 + 16 * 2 + area.length := by
    simp only [dumpKbLen, hbs, hmacl, hdump]
  have hfit9 : 16 + 4 + M * 2 + (16 - (2 + M) % 16) * 2 + 16 * 2 + area.length ≤ 9999 := by omega
  have hD : h.dump M = .ok (h.versionID ++ decPad 4 (16 + 4 + M * 2 + (16 - (2 + M) % 16) * 2 + 16 * 2 + area.length) ++ h.keyUsage ++ h.algorithm ++ h.modeOfUse ++ h.versionNum ++ h.exportability ++ decPad 2 cnt ++ h.reserved ++ area) := by
    have hD0 := headerDump_eq h M cnt area (by rw [hbs]; omega) (by rw [hbs]; exact hdump)
      (by rw [hbs, hmacl]; exact hfit9)
    rw [hbs, hmacl] at hD0
    exact hD0
  obtain ⟨ct, mac, hw, hctl, hctb, hmacl16, hmacb, hu⟩ :=
    d_roundtrip cs good ⟨kbpk, h⟩ ⟨kbpk, { versionID := h.versionID, keyUsage := h.keyUsage, algorithm := h.algorithm, modeOfUse := h.modeOfUse, versionNum := h.versionNum, exportability := h.exportability, reserved := h.reserved, blocks := ⟨loadFold [] (trips.map Prod.fst)⟩ }⟩
      (h.versionID ++ decPad 4 (16 + 4 + M * 2 + (16 - (2 + M) % 16) * 2 + 16 * 2 + area.length) ++ h.keyUsage ++ h.algorithm ++ h.modeOfUse ++ h.versionNum ++ h.exportability ++ decPad 2 cnt ++ h.reserved ++ area) key (M - key.length) rnd hkbl rfl hkey hklen
  have hd4 : (decPad 4 (16 + 4 + M * 2 + (16 - (2 + M) % 16) * 2 + 16 * 2 + area.length)).length = 4 := by
    refine length_decPad 4 _ ?_
    norm_num
    omega
  have hd2 : (decPad 2 cnt).length = 2 := by
    refine length_decPad 2 _ ?_
    omega
  have hhl : (h.versionID ++ decPad 4 (16 + 4 + M * 2 + (16 - (2 + M) % 16) * 2 + 16 * 2 + area.length) ++ h.keyUsage ++ h.algorithm ++ h.modeOfUse ++ h.versionNum ++ h.exportability ++ decPad 2 cnt ++ h.reserved ++ area).length = 16 + area.length := by
    simp [List.length_append, hv1, hku2, hal1, hmu1, hvn2, hex1, hres2, hd4, hd2]
    omega
  have hLSlen : (h.versionID ++ decPad 4 (16 + 4 + M * 2 + (16 - (2 + M) % 16) * 2 + 16 * 2 + area.length) ++ h.keyUsage ++ h.algorithm ++ h.modeOfUse ++ h.versionNum ++ h.exportability ++ decPad 2 cnt ++ h.reserved ++ (area ++ (hexEncode ct ++ hexEncode mac))).length = 16 + area.length + (2 * ct.length + 2 * 16) := by
    simp [List.length_append, hv1, hku2, hal1, hmu1, hvn2, hex1, hres2, hd4, hd2,
      length_hexEncode, hmacl16]
    omega
  have hld := headerLoad_dump h0 h hv (16 + 4 + M * 2 + (16 - (2 + M) % 16) * 2 + 16 * 2 + area.length) trips (hexEncode ct ++ hexEncode mac)
    henc (by rw [List.length_append, length_hexEncode, length_hexEncode, hmacl16]; omega)
    (by omega) hfit9
  rw [htlen, hflat] at hld
  have hre : (h.versionID ++ decPad 4 (16 + 4 + M * 2 + (16 - (2 + M) % 16) * 2 + 16 * 2 + area.length) ++ h.keyUsage ++ h.algorithm ++ h.modeOfUse ++ h.versionNum ++ h.exportability ++ decPad 2 cnt ++ h.reserved ++ (area ++ (hexEncode ct ++ hexEncode mac))) = (h.versionID ++ decPad 4 (16 + 4 + M * 2 + (16 - (2 + M) % 16) * 2 + 16 * 2 + area.length) ++ h.keyUsage ++ h.algorithm ++ h.modeOfUse ++ h.versionNum ++ h.exportability ++ decPad 2 cnt ++ h.reserved ++ area) ++ (hexEncode ct ++ hexEncode mac) := by
    simp [List.append_assoc]
  have hsub14 : sub (h.versionID ++ decPad 4 (16 + 4 + M * 2 + (16 - (2 + M) % 16) * 2 + 16 * 2 + area.length) ++ h.keyUsage ++ h.algorithm ++ h.modeOfUse ++ h.versionNum ++ h.exportability ++ decPad 2 cnt ++ h.reserved ++ (area ++ (hexEncode ct ++ hexEncode mac))) 1 4 = decPad 4 (16 + 4 + M * 2 + (16 - (2 + M) % 16) * 2 + 16 * 2 + area.length) := by
    rw [show (h.versionID ++ decPad 4 (16 + 4 + M * 2 + (16 - (2 + M) % 16) * 2 + 16 * 2 + area.length) ++ h.keyUsage ++ h.algorithm ++ h.modeOfUse ++ h.versionNum ++ h.exportability ++ decPad 2 cnt ++ h.reserved ++ (area ++ (hexEncode ct ++ hexEncode mac))) = h.versionID ++ (decPad 4 (16 + 4 + M * 2 + (16 - (2 + M) % 16) * 2 + 16 * 2 + area.length) ++ (h.keyUsage ++ (h.algorithm ++ (h.modeOfUse ++ (h.versionNum ++ (h.exportability ++ (decPad 2 cnt ++ (h.reserved ++ (area ++ (hexEncode ct ++ hexEncode mac)))))))))) from by
      simp [List.append_assoc]]
    exact sub_exact _ _ _ _ _ hv1 hd4
  have hdropHL : (h.versionID ++ decPad 4 (16 + 4 + M * 2 + (16 - (2 + M) % 16) * 2 + 16 * 2 + area.length) ++ h.keyUsage ++ h.algorithm ++ h.modeOfUse ++ h.versionNum ++ h.exportability ++ decPad 2 cnt ++ h.reserved ++ (area ++ (hexEncode ct ++ hexEncode mac))).drop (16 + area.length) = hexEncode ct ++ hexEncode mac := by
    rw [hre, show 16 + area.length = (h.versionID ++ decPad 4 (16 + 4 + M * 2 + (16 - (2 + M) % 16) * 2 + 16 * 2 + area.length) ++ h.keyUsage ++ h.algorithm ++ h.modeOfUse ++ h.versionNum ++ h.exportability ++ decPad 2 cnt ++ h.reserved ++ area).length from hhl.symm]
    exact List.drop_left _ _
  have htakeHL : (h.versionID ++ decPad 4 (16 + 4 + M * 2 + (16 - (2 + M) % 16) * 2 + 16 * 2 + area.length) ++ h.keyUsage ++ h.algorithm ++ h.modeOfUse ++ h.versionNum ++ h.exportability ++ decPad 2 cnt ++ h.reserved ++ (area ++ (hexEncode ct ++ hexEncode mac))).take (16 + area.length) = (h.versionID ++ decPad 4 (16 + 4 + M * 2 + (16 - (2 + M) % 16) * 2 + 16 * 2 + area.length) ++ h.keyUsage ++ h.algorithm ++ h.modeOfUse ++ h.versionNum ++ h.exportability ++ decPad 2 cnt ++ h.reserved ++ area) := by
    rw [hre, show 16 + area.length = (h.versionID ++ decPad 4 (16 + 4 + M * 2 + (16 - (2 + M) % 16) * 2 + 16 * 2 + area.length) ++ h.keyUsage ++ h.algorithm ++ h.modeOfUse ++ h.versionNum ++ h.exportability ++ decPad 2 cnt ++ h.reserved ++ area).length from hhl.symm]
    exact List.take_left _ _
  have hdropM : (hexEncode ct ++ hexEncode mac).drop
      ((hexEncode ct ++ hexEncode mac).length - 16 * 2) = hexEncode mac := by
    rw [show (hexEncode ct ++ hexEncode mac).length - 16 * 2 = (hexEncode ct).length from by
      rw [List.length_append, length_hexEncode, length_hexEncode, hmacl16]
      omega]
    exact List.drop_left _ _
  have htakeM : (hexEncode ct ++ hexEncode mac).take
      ((hexEncode ct ++ hexEncode mac).length - 16 * 2) = hexEncode ct := by
    rw [show (hexEncode ct ++ hexEncode mac).length - 16 * 2 = (hexEncode ct).length from by
      rw [List.length_append, length_hexEncode, length_hexEncode, hmacl16]
      omega]
    exact List.take_left _ _
  refine ⟨h.versionID ++ decPad 4 (16 + 4 + M * 2 + (16 - (2 + M) % 16) * 2 + 16 * 2 + area.length) ++ h.keyUsage ++ h.algorithm ++ h.modeOfUse ++ h.versionNum ++ h.exportability ++ decPad 2 cnt ++ h.reserved ++ area ++ hexEncode ct ++ hexEncode mac, { versionID := h.versionID, keyUsage := h.keyUsage, algorithm := h.algorithm, modeOfUse := h.modeOfUse, versionNum := h.versionNum, exportability := h.exportability, reserved := h.reserved, blocks := ⟨loadFold [] (trips.map Prod.fst)⟩ }, ?_, ?_, rfl, rfl, rfl, rfl, rfl, rfl, rfl, ?_, ?_⟩
  · rw [hD]
    simp only [GRes.orNil_ok, GRes.ok_bind]
    exact hw
  · rw [show (h.versionID ++ decPad 4 (16 + 4 + M * 2 + (16 - (2 + M) % 16) * 2 + 16 * 2 + area.length) ++ h.keyUsage ++ h.algorithm ++ h.modeOfUse ++ h.versionNum ++ h.exportability ++ decPad 2 cnt ++ h.reserved ++ area ++ hexEncode ct ++ hexEncode mac) = (h.versionID ++ decPad 4 (16 + 4 + M * 2 + (16 - (2 + M) % 16) * 2 + 16 * 2 + area.length) ++ h.keyUsage ++ h.algorithm ++ h.modeOfUse ++ h.versionNum ++ h.exportability ++ decPad 2 cnt ++ h.reserved ++ (area ++ (hexEncode ct ++ hexEncode mac))) from by simp [List.append_assoc]]
    simp only [KeyBlock.unwrap]
    rw [if_neg (by omega)]
    rw [hld]
    simp only [GRes.ok_bind]
    rw [hsub14]
    rw [if_neg (by simp [asciiNumeric_decPad])]
    rw [stringToInt_decPad]
    rw [if_neg (not_not_intro (by omega))]
    rw [hbs]
    rw [if_neg (by omega)]
    rw [if_neg (not_not_intro (by omega))]
    rw [hmacl]
    rw [if_pos (by omega)]
    rw [hdropHL]
    rw [if_pos (by
      rw [List.length_append, length_hexEncode, length_hexEncode, hmacl16]
      omega)]
    rw [hdropM]
    simp only [hexDecode_hexEncode hmacb]
    rw [if_neg (not_not_intro hmacl16)]
    rw [htakeM]
    simp only [hexDecode_hexEncode hctb]
    rw [if_neg (by rw [hV]; decide)]
    rw [if_pos hV]
    rw [htakeHL]
    simp only [hu, GRes.ok_bind]
  · rw [hKBL]
    have hol : (h.versionID ++ decPad 4 (16 + 4 + M * 2 + (16 - (2 + M) % 16) * 2 + 16 * 2 + area.length) ++ h.keyUsage ++ h.algorithm ++ h.modeOfUse ++ h.versionNum ++ h.exportability ++ decPad 2 cnt ++ h.reserved ++ area ++ hexEncode ct ++ hexEncode mac).length = (h.versionID ++ decPad 4 (16 + 4 + M * 2 + (16 - (2 + M) % 16) * 2 + 16 * 2 + area.length) ++ h.keyUsage ++ h.algorithm ++ h.modeOfUse ++ h.versionNum ++ h.exportability ++ decPad 2 cnt ++ h.reserved ++ area).length + (2 * ct.length + 2 * 16) := by
      rw [List.length_append, List.length_append, length_hexEncode, length_hexEncode, hmacl16]
      omega
    rw [hol, hhl]
    omega
  · rw [hKBL]
    rw [show (h.versionID ++ decPad 4 (16 + 4 + M * 2 + (16 - (2 + M) % 16) * 2 + 16 * 2 + area.length) ++ h.keyUsage ++ h.algorithm ++ h.modeOfUse ++ h.versionNum ++ h.exportability ++ decPad 2 cnt ++ h.reserved ++ area ++ hexEncode ct ++ hexEncode mac) = (h.versionID ++ decPad 4 (16 + 4 + M * 2 + (16 - (2 + M) % 16) * 2 + 16 * 2 + area.length)) ++ (h.keyUsage ++ (h.algorithm ++ (h.modeOfUse ++ (h.versionNum ++ (h.exportability ++ (decPad 2 cnt ++ (h.reserved ++ (area ++ (hexEncode ct ++ hexEncode mac))))))))) from by
      simp [List.append_assoc]]
    rw [show (5 : Nat) = (h.versionID ++ decPad 4 (16 + 4 + M * 2 + (16 - (2 + M) % 16) * 2 + 16 * 2 + area.length)).length from by
      rw [List.length_append, hv1, hd4]]
    exact List.take_left _ _

theorem facadeC_aux (cs : CipherSuite) (good : cs.Good) (kbpk : List Nat) (h h0 : Header)
    (key : List Nat) (rnd : Nat → Nat) (M : Nat)
    (hv : ValidHeader h) (hV : h.versionID = bts "A" ∨ h.versionID = bts "C")
    (hkbl : kbpk.length = 8 ∨ kbpk.length = 16 ∨ kbpk.length = 24)
    (hkey : Bytes key) (hklen : key.length ≤ 8191) (hMk : key.length ≤ M)
    (hfit : dumpKbLen h M ≤ 9999) (hcnt : dumpCount h ≤ 99) :
    ∃ out h2,
      (h.dump M).orNil.bind (fun headerDump =>
        cWrap cs ⟨kbpk, h⟩ headerDump key (M - key.length) rnd) = .ok out ∧
      KeyBlock.unwrap cs ⟨kbpk, h0⟩ out = .ok (key, h2) ∧
      h2.versionID = h.versionID ∧ h2.keyUsage = h.keyUsage ∧
      h2.algorithm = h.algorithm ∧ h2.modeOfUse = h.modeOfUse ∧
      h2.versionNum = h.versionNum ∧ h2.exportability = h.exportability ∧
      h2.reserved = h.reserved ∧
      out.length = dumpKbLen h M ∧
      List.take 5 out = h.versionID ++ decPad 4 (dumpKbLen h M) := by
  have hv' := hv
  obtain ⟨hvid, hku2, hkual, hal1, halal, hmu1, hmual, hvn2, hvnal, hex1, hexal,
    hres2, hresal, hwfb⟩ := hv'
  have hv1 : h.versionID.length = 1 := versionID_length hv
  have hbs : versionAlgoBlockSize h.versionID = 8 := by
    rcases hV with h1 | h1 <;> rw [h1] <;> decide
  have hmacl : versionKeyBlockMacLen h.versionID = 4 := by
    rcases hV with h1 | h1 <;> rw [h1] <;> decide
  have hva : Bytes h.versionID := by
    rcases hV with h1 | h1 <;> rw [h1] <;> decide
  obtain ⟨cnt, area, trips, hdump, harea, hab, hflat, henc, htlen⟩ :=
    dump_trips h.blocks 8 hwfb (by omega) (by omega)
  have hcnt99 : cnt ≤ 99 := by
    simp only [dumpCount, hbs, hdump] at hcnt
    exact hcnt
  have hKBL : dumpKbLen h M = 16 + 4 + M * 2 + (8 - (2 + M) % 8) * 2 + 4 * 2 + area.length := by
    simp only [dumpKbLen, hbs, hmacl, hdump]
  have hfit9 : 16 + 4 + M * 2 + (8 - (2 + M) % 8) * 2 + 4 * 2 + area.length ≤ 9999 := by omega
  have hD : h.dump M = .ok (h.versionID ++ decPad 4 (16 + 4 + M * 2 + (8 - (2 + M) % 8) * 2 + 4 * 2 + area.length) ++ h.keyUsage ++ h.algorithm ++ h.modeOfUse ++ h.versionNum ++ h.exportability ++ decPad 2 cnt ++ h.reserved ++ area) := by
    have hD0 := headerDump_eq h M cnt area (by rw [hbs]; omega) (by rw [hbs]; exact hdump)
      (by rw [hbs, hmacl]; exact hfit9)
    rw [hbs, hmacl] at hD0
    exact hD0
  have hd4 : (decPad 4 (16 + 4 + M * 2 + (8 - (2 + M) % 8) * 2 + 4 * 2 + area.length)).length = 4 := by
    refine length_decPad 4 _ ?_
    norm_num
    omega
  have hd2 : (decPad 2 cnt).length = 2 := by
    refine length_decPad 2 _ ?_
    omega
  have hhl : (h.versionID ++ decPad 4 (16 + 4 + M * 2 + (8 - (2 + M) % 8) * 2 + 4 * 2 + area.length) ++ h.keyUsage ++ h.algorithm ++ h.modeOfUse ++ h.versionNum ++ h.exportability ++ decPad 2 cnt ++ h.reserved ++ area).length = 16 + area.length := by
    simp [List.length_append, hv1, hku2, hal1, hmu1, hvn2, hex1, hres2, hd4, hd2]
    omega
  have hhb : Bytes (h.versionID ++ decPad 4 (16 + 4 + M * 2 + (8 - (2 + M) % 8) * 2 + 4 * 2 + area.length) ++ h.keyUsage ++ h.algorithm ++ h.modeOfUse ++ h.versionNum ++ h.exportability ++ decPad 2 cnt ++ h.reserved ++ area) :=
    Bytes_append (Bytes_append (Bytes_append (Bytes_append (Bytes_append (Bytes_append
      (Bytes_append (Bytes_append (Bytes_append hva (Bytes_decPad 4 _))
        (Bytes_of_alnum hkual)) (Bytes_of_alnum halal)) (Bytes_of_alnum hmual))
        (Bytes_of_alnum hvnal)) (Bytes_of_alnum hexal)) (Bytes_decPad 2 _))
        (Bytes_of_alnum hresal)) hab
  obtain ⟨ct, mac, hw, hctl, hctb, hmacl4, hmacb, hu⟩ :=
    c_roundtrip cs good ⟨kbpk, h⟩ ⟨kbpk, { versionID := h.versionID, keyUsage := h.keyUsage, algorithm := h.algorithm, modeOfUse := h.modeOfUse, versionNum := h.versionNum, exportability := h.exportability, reserved := h.reserved, blocks := ⟨loadFold [] (trips.map Prod.fst)⟩ }⟩
      (h.versionID ++ decPad 4 (16 + 4 + M * 2 + (8 - (2 + M) % 8) * 2 + 4 * 2 + area.length) ++ h.keyUsage ++ h.algorithm ++ h.modeOfUse ++ h.versionNum ++ h.exportability ++ decPad 2 cnt ++ h.reserved ++ area) key (M - key.length) rnd hkbl rfl hkey hklen
      (by rw [hhl]; omega) hhb
  have hLSlen : (h.versionID ++ decPad 4 (16 + 4 + M * 2 + (8 - (2 + M) % 8) * 2 + 4 * 2 + area.length) ++ h.keyUsage ++ h.algorithm ++ h.modeOfUse ++ h.versionNum ++ h.exportability ++ decPad 2 cnt ++ h.reserved ++ (area ++ (hexEncodeUpper ct ++ hexEncodeUpper mac))).length = 16 + area.length + (2 * ct.length + 2 * 4) := by
    simp [List.length_append, hv1, hku2, hal1, hmu1, hvn2, hex1, hres2, hd4, hd2,
      length_hexEncodeUpper, hmacl4]
    omega
  have hld := headerLoad_dump h0 h hv (16 + 4 + M * 2 + (8 - (2 + M) % 8) * 2 + 4 * 2 + area.length) trips (hexEncodeUpper ct ++ hexEncodeUpper mac)
    henc (by rw [List.length_append, length_hexEncodeUpper, length_hexEncodeUpper, hmacl4]; omega)
    (by omega) hfit9
  rw [htlen, hflat] at hld
  have hre : (h.versionID ++ decPad 4 (16 + 4 + M * 2 + (8 - (2 + M) % 8) * 2 + 4 * 2 + area.length) ++ h.keyUsage ++ h.algorithm ++ h.modeOfUse ++ h.versionNum ++ h.exportability ++ decPad 2 cnt ++ h.reserved ++ (area ++ (hexEncodeUpper ct ++ hexEncodeUpper mac))) = (h.versionID ++ decPad 4 (16 + 4 + M * 2 + (8 - (2 + M) % 8) * 2 + 4 * 2 + area.length) ++ h.keyUsage ++ h.algorithm ++ h.modeOfUse ++ h.versionNum ++ h.exportability ++ decPad 2 cnt ++ h.reserved ++ area) ++ (hexEncodeUpper ct ++ hexEncodeUpper mac) := by
    simp [List.append_assoc]
  have hsub14 : sub (h.versionID ++ decPad 4 (16 + 4 + M * 2 + (8 - (2 + M) % 8) * 2 + 4 * 2 + area.length) ++ h.keyUsage ++ h.algorithm ++ h.modeOfUse ++ h.versionNum ++ h.exportability ++ decPad 2 cnt ++ h.reserved ++ (area ++ (hexEncodeUpper ct ++ hexEncodeUpper mac))) 1 4 = decPad 4 (16 + 4 + M * 2 + (8 - (2 + M) % 8) * 2 + 4 * 2 + area.length) := by
    rw [show (h.versionID ++ decPad 4 (16 + 4 + M * 2 + (8 - (2 + M) % 8) * 2 + 4 * 2 + area.length) ++ h.keyUsage ++ h.algorithm ++ h.modeOfUse ++ h.versionNum ++ h.exportability ++ decPad 2 cnt ++ h.reserved ++ (area ++ (hexEncodeUpper ct ++ hexEncodeUpper mac))) = h.versionID ++ (decPad 4 (16 + 4 + M * 2 + (8 - (2 + M) % 8) * 2 + 4 * 2 + area.length) ++ (h.keyUsage ++ (h.algorithm ++ (h.modeOfUse ++ (h.versionNum ++ (h.exportability ++ (decPad 2 cnt ++ (h.reserved ++ (area ++ (hexEncodeUpper ct ++ hexEncodeUpper mac)))))))))) from by
      simp [List.append_assoc]]
    exact sub_exact _ _ _ _ _ hv1 hd4
  have hdropHL : (h.versionID ++ decPad 4 (16 + 4 + M * 2 + (8 - (2 + M) % 8) * 2 + 4 * 2 + area.length) ++ h.keyUsage ++ h.algorithm ++ h.modeOfUse ++ h.versionNum ++ h.exportability ++ decPad 2 cnt ++ h.reserved ++ (area ++ (hexEncodeUpper ct ++ hexEncodeUpper mac))).drop (16 + area.length) =
      hexEncodeUpper ct ++ hexEncodeUpper mac := by
    rw [hre, show 16 + area.length = (h.versionID ++ decPad 4 (16 + 4 + M * 2 + (8 - (2 + M) % 8) * 2 + 4 * 2 + area.length) ++ h.keyUsage ++ h.algorithm ++ h.modeOfUse ++ h.versionNum ++ h.exportability ++ decPad 2 cnt ++ h.reserved ++ area).length from hhl.symm]
    exact List.drop_left _ _
  have htakeHL : (h.versionID ++ decPad 4 (16 + 4 + M * 2 + (8 - (2 + M) % 8) * 2 + 4 * 2 + area.length) ++ h.keyUsage ++ h.algorithm ++ h.modeOfUse ++ h.versionNum ++ h.exportability ++ decPad 2 cnt ++ h.reserved ++ (area ++ (hexEncodeUpper ct ++ hexEncodeUpper mac))).take (16 + area.length) = (h.versionID ++ decPad 4 (16 + 4 + M * 2 + (8 - (2 + M) % 8) * 2 + 4 * 2 + area.length) ++ h.keyUsage ++ h.algorithm ++ h.modeOfUse ++ h.versionNum ++ h.exportability ++ decPad 2 cnt ++ h.reserved ++ area) := by
    rw [hre, show 16 + area.length = (h.versionID ++ decPad 4 (16 + 4 + M * 2 + (8 - (2 + M) % 8) * 2 + 4 * 2 + area.length) ++ h.keyUsage ++ h.algorithm ++ h.modeOfUse ++ h.versionNum ++ h.exportability ++ decPad 2 cnt ++ h.reserved ++ area).length from hhl.symm]
    exact List.take_left _ _
  have hdropM : (hexEncodeUpper ct ++ hexEncodeUpper mac).drop
      ((hexEncodeUpper ct ++ hexEncodeUpper mac).length - 4 * 2) = hexEncodeUpper mac := by
    rw [show (hexEncodeUpper ct ++ hexEncodeUpper mac).length - 4 * 2 =
        (hexEncodeUpper ct).length from by
      rw [List.length_append, length_hexEncodeUpper, length_hexEncodeUpper, hmacl4]
      omega]
    exact List.drop_left _ _
  have htakeM : (hexEncodeUpper ct ++ hexEncodeUpper mac).take
      ((hexEncodeUpper ct ++ hexEncodeUpper mac).length - 4 * 2) = hexEncodeUpper ct := by
    rw [show (hexEncodeUpper ct ++ hexEncodeUpper mac).length - 4 * 2 =
        (hexEncodeUpper ct).length from by
      rw [List.length_append, length_hexEncodeUpper, length_hexEncodeUpper, hmacl4]
      omega]
    exact List.take_left _ _
  refine ⟨h.versionID ++ decPad 4 (16 + 4 + M * 2 + (8 - (2 + M) % 8) * 2 + 4 * 2 + area.length) ++ h.keyUsage ++ h.algorithm ++ h.modeOfUse ++ h.versionNum ++ h.exportability ++ decPad 2 cnt ++ h.reserved ++ area ++ hexEncodeUpper ct ++ hexEncodeUpper mac, { versionID := h.versionID, keyUsage := h.keyUsage, algorithm := h.algorithm, modeOfUse := h.modeOfUse, versionNum := h.versionNum, exportability := h.exportability, reserved := h.reserved, blocks := ⟨loadFold [] (trips.map Prod.fst)⟩ }, ?_, ?_, rfl, rfl, rfl, rfl, rfl, rfl, rfl, ?_, ?_⟩
  · rw [hD]
    simp only [GRes.orNil_ok, GRes.ok_bind]
    exact hw
  · rw [show (h.versionID ++ decPad 4 (16 + 4 + M * 2 + (8 - (2 + M) % 8) * 2 + 4 * 2 + area.length) ++ h.keyUsage ++ h.algorithm ++ h.modeOfUse ++ h.versionNum ++ h.exportability ++ decPad 2 cnt ++ h.reserved ++ area ++ hexEncodeUpper ct ++ hexEncodeUpper mac) = (h.versionID ++ decPad 4 (16 + 4 + M * 2 + (8 - (2 + M) % 8) * 2 + 4 * 2 + area.length) ++ h.keyUsage ++ h.algorithm ++ h.modeOfUse ++ h.versionNum ++ h.exportability ++ decPad 2 cnt ++ h.reserved ++ (area ++ (hexEncodeUpper ct ++ hexEncodeUpper mac))) from by simp [List.append_assoc]]
    simp only [KeyBlock.unwrap]
    rw [if_neg (by omega)]
    rw [hld]
    simp only [GRes.ok_bind]
    rw [hsub14]
    rw [if_neg (by simp [asciiNumeric_decPad])]
    rw [stringToInt_decPad]
    rw [if_neg (not_not_intro (by omega))]
    rw [hbs]
    rw [if_neg (by omega)]
    rw [if_neg (not_not_intro (by omega))]
    rw [hmacl]
    rw [if_pos (by omega)]
    rw [hdropHL]
    rw [if_pos (by
      rw [List.length_append, length_hexEncodeUpper, length_hexEncodeUpper, hmacl4]
      omega)]
    rw [hdropM]
    simp only [hexDecode_hexEncodeUpper hmacb]
    rw [if_neg (not_not_intro hmacl4)]
    rw [htakeM]
    simp only [hexDecode_hexEncodeUpper hctb]
    rw [if_neg (by rcases hV with h1 | h1 <;> rw [h1] <;> decide)]
    rw [if_neg (by rcases hV with h1 | h1 <;> rw [h1] <;> decide)]
    rw [if_pos (by rcases hV with h1 | h1 <;> simp [h1])]
    rw [htakeHL]
    simp only [hu, GRes.ok_bind]
  · rw [hKBL]
    have hol : (h.versionID ++ decPad 4 (16 + 4 + M * 2 + (8 - (2 + M) % 8) * 2 + 4 * 2 + area.length) ++ h.keyUsage ++ h.algorithm ++ h.modeOfUse ++ h.versionNum ++ h.exportability ++ decPad 2 cnt ++ h.reserved ++ area ++ hexEncodeUpper ct ++ hexEncodeUpper mac).length = (h.versionID ++ decPad 4 (16 + 4 + M * 2 + (8 - (2 + M) % 8) * 2 + 4 * 2 + area.length) ++ h.keyUsage ++ h.algorithm ++ h.modeOfUse ++ h.versionNum ++ h.exportability ++ decPad 2 cnt ++ h.reserved ++ area).length + (2 * ct.length + 2 * 4) := by
      rw [List.length_append, List.length_append, length_hexEncodeUpper,
        length_hexEncodeUpper, hmacl4]
      omega
    rw [hol, hhl]
    omega
  · rw [hKBL]
    rw [show (h.versionID ++ decPad 4 (16 + 4 + M * 2 + (8 - (2 + M) % 8) * 2 + 4 * 2 + area.length) ++ h.keyUsage ++ h.algorithm ++ h.modeOfUse ++ h.versionNum ++ h.exportability ++ decPad 2 cnt ++ h.reserved ++ area ++ hexEncodeUpper ct ++ hexEncodeUpper mac) = (h.versionID ++ decPad 4 (16 + 4 + M * 2 + (8 - (2 + M) % 8) * 2 + 4 * 2 + area.length)) ++ (h.keyUsage ++ (h.algorithm ++ (h.modeOfUse ++ (h.versionNum ++ (h.exportability ++ (decPad 2 cnt ++ (h.reserved ++ (area ++ (hexEncodeUpper ct ++ hexEncodeUpper mac))))))))) from by
      simp [List.append_assoc]]
    rw [show (5 : Nat) = (h.versionID ++ decPad 4 (16 + 4 + M * 2 + (8 - (2 + M) % 8) * 2 + 4 * 2 + area.length)).length from by
      rw [List.length_append, hv1, hd4]]
    exact List.take_left _ _

theorem wrap_unwrap_ok (cs : CipherSuite) (good : cs.Good) (kbpk : List Nat)
    (h h0 : Header) (key : List Nat) (rnd : Nat → Nat)
    (hv : ValidHeader h) (hkb : allowedKbpk h.versionID kbpk.length)
    (hkey : Bytes key) (hklen : key.length ≤ 8191)
    (hfit : dumpKbLen h (maskedLenFor h key) ≤ 9999)
    (hcnt : dumpCount h ≤ 99) :
    ∃ out h2,
      KeyBlock.wrap cs ⟨kbpk, h⟩ key none rnd = .ok out ∧
      KeyBlock.unwrap cs ⟨kbpk, h0⟩ out = .ok (key, h2) ∧
      h2.versionID = h.versionID ∧ h2.keyUsage = h.keyUsage ∧
      h2.algorithm = h.algorithm ∧ h2.modeOfUse = h.modeOfUse ∧
      h2.versionNum = h.versionNum ∧ h2.exportability = h.exportability ∧
      h2.reserved = h.reserved ∧
      out.length = dumpKbLen h (maskedLenFor h key) ∧
      List.take 5 out = h.versionID ++ decPad 4 (dumpKbLen h (maskedLenFor h key)) := by
  have hMk : key.length ≤ maskedLenFor h key := by
    rcases hA : algoMaxKeyLen h.algorithm with _ | maxLen
    · simp only [maskedLenFor, hA]
      omega
    · simp only [maskedLenFor, hA]
      omega
  rcases hv.1 with hV | hV | hV | hV
  · have hkbl := hkb
    rw [allowedKbpk, hV, if_neg (by decide), if_neg (by decide)] at hkbl
    obtain ⟨out, h2, hwaux, hu, f1, f2, f3, f4, f5, f6, f7, hol, ht5⟩ :=
      facadeC_aux cs good kbpk h h0 key rnd (maskedLenFor h key) hv (Or.inl hV)
        hkbl hkey hklen hMk hfit hcnt
    refine ⟨out, h2, ?_, hu, f1, f2, f3, f4, f5, f6, f7, hol, ht5⟩
    have hvs : versionSupported h.versionID = true := by rw [hV]; decide
    simp only [KeyBlock.wrap, hvs, Bool.not_true, Bool.false_eq_true, if_false, hV,
      show (bts "A" = bts "B") = False from eq_false (by decide),
      show (bts "A" = bts "D") = False from eq_false (by decide),
      Bool.or_eq_true, decide_eq_true_eq, eq_self_iff_true, true_or, or_true, if_true]
    exact hwaux
  · have hkbl := hkb
    rw [allowedKbpk, hV, if_pos rfl] at hkbl
    obtain ⟨out, h2, hwaux, hu, f1, f2, f3, f4, f5, f6, f7, hol, ht5⟩ :=
      facadeB_aux cs good kbpk h h0 key rnd (maskedLenFor h key) hv hV
        hkbl hkey hklen hMk hfit hcnt
    refine ⟨out, h2, ?_, hu, f1, f2, f3, f4, f5, f6, f7, hol, ht5⟩
    have hvs : versionSupported h.versionID = true := by rw [hV]; decide
    simp only [KeyBlock.wrap, hvs, Bool.not_true, Bool.false_eq_true, if_false, hV,
      eq_self_iff_true, if_true]
    exact hwaux
  · have hkbl := hkb
    rw [allowedKbpk, hV, if_neg (by decide), if_neg (by decide)] at hkbl
    obtain ⟨out, h2, hwaux, hu, f1, f2, f3, f4, f5, f6, f7, hol, ht5⟩ :=
      facadeC_aux cs good kbpk h h0 key rnd (maskedLenFor h key) hv (Or.inr hV)
        hkbl hkey hklen hMk hfit hcnt
    refine ⟨out, h2, ?_, hu, f1, f2, f3, f4, f5, f6, f7, hol, ht5⟩
    have hvs : versionSupported h.versionID = true := by rw [hV]; decide
    simp only [KeyBlock.wrap, hvs, Bool.not_true, Bool.false_eq_true, if_false, hV,
      show (bts "C" = bts "B") = False from eq_false (by decide),
      show (bts "C" = bts "D") = False from eq_false (by decide),
      Bool.or_eq_true, decide_eq_true_eq, eq_self_iff_true, true_or, or_true, if_true]
    exact hwaux
  · have hkbl := hkb
    rw [allowedKbpk, hV, if_neg (by decide), if_pos rfl] at hkbl
    obtain ⟨out, h2, hwaux, hu, f1, f2, f3, f4, f5, f6, f7, hol, ht5⟩ :=
      facadeD_aux cs good kbpk h h0 key rnd (maskedLenFor h key) hv hV
        hkbl hkey hklen hMk hfit hcnt
    refine ⟨out, h2, ?_, hu, f1, f2, f3, f4, f5, f6, f7, hol, ht5⟩
    have hvs : versionSupported h.versionID = true := by rw [hV]; decide
    simp only [KeyBlock.wrap, hvs, Bool.not_true, Bool.false_eq_true, if_false, hV,
      show (bts "D" = bts "B") = False from eq_false (by decide),
      eq_self_iff_true, if_true, if_false]
    exact hwaux

theorem map_mod_bytes {p : List Nat} (h : Bytes p) : p.map (· % 256) = p := by
  induction p with
  | nil => rfl
  | cons x xs ih =>
    rw [List.map_cons, Nat.mod_eq_of_lt (h x (List.mem_cons_self _ _)),
      ih (fun b hb => h b (List.mem_cons_of_mem _ hb))]

theorem map_mod_bytes' (p : List Nat) : Bytes (p.map (· % 256)) := by
  intro b hb
  obtain ⟨y, _, hy⟩ := List.mem_map.mp hb
  omega

theorem idSuite_good : idSuite.Good := by
  refine ⟨?_, ?_, ?_, ?_, ?_, ?_, ?_, ?_, ?_, ?_⟩
  · intro k b
    exact List.length_map _ _
  · intro k b
    exact map_mod_bytes' b
  · intro k iv p
    exact List.length_map _ _
  · intro k iv p
    exact map_mod_bytes' p
  · intro k iv p _ hp _
    show (p.map (· % 256)).map (· % 256) = p
    rw [map_mod_bytes (map_mod_bytes' p), map_mod_bytes hp]
  · intro k b
    exact List.length_map _ _
  · intro k b
    exact map_mod_bytes' b
  · intro k iv p
    exact List.length_map _ _
  · intro k iv p
    exact map_mod_bytes' p
  · intro k iv p _ hp _
    show (p.map (· % 256)).map (· % 256) = p
    rw [map_mod_bytes (map_mod_bytes' p), map_mod_bytes hp]

/-- C1: for every collaborator suite satisfying the §6 contract, every
version in {A,B,C,D} (via the valid header's version ID), every KBPK whose
byte length the version allows, every valid header, and every byte key small
enough for the two-byte length field whose masked length keeps the block
under the 9999-character and 99-block limits, `Wrap key nil` succeeds and
`Unwrap` of its output on a key block holding the same KBPK (and any initial
header) returns exactly the key, with the recovered header carrying the same
six fixed fields as the wrapped header — for every value of the random pad
stream. -/
theorem C1_wrap_unwrap_roundtrip (cs : CipherSuite) (good : cs.Good) (kbpk : List Nat)
    (h h0 : Header) (key : List Nat) (rnd : Nat → Nat)
    (hv : ValidHeader h) (hkb : allowedKbpk h.versionID kbpk.length)
    (hkey : Bytes key) (hklen : key.length ≤ 8191)
    (hfit : dumpKbLen h (maskedLenFor h key) ≤ 9999)
    (hcnt : dumpCount h ≤ 99) :
    ∃ out h2,
      KeyBlock.wrap cs ⟨kbpk, h⟩ key none rnd = .ok out ∧
      KeyBlock.unwrap cs ⟨kbpk, h0⟩ out = .ok (key, h2) ∧
      h2.versionID = h.versionID ∧ h2.keyUsage = h.keyUsage ∧
      h2.algorithm = h.algorithm ∧ h2.modeOfUse = h.modeOfUse ∧
      h2.versionNum = h.versionNum ∧ h2.exportability = h.exportability := by
  obtain ⟨out, h2, hw, hu, f1, f2, f3, f4, f5, f6, _, _, _⟩ :=
    wrap_unwrap_ok cs good kbpk h h0 key rnd hv hkb hkey hklen hfit hcnt
  exact ⟨out, h2, hw, hu, f1, f2, f3, f4, f5, f6⟩

theorem Bytes_all {l : List Nat} (h : l.all (fun b => b < 256) = true) : Bytes l := by
  intro b hb
  have := List.all_eq_true.mp h b hb
  simpa using this

theorem validHeader_c5 : ValidHeader c5Header :=
  ⟨Or.inr (Or.inl (by decide)), by decide, by decide, by decide, by decide, by decide,
    by decide, by decide, by decide, by decide, by decide, by decide, by decide,
    fun p hp => absurd hp (List.not_mem_nil p)⟩

theorem allowedKbpk_c5 : allowedKbpk c5Header.versionID c5Kbpk.length := by
  rw [allowedKbpk, if_pos (show c5Header.versionID = bts "B" from by decide)]
  exact Or.inl (by decide)

theorem C1_wrap_unwrap_roundtrip_witness :
    ∃ out h2,
      KeyBlock.wrap idSuite ⟨c5Kbpk, c5Header⟩ c5Key none (fun _ => 0) = .ok out ∧
      KeyBlock.unwrap idSuite ⟨c5Kbpk, defaultHeader⟩ out = .ok (c5Key, h2) ∧
      h2.versionID = c5Header.versionID ∧ h2.keyUsage = c5Header.keyUsage ∧
      h2.algorithm = c5Header.algorithm ∧ h2.modeOfUse = c5Header.modeOfUse ∧
      h2.versionNum = c5Header.versionNum ∧ h2.exportability = c5Header.exportability :=
  C1_wrap_unwrap_roundtrip idSuite idSuite_good c5Kbpk c5Header defaultHeader c5Key
    (fun _ => 0) validHeader_c5 allowedKbpk_c5 (Bytes_all (by decide)) (by decide)
    (by decide) (by decide)

/-- C5 (corrected output length): with the 16-byte KBPK
`0123456789ABCDEFFEDCBA9876543210`, header fields `B/P0/T/E/00/E/00`, the
16-byte key `0123456789ABCDEF0123456789ABCDEF` and no explicit masked key
length, for every contract-satisfying cipher suite and every random pad
stream `Wrap` emits a 96-character string whose first five characters are
`"B0096"` (the algorithm-`T` masking pads the key to 24 bytes, so the block
is 96 characters, not the claimed 80 with prefix `"B0080"`), and `Unwrap` of
that string (from any initial header state) returns exactly the original
16-byte key. -/
theorem C5_roundtrip_emits_B0096 (cs : CipherSuite) (good : cs.Good)
    (rnd : Nat → Nat) (h0 : Header) :
    ∃ out h2,
      KeyBlock.wrap cs ⟨c5Kbpk, c5Header⟩ c5Key none rnd = .ok out ∧
      out.length = 96 ∧ List.take 5 out = bts "B0096" ∧
      KeyBlock.unwrap cs ⟨c5Kbpk, h0⟩ out = .ok (c5Key, h2) := by
  obtain ⟨out, h2, hw, hu, _, _, _, _, _, _, _, hol, ht5⟩ :=
    wrap_unwrap_ok cs good c5Kbpk c5Header h0 c5Key rnd validHeader_c5 allowedKbpk_c5
      (Bytes_all (by decide)) (by decide) (by decide) (by decide)
  refine ⟨out, h2, hw, ?_, ?_, hu⟩
  · rw [hol]
    decide
  · rw [ht5]
    decide

theorem C5_roundtrip_emits_B0096_witness :
    ∃ out h2,
      KeyBlock.wrap idSuite ⟨c5Kbpk, c5Header⟩ c5Key none (fun _ => 0) = .ok out ∧
      out.length = 96 ∧ List.take 5 out = bts "B0096" ∧
      KeyBlock.unwrap idSuite ⟨c5Kbpk, defaultHeader⟩ out = .ok (c5Key, h2) :=
  C5_roundtrip_emits_B0096 idSuite idSuite_good (fun _ => 0) defaultHeader

end Tr31
